import Mathlib

/-!
Verification of the `elo` property-graph service (`src/main.rs`) against its
natural-language specification.

The development is a shallow embedding of the Rust source:

* Byte strings handled by the key codec (`encode_component`, `decode_component`,
  `split_two`, …) are modelled as `List Nat`, one `Nat` per byte (values are
  below 256 for bytes coming from a Rust `String`; theorems carry that bound
  as a hypothesis where it matters).  The `String::from_utf8` validation at
  the end of `decode_component` is modelled by an explicit UTF-8 validator.
* The per-scan LRU decode cache (`LruCache`, `decode_component_cached`) is
  embedded directly, with the order deque as a list (front = oldest).
* `f64` values (geohash radii, edge weights, scores) are modelled as `Rat`.
  The structure of every comparison and arithmetic operation is preserved;
  floating-point rounding itself is outside the embedding.
* The in-memory graph cache of the query engines keeps the Rust shape:
  a node map with an insertion-ordered neighbour list per node.
* The persistent store and the handler write paths are embedded as a state
  machine over decoded keys: each redb table becomes a membership function /
  partial map keyed by the decoded components (the codec theorems show the
  encoding layer is injective on composite keys, so this is faithful for all
  rows written by the program).
-/

namespace EloVerify

/-! ### Key codec (src/main.rs `encode_component` .. `split_four_decoded`) -/

/-- The internal separator byte `KEY_SEP = 0x1f`. -/
def keySep : Nat := 31

/-- The escape byte `%`. -/
def pctByte : Nat := 37

/-- `nibble_to_hex`: low nibble to uppercase-hex ASCII byte. -/
def nibble_to_hex (v : Nat) : Nat :=
  if v ≤ 9 then 48 + v
  else if v ≤ 15 then 65 + (v - 10)
  else 48

/-- `hex_to_nibble`: ASCII hex digit byte to its value. -/
def hex_to_nibble (v : Nat) : Option Nat :=
  if 48 ≤ v ∧ v ≤ 57 then some (v - 48)
  else if 97 ≤ v ∧ v ≤ 102 then some (v - 97 + 10)
  else if 65 ≤ v ∧ v ≤ 70 then some (v - 65 + 10)
  else none

/-- A byte is escaped when it is the separator, `%`, or non-ASCII. -/
def mustEscape (b : Nat) : Bool := b = keySep ∨ b = pctByte ∨ 128 ≤ b

/-- `encode_component`: escape `0x1f`, `%` and non-ASCII bytes as `%HH`. -/
def encode_component : List Nat → List Nat
  | [] => []
  | b :: rest =>
    if mustEscape b then
      pctByte :: nibble_to_hex (b / 16) :: nibble_to_hex (b % 16) :: encode_component rest
    else
      b :: encode_component rest

/-- The byte-level part of `decode_component`: undo `%HH` escapes.  A `%`
followed by fewer than two bytes, or by a non-hex byte, fails. -/
def decodeBytes : List Nat → Option (List Nat)
  | [] => some []
  | b :: rest =>
    if b = pctByte then
      match rest with
      | h :: l :: rest2 =>
        match hex_to_nibble h, hex_to_nibble l with
        | some hi, some lo =>
          match decodeBytes rest2 with
          | some d => some ((hi * 16 + lo) :: d)
          | none => none
        | _, _ => none
      | _ => none
    else
      match decodeBytes rest with
      | some d => some (b :: d)
      | none => none

/-- Continuation byte test for UTF-8 (`0x80..=0xBF`). -/
def utf8Cont (b : Nat) : Bool := 128 ≤ b ∧ b ≤ 191

/-- UTF-8 validity of a byte list, mirroring `String::from_utf8`. -/
def utf8Valid : List Nat → Bool
  | [] => true
  | b :: rest =>
    if b ≤ 127 then utf8Valid rest
    else if 194 ≤ b ∧ b ≤ 223 then
      match rest with
      | c :: rest2 => utf8Cont c && utf8Valid rest2
      | [] => false
    else if b = 224 then
      match rest with
      | c1 :: c2 :: rest2 => (decide (160 ≤ c1 ∧ c1 ≤ 191)) && utf8Cont c2 && utf8Valid rest2
      | _ => false
    else if (225 ≤ b ∧ b ≤ 236) ∨ b = 238 ∨ b = 239 then
      match rest with
      | c1 :: c2 :: rest2 => utf8Cont c1 && utf8Cont c2 && utf8Valid rest2
      | _ => false
    else if b = 237 then
      match rest with
      | c1 :: c2 :: rest2 => (decide (128 ≤ c1 ∧ c1 ≤ 159)) && utf8Cont c2 && utf8Valid rest2
      | _ => false
    else if b = 240 then
      match rest with
      | c1 :: c2 :: c3 :: rest2 =>
        (decide (144 ≤ c1 ∧ c1 ≤ 191)) && utf8Cont c2 && utf8Cont c3 && utf8Valid rest2
      | _ => false
    else if 241 ≤ b ∧ b ≤ 243 then
      match rest with
      | c1 :: c2 :: c3 :: rest2 => utf8Cont c1 && utf8Cont c2 && utf8Cont c3 && utf8Valid rest2
      | _ => false
    else if b = 244 then
      match rest with
      | c1 :: c2 :: c3 :: rest2 =>
        (decide (128 ≤ c1 ∧ c1 ≤ 143)) && utf8Cont c2 && utf8Cont c3 && utf8Valid rest2
      | _ => false
    else false

/-- `decode_component`: byte-level unescaping followed by UTF-8 validation. -/
def decode_component (v : List Nat) : Option (List Nat) :=
  match decodeBytes v with
  | some bs => if utf8Valid bs then some bs else none
  | none => none

/-- A value that can occur as a Rust `String`: bytes below 256, valid UTF-8. -/
def ValidStr (s : List Nat) : Prop := (∀ b ∈ s, b < 256) ∧ utf8Valid s = true

/-- `split_two`: split at the first separator; `none` when there is none. -/
def split_two : List Nat → Option (List Nat × List Nat)
  | [] => none
  | b :: rest =>
    if b = keySep then some ([], rest)
    else
      match split_two rest with
      | some (x, y) => some (b :: x, y)
      | none => none

/-- `split_three` = `splitn(3, S)`: the third part keeps later separators. -/
def split_three (v : List Nat) : Option (List Nat × List Nat × List Nat) :=
  match split_two v with
  | some (a, r) =>
    match split_two r with
    | some (b, c) => some (a, b, c)
    | none => none
  | none => none

/-- `split_four` = `splitn(4, S)`. -/
def split_four (v : List Nat) : Option (List Nat × List Nat × List Nat × List Nat) :=
  match split_two v with
  | some (a, r) =>
    match split_three r with
    | some (b, c, d) => some (a, b, c, d)
    | none => none
  | none => none

/-- `split_two_decoded`. -/
def split_two_decoded (v : List Nat) : Option (List Nat × List Nat) :=
  match split_two v with
  | some (x, y) =>
    match decode_component x, decode_component y with
    | some a, some b => some (a, b)
    | _, _ => none
  | none => none

/-- `split_three_decoded`. -/
def split_three_decoded (v : List Nat) : Option (List Nat × List Nat × List Nat) :=
  match split_three v with
  | some (x, y, z) =>
    match decode_component x, decode_component y, decode_component z with
    | some a, some b, some c => some (a, b, c)
    | _, _, _ => none
  | none => none

/-- `split_four_decoded`. -/
def split_four_decoded (v : List Nat) : Option (List Nat × List Nat × List Nat × List Nat) :=
  match split_four v with
  | some (x, y, z, w) =>
    match decode_component x, decode_component y, decode_component z, decode_component w with
    | some a, some b, some c, some d => some (a, b, c, d)
    | _, _, _, _ => none
  | none => none

/-- `edge_key`: `E(from) · S · E(to)`. -/
def edge_key (f t : List Nat) : List Nat :=
  encode_component f ++ keySep :: encode_component t

/-- `node_data_key`: `E(id) · S · E(key)`. -/
def node_data_key (id k : List Nat) : List Nat :=
  encode_component id ++ keySep :: encode_component k

/-- `edge_data_key`: `E(from) · S · E(to) · S · E(key)`. -/
def edge_data_key (f t k : List Nat) : List Nat :=
  encode_component f ++ keySep :: (encode_component t ++ keySep :: encode_component k)

/-- `node_index_key` (and `geo_index_key`): `E(key) · S · E(value) · S · E(id)`. -/
def node_index_key (k v id : List Nat) : List Nat :=
  encode_component k ++ keySep :: (encode_component v ++ keySep :: encode_component id)

/-- `edge_index_key`: `E(key) · S · E(value) · S · E(from) · S · E(to)`. -/
def edge_index_key (k v f t : List Nat) : List Nat :=
  encode_component k ++
    keySep :: (encode_component v ++
      keySep :: (encode_component f ++ keySep :: encode_component t))

/-! ### Small LRU decode cache (src/main.rs `LruCache`, `decode_component_cached`) -/

/-- Association-list lookup used to model `HashMap::get` on the LRU map. -/
def lruLookup (m : List (List Nat × List Nat)) (k : List Nat) : Option (List Nat) :=
  (m.find? (fun kv => kv.1 = k)).map (fun kv => kv.2)

/-- The per-scan LRU cache: `order` is the recency deque (front = oldest). -/
structure LruCache where
  capacity : Nat
  order : List (List Nat)
  map : List (List Nat × List Nat)

/-- `LruCache::new`, capacity clamped to at least 1. -/
def LruCache.new (capacity : Nat) : LruCache :=
  ⟨max capacity 1, [], []⟩

/-- `LruCache::touch`: move `k` to the back of the recency deque. -/
def LruCache.touch (c : LruCache) (k : List Nat) : LruCache :=
  if k ∈ c.order then { c with order := c.order.erase k ++ [k] } else c

/-- `LruCache::get`: on a hit, return the value and refresh recency. -/
def LruCache.get (c : LruCache) (k : List Nat) : Option (List Nat) × LruCache :=
  match lruLookup c.map k with
  | some v => (some v, c.touch k)
  | none => (none, c)

/-- `LruCache::insert`: update in place on an existing key, otherwise evict
the least-recently-used entry when full and append the new entry. -/
def LruCache.insert (c : LruCache) (k v : List Nat) : LruCache :=
  if (lruLookup c.map k).isSome then
    ({ c with map := c.map.map (fun kv : List Nat × List Nat =>
      if kv.1 = k then (k, v) else kv) }).touch k
  else
    let c2 :=
      if c.capacity ≤ c.map.length then
        match c.order with
        | oldest :: restOrder =>
          { c with order := restOrder,
                   map := c.map.filter (fun kv : List Nat × List Nat => kv.1 ≠ oldest) }
        | [] => c
      else c
    { c2 with order := c2.order ++ [k], map := c2.map ++ [(k, v)] }

/-- `decode_component_cached`: consult the LRU first, decode and fill on a miss. -/
def decode_component_cached (v : List Nat) (c : LruCache) : Option (List Nat) × LruCache :=
  match c.get v with
  | (some cached, c2) => (some cached, c2)
  | (none, c2) =>
    match decode_component v with
    | some d => (some d, c2.insert v d)
    | none => (none, c2)

/-- LRU cache states reachable from a fresh cache by cached decodes. -/
inductive LruReachable : LruCache → Prop
  | new (capacity : Nat) : LruReachable (LruCache.new capacity)
  | step (c : LruCache) (v : List Nat) :
      LruReachable c → LruReachable (decode_component_cached v c).2

/-! ### Geohash precision (src/main.rs `geohash_precision_for_km`)

`f64` radii are modelled as `Rat`; the table constants below are the exact
decimal values written in the source. -/

/-- The `sizes` table of `geohash_precision_for_km`, in source order. -/
def geohashSizes : List (Nat × Rat) :=
  [(1, 5000), (2, 1250), (3, 156), (4, 391/10), (5, 489/100), (6, 122/100),
   (7, 153/1000), (8, 382/10000), (9, 477/100000)]

/-- `geohash_precision_for_km`: 9 for non-positive radii, otherwise the first
table entry whose cell size is at least the radius, with fallback 1. -/
def geohash_precision_for_km (radius : Rat) : Nat :=
  if radius ≤ 0 then 9
  else
    match geohashSizes.find? (fun ps => radius ≤ ps.2) with
    | some ps => ps.1
    | none => 1

/-! ### String helpers

Kernel-reducible models of `str::trim`, `str::split`, `str::to_lowercase` and
the lexicographic `Ord` on `String` (byte order and scalar-value order agree
for UTF-8). -/

/-- Trim leading and trailing whitespace from a character list. -/
def trimChars (l : List Char) : List Char :=
  ((l.dropWhile Char.isWhitespace).reverse.dropWhile Char.isWhitespace).reverse

/-- Model of `str::trim`. -/
def trimS (s : String) : String := ⟨trimChars s.data⟩

/-- Split a character list on a separator character (no part is dropped). -/
def splitCharsOn (sep : Char) : List Char → List (List Char)
  | [] => [[]]
  | c :: rest =>
    if c = sep then [] :: splitCharsOn sep rest
    else
      match splitCharsOn sep rest with
      | h :: t => (c :: h) :: t
      | [] => [[c]]

/-- Model of `str::split(',')`. -/
def splitOnComma (s : String) : List String :=
  (splitCharsOn ',' s.data).map (fun l => ⟨l⟩)

/-- Model of `str::to_lowercase` (ASCII-level). -/
def lowerS (s : String) : String := ⟨s.data.map Char.toLower⟩

/-- Lexicographic comparison on character lists by scalar value. -/
def lexLeChars : List Char → List Char → Bool
  | [], _ => true
  | _ :: _, [] => false
  | a :: as_, b :: bs =>
    if a.val < b.val then true
    else if b.val < a.val then false
    else lexLeChars as_ bs

/-- Model of `String`'s `Ord` (`left.id.cmp(&right.id)` as a `≤` test). -/
def lexLe (a b : String) : Bool := lexLeChars a.data b.data

/-! ### In-memory graph cache (src/main.rs `Node`, `Edge`, `Graph`)

Identifiers and property strings at this level are Lean `String`s; property
maps are association lists with `HashMap` lookup semantics. -/

/-- `Edge`: a directed neighbour entry.  The Rust field `to` is a reserved
token in Lean and is called `dst` here. -/
structure REdge where
  dst : String
  data : List (String × String)
deriving DecidableEq

/-- `Node`: id, insertion-ordered outgoing edges, property map. -/
structure RNode where
  id : String
  neighbors : List REdge
  data : List (String × String)
deriving DecidableEq

/-- `Graph`: the id → node map of the cache. -/
structure Graph where
  nodes : List (String × RNode)

/-- First-match association lookup (the `HashMap::get` of property maps). -/
def lookupData (data : List (String × String)) (k : String) : Option String :=
  (data.find? (fun kv => kv.1 = k)).map (fun kv => kv.2)

/-- `Graph::get_node`. -/
def Graph.getNode (g : Graph) (id : String) : Option RNode :=
  (g.nodes.find? (fun kv => kv.1 = id)).map (fun kv => kv.2)

/-- A well-formed cache maps each id to a node carrying that id (the Rust
cache only ever inserts `id → Node::new(id)`). -/
def Graph.WF (g : Graph) : Prop :=
  ∀ id n, g.getNode id = some n → n.id = id

mutual

/-- `Graph::dfs`, with explicit fuel standing in for the implicit bound the
Rust recursion gets from the strictly growing visited set; the visited set is
threaded in the second component exactly as the Rust `&mut HashSet`. -/
def dfsAux (g : Graph) : Nat → String → String → List String → Bool × List String
  | 0, _, _, visited => (false, visited)
  | Nat.succ fuel, current, target, visited =>
    if current = target then (true, visited)
    else
      let visited2 := current :: visited
      match g.getNode current with
      | none => (false, visited2)
      | some node => dfsNeighbors g fuel node.neighbors target visited2
termination_by fuel _ _ _ => (fuel, 0)

/-- The neighbour loop of `Graph::dfs`. -/
def dfsNeighbors (g : Graph) (fuel : Nat) :
    List REdge → String → List String → Bool × List String
  | [], _, visited => (false, visited)
  | e :: rest, target, visited =>
    if e.dst ∈ visited then dfsNeighbors g fuel rest target visited
    else
      match dfsAux g fuel e.dst target visited with
      | (true, visited2) => (true, visited2)
      | (false, visited2) => dfsNeighbors g fuel rest target visited2
termination_by l _ _ => (fuel, l.length + 1)

end

/-- Fuel sufficient for any DFS over `g`: more than the number of ids that can
ever be visited. -/
def Graph.sizeBound (g : Graph) : Nat :=
  1 + g.nodes.length + (g.nodes.map (fun kv => kv.2.neighbors.length)).sum

/-- `Graph::exist_path`. -/
def Graph.exist_path (g : Graph) (start target : String) : Bool :=
  (dfsAux g g.sizeBound start target []).1

/-- The `GET /path` handler body (`check_path`). -/
def check_path (g : Graph) (f t : String) : Bool :=
  g.exist_path f t

/-! ### Two-hop recommendation (src/main.rs `recommend_nodes`)

`f64` is modelled as `Rat`.  Two operations on `f64` are not shallowly
embeddable and are abstracted as parameters that every theorem quantifies
over: `parseNum` models `str::parse::<f64>().ok()` and `distKm` models
`haversine_km` (a transcendental function).  Everything downstream of them —
defaulting, weighting, summation, filtering, comparison — is embedded
structurally. -/

/-- The `GET /recommendations` query parameters (`hydrate` re-reads the data
maps of the final candidates and is identity on ids, scores and order; it is
not modelled).  The Rust field `type` is a reserved token and is `qtype`. -/
structure RecommendQuery where
  start : String
  qtype : String
  num_key : Option String
  min : Option Rat
  max : Option Rat
  limit : Option Nat
  geo_key : Option String
  lat : Option Rat
  lon : Option Rat
  radius_km : Option Rat
  exclude_edge_types : Option String
  exclude_ids : Option String

/-- A single recommendation result (before hydration). -/
structure Recommendation where
  id : String
  score : Rat
  data : List (String × String)

/-- The handler error taxonomy relevant here. -/
inductive HError where
  | notFound
  | badRequest
deriving DecidableEq

/-- `parse_csv_set`: comma-split, trim, drop empties (list with set use). -/
def parse_csv_set (v : Option String) : List String :=
  ((splitOnComma (v.getD "")).map trimS).filter (fun s => s ≠ "")

/-- `is_edge_type_excluded`. -/
def is_edge_type_excluded (e : REdge) (excluded : List String) : Bool :=
  match lookupData e.data "type" with
  | some v => excluded.contains v
  | none => false

section Recommend

variable (parseNum : String → Option Rat)

/-- `edge_weight`: the `weight` property parsed as a number, default 1. -/
def edge_weight (e : REdge) : Rat :=
  ((lookupData e.data "weight").bind parseNum).getD 1

/-- `parse_geo_point`: parse `"lat,lon"` with range validation. -/
def parse_geo_point (value : String) : Option (Rat × Rat) :=
  match splitOnComma value with
  | a :: b :: _ =>
    match parseNum (trimS a), parseNum (trimS b) with
    | some lat, some lon =>
      if lat < -90 ∨ lat > 90 ∨ lon < -180 ∨ lon > 180 then none else some (lat, lon)
    | _, _ => none
  | _ => none

/-- The origin resolution of `recommend_nodes`: explicit `lat`/`lon` first,
otherwise the start node's `geo_key` property. -/
def startPoint (q : RecommendQuery) (start : RNode) : Option (Rat × Rat) :=
  match q.lat, q.lon with
  | some lat, some lon => some (lat, lon)
  | _, _ => (lookupData start.data (q.geo_key.getD "location")).bind (parse_geo_point parseNum)

/-- `scores.entry(c).or_insert(0.0); *entry += w`. -/
def addScore (m : List (String × Rat)) (c : String) (w : Rat) : List (String × Rat) :=
  if (m.find? (fun kv => kv.1 = c)).isSome then
    m.map (fun kv : String × Rat => if kv.1 = c then (kv.1, kv.2 + w) else kv)
  else m ++ [(c, w)]

/-- Lookup in the scores accumulator. -/
def scoreLookup (m : List (String × Rat)) (c : String) : Option Rat :=
  (m.find? (fun kv => kv.1 = c)).map (fun kv => kv.2)

/-- The candidate-rejection test of the inner scoring loop: reject the start
node, blocked targets, explicitly excluded ids, and direct neighbours. -/
def rejectCandidate (startId : String) (blocked excludedIds direct : List String)
    (c : String) : Bool :=
  c = startId ∨ blocked.contains c ∨ excludedIds.contains c ∨ direct.contains c

/-- The nested scoring loops of `recommend_nodes`, building the score map in
iteration order. -/
def buildScores (g : Graph) (startId : String) (start : RNode)
    (excludedTypes excludedIds blocked direct : List String) : List (String × Rat) :=
  start.neighbors.foldl
    (fun scores e1 =>
      if is_edge_type_excluded e1 excludedTypes then scores
      else
        let w1 := edge_weight parseNum e1
        match g.getNode e1.dst with
        | none => scores
        | some node =>
          node.neighbors.foldl
            (fun scores e2 =>
              if is_edge_type_excluded e2 excludedTypes then scores
              else if rejectCandidate startId blocked excludedIds direct e2.dst then scores
              else addScore scores e2.dst (w1 * edge_weight parseNum e2))
            scores)
    []

variable (distKm : Rat × Rat → Rat × Rat → Rat)

/-- The post-scoring candidate filter of `recommend_nodes`: the candidate must
be cached, of the requested type, inside `[min,max]` on `num_key` when either
bound is set, and inside the radius when `radius_km` is set. -/
def passesFilters (g : Graph) (q : RecommendQuery) (sp : Option (Rat × Rat))
    (id : String) : Option RNode :=
  match g.getNode id with
  | none => none
  | some node =>
    if lookupData node.data "type" ≠ some q.qtype then none
    else
      let numOk :=
        if q.min.isSome ∨ q.max.isSome then
          match (lookupData node.data (q.num_key.getD "rating")).bind parseNum with
          | none => false
          | some value =>
            (match q.min with | some mn => decide (mn ≤ value) | none => true) &&
            (match q.max with | some mx => decide (value ≤ mx) | none => true)
        else true
      if ¬ numOk then none
      else
        match q.radius_km, sp with
        | some radius, some origin =>
          match (lookupData node.data (q.geo_key.getD "location")).bind
              (parse_geo_point parseNum) with
          | none => none
          | some point =>
            if distKm origin point > radius then none else some node
        | _, _ => some node

/-- The result-collection loop over the score map. -/
def buildResults (g : Graph) (q : RecommendQuery) (sp : Option (Rat × Rat))
    (scores : List (String × Rat)) : List Recommendation :=
  scores.filterMap
    (fun kv : String × Rat =>
      match passesFilters parseNum distKm g q sp kv.1 with
      | none => none
      | some node => some ⟨node.id, kv.2, node.data⟩)

/-- The sort order of `recommend_nodes`: score descending, id ascending. -/
def recLe (a b : Recommendation) : Bool :=
  b.score < a.score ∨ (b.score = a.score ∧ lexLe a.id b.id)

/-- `recommend_nodes` (`GET /recommendations`), up to hydration. -/
def recommend (g : Graph) (q : RecommendQuery) : Except HError (List Recommendation) :=
  match g.getNode q.start with
  | none => .error .notFound
  | some start =>
    let sp := startPoint parseNum q start
    if q.radius_km.isSome ∧ sp.isNone then .error .badRequest
    else
      let excludedTypes := parse_csv_set q.exclude_edge_types
      let excludedIds := parse_csv_set q.exclude_ids
      let blocked :=
        (start.neighbors.filter (fun e => is_edge_type_excluded e excludedTypes)).map
          (fun e => e.dst)
      let direct :=
        (start.neighbors.filter (fun e => ¬ is_edge_type_excluded e excludedTypes)).map
          (fun e => e.dst)
      let scores := buildScores parseNum g q.start start excludedTypes excludedIds blocked direct
      let results := buildResults parseNum distKm g q sp scores
      let sorted := results.mergeSort recLe
      .ok (match q.limit with | some l => sorted.take l | none => sorted)

/-- Declarative score from the claim: the list of length-2 paths from the
start node through non-excluded edges. -/
def twoHopPaths (g : Graph) (start : RNode) (excludedTypes : List String) :
    List (REdge × REdge) :=
  (start.neighbors.filter (fun e => ¬ is_edge_type_excluded e excludedTypes)).flatMap
    (fun e1 =>
      match g.getNode e1.dst with
      | none => []
      | some mid =>
        (mid.neighbors.filter (fun e => ¬ is_edge_type_excluded e excludedTypes)).map
          (fun e2 => (e1, e2)))

/-- Declarative score: `Σ w₁·w₂` over the length-2 paths ending at `c`. -/
def specScore (g : Graph) (start : RNode) (excludedTypes : List String)
    (c : String) : Rat :=
  (((twoHopPaths g start excludedTypes).filter (fun p => p.2.dst = c)).map
    (fun p => edge_weight parseNum p.1 * edge_weight parseNum p.2)).sum

/-- Declarative candidacy: `c` is reached by at least one qualifying length-2
path and is not rejected. -/
def specCandidate (g : Graph) (startId : String) (start : RNode)
    (excludedTypes excludedIds blocked direct : List String) (c : String) : Bool :=
  ((twoHopPaths g start excludedTypes).map (fun p => p.2.dst)).contains c ∧
    ¬ rejectCandidate startId blocked excludedIds direct c

/-- Pointwise optional addition: the state transition of one score-map entry
(`none` = key absent). -/
def optAdd : Option Rat → Option Rat → Option Rat
  | none, b => b
  | some v, none => some v
  | some v, some w => some (v + w)

/-- Optional sum: `none` for an empty contribution list, `some` of the sum
otherwise (an absent key never becomes present without a contribution). -/
def optSum : List Rat → Option Rat
  | [] => none
  | w :: rest => optAdd (some w) (optSum rest)

/-- The contribution list of candidate `c`: the weight products of the
qualifying length-2 paths through the edges of `l` that end at `c`. -/
def pathWeights (g : Graph) (excludedTypes : List String) (l : List REdge)
    (c : String) : List Rat :=
  (l.filter (fun e => ¬ is_edge_type_excluded e excludedTypes)).flatMap
    (fun e1 =>
      match g.getNode e1.dst with
      | none => []
      | some mid =>
        (mid.neighbors.filter (fun e2 =>
            ¬ is_edge_type_excluded e2 excludedTypes ∧ e2.dst = c)).map
          (fun e2 => edge_weight parseNum e1 * edge_weight parseNum e2))

end Recommend

/-- The `blocked_targets` set of `recommend_nodes`: destinations of the
excluded-type edges of the start node. -/
def blockedOf (start : RNode) (excludedTypes : List String) : List String :=
  (start.neighbors.filter (fun e => is_edge_type_excluded e excludedTypes)).map
    (fun e => e.dst)

/-- The `direct_neighbors` set of `recommend_nodes`: destinations of the
non-excluded edges of the start node. -/
def directOf (start : RNode) (excludedTypes : List String) : List String :=
  (start.neighbors.filter (fun e => ¬ is_edge_type_excluded e excludedTypes)).map
    (fun e => e.dst)

/-- The key list of a score map. -/
def scoreKeys (m : List (String × Rat)) : List String :=
  m.map (fun kv => kv.1)

/-- A three-node witness graph: `s → m → c`, with `c` of type `T`. -/
def gW : Graph :=
  ⟨[("s", ⟨"s", [⟨"m", []⟩], []⟩),
    ("m", ⟨"m", [⟨"c", []⟩], []⟩),
    ("c", ⟨"c", [], [("type", "T")]⟩)]⟩

/-- A witness recommendation query: start `s`, type `T`, everything default. -/
def qW : RecommendQuery :=
  ⟨"s", "T", none, none, none, none, none, none, none, none, none, none⟩

/-! ### Persistent state and handler write paths

The eight redb tables are embedded at the level of decoded key components:
membership functions for the existence/index tables and partial maps for the
data tables (the codec layer, verified separately, is a bijection between
these tuples and the encoded flat keys for every row this program writes).
The in-memory `Graph` cache is embedded as membership/data functions; the
Rust `HashMap<String, Node>` + `Vec<Edge>` representation adds only iteration
order, which no cache-coherence claim observes. -/

/-- The persistent tables (`nodes`, `edges`, `node_data`, `edge_data`,
`node_index`, `geo_index`, `edge_index`, `schema`). -/
structure PState where
  nodesTab : String → Bool
  edgesTab : String → String → Bool
  nodeDataTab : String → String → Option String
  edgeDataTab : String → String → String → Option String
  nodeIndexTab : String → String → String → Bool
  geoIndexTab : String → String → String → Bool
  edgeIndexTab : String → String → String → String → Bool
  schemaNodeRow : Option (List String)
  schemaEdgeRow : Option (List String)

/-- The in-memory cache, flattened: node membership and data, edge membership
and data. -/
structure GCache where
  hasN : String → Bool
  nData : String → String → Option String
  hasE : String → String → Bool
  eData : String → String → String → Option String

/-- `SchemaCache`. -/
structure SchemaCache where
  node_fields : List String
  edge_fields : List String
  node_defined : Bool
  edge_defined : Bool

/-- `SchemaCache::node_in_memory`. -/
def SchemaCache.node_in_memory (sc : SchemaCache) (k : String) : Bool :=
  ¬ sc.node_defined ∨ sc.node_fields.contains k

/-- `SchemaCache::edge_in_memory`. -/
def SchemaCache.edge_in_memory (sc : SchemaCache) (k : String) : Bool :=
  ¬ sc.edge_defined ∨ sc.edge_fields.contains k

/-- The whole process state: database, cache, schema cache. -/
structure Sys where
  p : PState
  g : GCache
  sc : SchemaCache

/-- The empty process state (fresh database). -/
def emptySys : Sys :=
  { p :=
      { nodesTab := fun _ => false
        edgesTab := fun _ _ => false
        nodeDataTab := fun _ _ => none
        edgeDataTab := fun _ _ _ => none
        nodeIndexTab := fun _ _ _ => false
        geoIndexTab := fun _ _ _ => false
        edgeIndexTab := fun _ _ _ _ => false
        schemaNodeRow := none
        schemaEdgeRow := none }
    g :=
      { hasN := fun _ => false
        nData := fun _ _ => none
        hasE := fun _ _ => false
        eData := fun _ _ _ => none }
    sc := ⟨[], [], false, false⟩ }

/-! Cache mutators (`Graph::add_node` … `Graph::remove_node`). -/

/-- `Graph::add_node` (`entry.or_insert(Node::new(id))`). -/
def GCache.addNode (g : GCache) (id : String) : GCache :=
  { g with hasN := fun n => g.hasN n || n = id }

/-- `Graph::add_edge` (no-op when `from` is not cached or the edge exists). -/
def GCache.addEdge (g : GCache) (f t : String) : GCache :=
  if g.hasN f then { g with hasE := fun a b => g.hasE a b || (a = f && b = t) } else g

/-- `Graph::set_node_data` (no-op when the node is not cached). -/
def GCache.setNodeData (g : GCache) (id k v : String) : GCache :=
  if g.hasN id then
    { g with nData := fun n k2 => if n = id ∧ k2 = k then some v else g.nData n k2 }
  else g

/-- `Graph::set_edge_data` (no-op when the edge is not cached). -/
def GCache.setEdgeData (g : GCache) (f t k v : String) : GCache :=
  if g.hasE f t then
    { g with eData := fun a b k2 => if a = f ∧ b = t ∧ k2 = k then some v else g.eData a b k2 }
  else g

/-- `Graph::remove_edge`: drop the edge and its data. -/
def GCache.removeEdge (g : GCache) (f t : String) : GCache :=
  { g with
    hasE := fun a b => g.hasE a b && ¬ (a = f ∧ b = t)
    eData := fun a b k => if a = f ∧ b = t then none else g.eData a b k }

/-- `Graph::remove_node`: drop the node, its data, and every incident edge. -/
def GCache.removeNode (g : GCache) (id : String) : GCache :=
  { hasN := fun n => g.hasN n && n ≠ id
    nData := fun n k => if n = id then none else g.nData n k
    hasE := fun a b => g.hasE a b && a ≠ id && b ≠ id
    eData := fun a b k => if a = id ∨ b = id then none else g.eData a b k }

/-! Persistent mutators (`insert_node` … `mark_edges_deleted_for_node`). -/

/-- `insert_node`. -/
def PState.insertNodeRow (p : PState) (id : String) : PState :=
  { p with nodesTab := fun n => p.nodesTab n || n = id }

/-- `insert_edge`. -/
def PState.insertEdgeRow (p : PState) (f t : String) : PState :=
  { p with edgesTab := fun a b => p.edgesTab a b || (a = f && b = t) }

/-- `insert_node_data`: write the property row, remove the previous index
entry (node index and geo index), insert the new one. -/
def PState.insertNodeDataP (p : PState) (id k v : String) : PState :=
  let prev := p.nodeDataTab id k
  { p with
    nodeDataTab := fun n k2 => if n = id ∧ k2 = k then some v else p.nodeDataTab n k2
    nodeIndexTab := fun k2 v2 n =>
      if n = id ∧ k2 = k then
        if v2 = v then true
        else if some v2 = prev then false
        else p.nodeIndexTab k2 v2 n
      else p.nodeIndexTab k2 v2 n
    geoIndexTab := fun k2 v2 n =>
      if n = id ∧ k2 = k then
        if v2 = v then true
        else if some v2 = prev then false
        else p.geoIndexTab k2 v2 n
      else p.geoIndexTab k2 v2 n }

/-- `insert_edge_data`. -/
def PState.insertEdgeDataP (p : PState) (f t k v : String) : PState :=
  let prev := p.edgeDataTab f t k
  { p with
    edgeDataTab := fun a b k2 => if a = f ∧ b = t ∧ k2 = k then some v else p.edgeDataTab a b k2
    edgeIndexTab := fun k2 v2 a b =>
      if a = f ∧ b = t ∧ k2 = k then
        if v2 = v then true
        else if some v2 = prev then false
        else p.edgeIndexTab k2 v2 a b
      else p.edgeIndexTab k2 v2 a b }

/-- `insert_node_data_bulk`: one transaction, same per-key maintenance. -/
def PState.bulkNodeDataP (p : PState) (id : String)
    (data : List (String × String)) : PState :=
  data.foldl (fun p2 kv => p2.insertNodeDataP id kv.1 kv.2) p

/-- `insert_edge_data_bulk`. -/
def PState.bulkEdgeDataP (p : PState) (f t : String)
    (data : List (String × String)) : PState :=
  data.foldl (fun p2 kv => p2.insertEdgeDataP f t kv.1 kv.2) p

/-- `mark_edges_deleted_for_node`: set `status = deleted`, with index
maintenance, on every persistent edge row incident to `id`.  The loop touches
pairwise-distinct edges, so the simultaneous update below coincides with the
sequential Rust loop. -/
def PState.markEdgesDeletedP (p : PState) (id : String) : PState :=
  { p with
    edgeDataTab := fun a b k =>
      if p.edgesTab a b ∧ (a = id ∨ b = id) ∧ k = "status" then some "deleted"
      else p.edgeDataTab a b k
    edgeIndexTab := fun k v a b =>
      if p.edgesTab a b ∧ (a = id ∨ b = id) ∧ k = "status" then
        if v = "deleted" then true
        else if some v = p.edgeDataTab a b "status" then false
        else p.edgeIndexTab k v a b
      else p.edgeIndexTab k v a b }

/-- `soft_delete_node` minus the edge pass: the existence check. -/
def PState.nodeRowExists (p : PState) (id : String) : Bool :=
  p.nodesTab id

/-- `soft_delete_edge` existence check. -/
def PState.edgeRowExists (p : PState) (f t : String) : Bool :=
  p.edgesTab f t

/-! Payload helpers.  Handler payloads are `HashMap<String,String>` in Rust;
they are embedded as association lists (distinct keys in any state produced
by the JSON codec; none of the proofs below assume distinctness). -/

/-- `data.contains_key(k)`. -/
def payloadHasKey (data : List (String × String)) (k : String) : Bool :=
  data.any (fun kv => kv.1 = k)

/-- The `status → active` defaulting applied by the create handlers. -/
def withStatusDefault (data : List (String × String)) : List (String × String) :=
  if payloadHasKey data "status" then data else data ++ [("status", "active")]

/-- `HashMap::insert` on a payload (`create_block` forces `type = block`). -/
def payloadSet (data : List (String × String)) (k v : String) : List (String × String) :=
  if payloadHasKey data k then
    data.map (fun kv : String × String => if kv.1 = k then (k, v) else kv)
  else data ++ [(k, v)]

/-- The value a bulk upsert leaves at key `k` (last write wins). -/
def lastVal : List (String × String) → String → Option String
  | [], _ => none
  | kv :: rest, k =>
    match lastVal rest k with
    | some v => some v
    | none => if kv.1 = k then some kv.2 else none

/-- Cache-side data installation for a payload, with the whitelist filter. -/
def cacheBulkNodeData (g : GCache) (sc : SchemaCache) (id : String)
    (data : List (String × String)) : GCache :=
  data.foldl (fun g2 kv => if sc.node_in_memory kv.1 then g2.setNodeData id kv.1 kv.2 else g2) g

/-- Cache-side edge data installation for a payload. -/
def cacheBulkEdgeData (g : GCache) (sc : SchemaCache) (f t : String)
    (data : List (String × String)) : GCache :=
  data.foldl (fun g2 kv => if sc.edge_in_memory kv.1 then g2.setEdgeData f t kv.1 kv.2 else g2) g

/-! `load_graph` and reads. -/

/-- `load_graph`: active nodes from the status index; active edges from the
status index restricted to active endpoints; data rows installed for active
entities through the whitelist filter. -/
def loadGraph (p : PState) (sc : SchemaCache) : GCache :=
  let activeN := fun n => p.nodeIndexTab "status" "active" n
  let activeE := fun f t => p.edgeIndexTab "status" "active" f t && activeN f && activeN t
  { hasN := activeN
    nData := fun n k => if activeN n ∧ sc.node_in_memory k then p.nodeDataTab n k else none
    hasE := activeE
    eData := fun f t k => if activeE f t ∧ sc.edge_in_memory k then p.edgeDataTab f t k else none }

/-- `is_active_value`: a missing status row counts as active. -/
def is_active_value : Option String → Bool
  | some v => v = "active"
  | none => true

/-- The data-map part of `get_node_from_db`: `none` when the node row is
absent or the node is non-active; otherwise the persisted property map, with
the whitelist filter applied exactly when `hydrate` is false. -/
def get_node_from_db (p : PState) (id : String) (sc : SchemaCache) (hydrate : Bool) :
    Option (String → Option String) :=
  if ¬ p.nodesTab id then none
  else if ¬ is_active_value (p.nodeDataTab id "status") then none
  else
    some (fun k =>
      if hydrate then p.nodeDataTab id k
      else if sc.node_in_memory k then p.nodeDataTab id k else none)

/-! Handler operations. -/

/-- Handler outcomes. -/
inductive HResult where
  | created
  | noContent
  | notFound
  | badRequest
deriving DecidableEq

/-- The mutating handler operations (the read-only handlers do not change
state). -/
inductive Op where
  | createNode (id : String) (payload : List (String × String))
  | createEdge (f t : String) (payload : List (String × String))
  | createBlock (f t : String) (payload : List (String × String))
  | setNodeData (id k v : String)
  | setEdgeData (f t k v : String)
  | patchNode (id : String) (payload : List (String × String))
  | patchEdge (f t : String) (payload : List (String × String))
  | deleteNode (id : String)
  | deleteEdge (f t : String)
  | deleteBlock (f t : String)
  | upsertSchema (entity : String) (fields : List String)

/-- The block-edge mirroring step shared by `create_edge`, `create_block`,
`update_edge_data` (insert the reverse row when uncached, write the reverse
payload, install it in the cache). -/
def mirrorEdge (s : Sys) (f t : String) (revData : List (String × String)) : Sys :=
  let s2 :=
    if ¬ s.g.hasE t f then
      { s with p := s.p.insertEdgeRow t f, g := s.g.addEdge t f }
    else s
  { s2 with
    p := s2.p.bulkEdgeDataP t f revData
    g := cacheBulkEdgeData s2.g s2.sc t f revData }

/-- `create_node`. -/
def applyCreateNode (s : Sys) (id : String) (payload : List (String × String)) :
    Sys × HResult :=
  let data := withStatusDefault payload
  let p := s.p.insertNodeRow id
  let g := s.g.addNode id
  let p := p.bulkNodeDataP id data
  let g := cacheBulkNodeData g s.sc id data
  ({ s with p := p, g := g }, .created)

/-- `create_edge`. -/
def applyCreateEdge (s : Sys) (f t : String) (payload : List (String × String)) :
    Sys × HResult :=
  if ¬ (s.g.hasN f && s.g.hasN t) then (s, .notFound)
  else
    let data := withStatusDefault payload
    let isBlock := lookupData data "type" = some "block"
    let p := s.p.insertEdgeRow f t
    let g := s.g.addEdge f t
    let p := p.bulkEdgeDataP f t data
    let g := cacheBulkEdgeData g s.sc f t data
    let s2 : Sys := { s with p := p, g := g }
    if isBlock ∧ f ≠ t then (mirrorEdge s2 f t data, .created)
    else (s2, .created)

/-- `create_block`: force `type = block`, then as `create_edge` with an
unconditional mirror. -/
def applyCreateBlock (s : Sys) (f t : String) (payload : List (String × String)) :
    Sys × HResult :=
  if ¬ (s.g.hasN f && s.g.hasN t) then (s, .notFound)
  else
    let data := withStatusDefault (payloadSet payload "type" "block")
    let p := s.p.insertEdgeRow f t
    let g := s.g.addEdge f t
    let p := p.bulkEdgeDataP f t data
    let g := cacheBulkEdgeData g s.sc f t data
    let s2 : Sys := { s with p := p, g := g }
    if f ≠ t then (mirrorEdge s2 f t data, .created)
    else (s2, .created)

/-- `set_node_data` (`PUT /nodes/{id}/data`). -/
def applySetNodeData (s : Sys) (id k v : String) : Sys × HResult :=
  if ¬ s.g.hasN id then (s, .notFound)
  else
    let p := s.p.insertNodeDataP id k v
    let g := if s.sc.node_in_memory k then s.g.setNodeData id k v else s.g
    let g := if k = "status" ∧ v = "deleted" then g.removeNode id else g
    ({ s with p := p, g := g }, .noContent)

/-- `set_edge_data` (`PUT /edges`). -/
def applySetEdgeData (s : Sys) (f t k v : String) : Sys × HResult :=
  if ¬ s.g.hasE f t then (s, .notFound)
  else
    let p := s.p.insertEdgeDataP f t k v
    let g := if s.sc.edge_in_memory k then s.g.setEdgeData f t k v else s.g
    let g := if k = "status" ∧ v = "deleted" then g.removeEdge f t else g
    let s2 : Sys := { s with p := p, g := g }
    if k = "type" ∧ v = "block" ∧ f ≠ t then
      (mirrorEdge s2 f t [("type", "block"), ("status", "active")], .noContent)
    else (s2, .noContent)

/-- `update_node_data` (`PATCH /nodes/{id}`). -/
def applyPatchNode (s : Sys) (id : String) (payload : List (String × String)) :
    Sys × HResult :=
  if ¬ s.g.hasN id then (s, .notFound)
  else
    let p := s.p.bulkNodeDataP id payload
    let g := cacheBulkNodeData s.g s.sc id payload
    let deleted := payload.any (fun kv => kv.1 = "status" && kv.2 = "deleted")
    let g := if deleted then g.removeNode id else g
    ({ s with p := p, g := g }, .noContent)

/-- `update_edge_data` (`PATCH /edges`). -/
def applyPatchEdge (s : Sys) (f t : String) (payload : List (String × String)) :
    Sys × HResult :=
  if ¬ s.g.hasE f t then (s, .notFound)
  else
    let isBlock := lookupData payload "type" = some "block"
    let p := s.p.bulkEdgeDataP f t payload
    let g := cacheBulkEdgeData s.g s.sc f t payload
    let deleted := payload.any (fun kv => kv.1 = "status" && kv.2 = "deleted")
    let g := if deleted then g.removeEdge f t else g
    let s2 : Sys := { s with p := p, g := g }
    if isBlock ∧ f ≠ t then (mirrorEdge s2 f t (withStatusDefault payload), .noContent)
    else (s2, .noContent)

/-- `delete_node` (`DELETE /nodes/{id}`): `soft_delete_node` then cache
removal. -/
def applyDeleteNode (s : Sys) (id : String) : Sys × HResult :=
  if ¬ s.p.nodeRowExists id then (s, .notFound)
  else
    let p := s.p.insertNodeDataP id "status" "deleted"
    let p := p.markEdgesDeletedP id
    ({ s with p := p, g := s.g.removeNode id }, .noContent)

/-- `delete_edge` (`DELETE /edges`): the block test reads the cached edge
type before the delete; the reverse soft-delete is attempted only when the
reverse row exists (its failure is discarded in Rust). -/
def applyDeleteEdge (s : Sys) (f t : String) : Sys × HResult :=
  let isBlock := s.g.eData f t "type" = some "block"
  if ¬ s.p.edgeRowExists f t then (s, .notFound)
  else
    let p := s.p.insertEdgeDataP f t "status" "deleted"
    let p :=
      if isBlock ∧ f ≠ t then
        if p.edgeRowExists t f then p.insertEdgeDataP t f "status" "deleted" else p
      else p
    let g := s.g.removeEdge f t
    let g := if isBlock ∧ f ≠ t then g.removeEdge t f else g
    ({ s with p := p, g := g }, .noContent)

/-- `delete_block` (`DELETE /blocks`): cache-existence precondition, then
soft-delete both directions unconditionally. -/
def applyDeleteBlock (s : Sys) (f t : String) : Sys × HResult :=
  if ¬ s.g.hasE f t then (s, .notFound)
  else if ¬ s.p.edgeRowExists f t then (s, .notFound)
  else
    let p := s.p.insertEdgeDataP f t "status" "deleted"
    let p :=
      if f ≠ t then
        if p.edgeRowExists t f then p.insertEdgeDataP t f "status" "deleted" else p
      else p
    let g := s.g.removeEdge f t
    let g := if f ≠ t then g.removeEdge t f else g
    ({ s with p := p, g := g }, .noContent)

/-- Remove consecutive duplicates (`Vec::dedup`). -/
def dedupConsec : List String → List String
  | [] => []
  | [a] => [a]
  | a :: b :: rest =>
    if a = b then dedupConsec (b :: rest) else a :: dedupConsec (b :: rest)

/-- The whitelist normalisation of `upsert_schema`: trim, drop empties, sort,
dedup. -/
def normalizeFields (fields : List String) : List String :=
  dedupConsec (((fields.map trimS).filter (fun s => s ≠ "")).mergeSort lexLe)

/-- `upsert_schema` (`POST /schema`): validate, persist, update the schema
cache, rebuild the whole graph cache. -/
def applyUpsertSchema (s : Sys) (entity : String) (fields : List String) :
    Sys × HResult :=
  let entity2 := lowerS (trimS entity)
  if entity2 ≠ "node" ∧ entity2 ≠ "edge" then (s, .badRequest)
  else
    let trimmed := (fields.map trimS).filter (fun s => s ≠ "")
    if trimmed.isEmpty then (s, .badRequest)
    else
      let fields2 := normalizeFields fields
      let p :=
        if entity2 = "node" then { s.p with schemaNodeRow := some fields2 }
        else { s.p with schemaEdgeRow := some fields2 }
      let sc :=
        if entity2 = "node" then
          { s.sc with node_fields := fields2, node_defined := true }
        else
          { s.sc with edge_fields := fields2, edge_defined := true }
      let g := loadGraph p sc
      ({ p := p, g := g, sc := sc }, .noContent)

/-- One handler step. -/
def applyOp (s : Sys) : Op → Sys × HResult
  | .createNode id payload => applyCreateNode s id payload
  | .createEdge f t payload => applyCreateEdge s f t payload
  | .createBlock f t payload => applyCreateBlock s f t payload
  | .setNodeData id k v => applySetNodeData s id k v
  | .setEdgeData f t k v => applySetEdgeData s f t k v
  | .patchNode id payload => applyPatchNode s id payload
  | .patchEdge f t payload => applyPatchEdge s f t payload
  | .deleteNode id => applyDeleteNode s id
  | .deleteEdge f t => applyDeleteEdge s f t
  | .deleteBlock f t => applyDeleteBlock s f t
  | .upsertSchema entity fields => applyUpsertSchema s entity fields

/-- Run a sequence of handler operations. -/
def runOps (s : Sys) (ops : List Op) : Sys :=
  ops.foldl (fun s2 op => (applyOp s2 op).1) s

/-- An operation whose caller-supplied payload never writes the reserved
`status` property (the delete endpoints and the schema endpoint are always
allowed). -/
def statusFree : Op → Prop
  | .createNode _ payload => ¬ payloadHasKey payload "status"
  | .createEdge _ _ payload => ¬ payloadHasKey payload "status"
  | .createBlock _ _ payload => ¬ payloadHasKey payload "status"
  | .setNodeData _ k _ => k ≠ "status"
  | .setEdgeData _ _ k _ => k ≠ "status"
  | .patchNode _ payload => ¬ payloadHasKey payload "status"
  | .patchEdge _ _ payload => ¬ payloadHasKey payload "status"
  | .deleteNode _ => True
  | .deleteEdge _ _ => True
  | .deleteBlock _ _ => True
  | .upsertSchema _ _ => True

/-- A persistently active node. -/
def activeN (p : PState) (n : String) : Prop :=
  p.nodesTab n = true ∧ p.nodeDataTab n "status" = some "active"

/-- A persistently active edge. -/
def activeE (p : PState) (f t : String) : Prop :=
  p.edgesTab f t = true ∧ p.edgeDataTab f t "status" = some "active"

/-- The coherence invariant of the system: cache ⇔ persistent active set,
status-index coherence, active edges have active endpoints, data rows imply
existence rows, and uncached entities hold no cached data. -/
structure Coherent (s : Sys) : Prop where
  cacheNode : ∀ n, s.g.hasN n = true ↔ activeN s.p n
  cacheEdge : ∀ f t, s.g.hasE f t = true ↔ activeE s.p f t
  nodeIdx : ∀ v n, s.p.nodeIndexTab "status" v n = true ↔ s.p.nodeDataTab n "status" = some v
  edgeIdx : ∀ v f t,
    s.p.edgeIndexTab "status" v f t = true ↔ s.p.edgeDataTab f t "status" = some v
  edgeEnds : ∀ f t, activeE s.p f t → activeN s.p f ∧ activeN s.p t
  nodeDataRow : ∀ n k v, s.p.nodeDataTab n k = some v → s.p.nodesTab n = true
  edgeDataRow : ∀ f t k v, s.p.edgeDataTab f t k = some v → s.p.edgesTab f t = true
  cacheNData : ∀ n, s.g.hasN n = false → ∀ k, s.g.nData n k = none
  cacheEData : ∀ f t, s.g.hasE f t = false → ∀ k, s.g.eData f t k = none

/-- Every entry of the LRU map is a correct decode (the semantic invariant of
the decode cache). -/
def LruEntriesOk (c : LruCache) : Prop :=
  ∀ kv ∈ c.map, decode_component kv.1 = some kv.2

/-! ### Codec lemmas -/

theorem hex_nibble_roundtrip (v : Nat) (h : v < 16) :
    hex_to_nibble (nibble_to_hex v) = some v := by
  interval_cases v <;> rfl

theorem nibble_to_hex_ge (v : Nat) : 48 ≤ nibble_to_hex v := by
  unfold nibble_to_hex
  split <;> [omega; skip]
  split <;> omega

theorem decodeBytes_encode (s : List Nat) (h : ∀ b ∈ s, b < 256) :
    decodeBytes (encode_component s) = some s := by
  induction s with
  | nil => rfl
  | cons b rest ih =>
    have hb : b < 256 := h b (List.mem_cons_self b rest)
    have hrest : ∀ x ∈ rest, x < 256 := fun x hx => h x (List.mem_cons_of_mem b hx)
    by_cases hesc : mustEscape b
    · have hhi : hex_to_nibble (nibble_to_hex (b / 16)) = some (b / 16) :=
        hex_nibble_roundtrip _ (by omega)
      have hlo : hex_to_nibble (nibble_to_hex (b % 16)) = some (b % 16) :=
        hex_nibble_roundtrip _ (by omega)
      have hval : b / 16 * 16 + b % 16 = b := by omega
      simp [encode_component, hesc, decodeBytes, hhi, hlo, ih hrest, hval]
    · have hb37 : b ≠ pctByte := by
        intro hcontr
        exact hesc (by simp [mustEscape, hcontr])
      have hrw : decodeBytes (b :: encode_component rest) = some (b :: rest) := by
        unfold decodeBytes
        rw [if_neg hb37, ih hrest]
      simp [encode_component, hesc, hrw]

theorem keySep_notin_encode (s : List Nat) : keySep ∉ encode_component s := by
  induction s with
  | nil => simp [encode_component]
  | cons b rest ih =>
    by_cases hesc : mustEscape b
    · simp only [encode_component]
      rw [if_pos hesc]
      intro hmem
      simp only [List.mem_cons] at hmem
      rcases hmem with h1 | h1 | h1 | h1
      · simp [keySep, pctByte] at h1
      · have h2 := nibble_to_hex_ge (b / 16)
        have h3 : (31:Nat) = nibble_to_hex (b / 16) := h1
        omega
      · have h2 := nibble_to_hex_ge (b % 16)
        have h3 : (31:Nat) = nibble_to_hex (b % 16) := h1
        omega
      · exact ih h1
    · have hbk : b ≠ keySep := by
        intro hcontr
        exact hesc (by simp [mustEscape, hcontr])
      simp only [encode_component]
      rw [if_neg hesc]
      intro hmem
      simp only [List.mem_cons] at hmem
      rcases hmem with h1 | h1
      · exact hbk h1.symm
      · exact ih h1

theorem split_two_append (a t : List Nat) (h : keySep ∉ a) :
    split_two (a ++ keySep :: t) = some (a, t) := by
  induction a with
  | nil => simp [split_two]
  | cons b rest ih =>
    have hb : b ≠ keySep := fun hcontr => h (hcontr ▸ List.mem_cons_self b rest)
    have hrest : keySep ∉ rest := fun hmem => h (List.mem_cons_of_mem b hmem)
    simp only [List.cons_append, split_two, hb, ite_false, List.append_eq]
    rw [ih hrest]

theorem decode_encode (s : List Nat) (h : ValidStr s) :
    decode_component (encode_component s) = some s := by
  unfold decode_component
  rw [decodeBytes_encode s h.1]
  simp [h.2]

theorem split_two_edge_key (a b : List Nat) :
    split_two (edge_key a b) = some (encode_component a, encode_component b) :=
  split_two_append _ _ (keySep_notin_encode a)

theorem split_two_decoded_edge_key (a b : List Nat) (ha : ValidStr a) (hb : ValidStr b) :
    split_two_decoded (edge_key a b) = some (a, b) := by
  unfold split_two_decoded
  rw [split_two_edge_key]
  simp [decode_encode a ha, decode_encode b hb]

theorem split_three_edge_data_key (a b k : List Nat) :
    split_three (edge_data_key a b k) =
      some (encode_component a, encode_component b, encode_component k) := by
  unfold split_three edge_data_key
  simp [split_two_append _ _ (keySep_notin_encode a),
    split_two_append _ _ (keySep_notin_encode b)]

theorem split_three_decoded_edge_data_key (a b k : List Nat)
    (ha : ValidStr a) (hb : ValidStr b) (hk : ValidStr k) :
    split_three_decoded (edge_data_key a b k) = some (a, b, k) := by
  unfold split_three_decoded
  rw [split_three_edge_data_key]
  simp [decode_encode a ha, decode_encode b hb, decode_encode k hk]

theorem split_three_decoded_node_index_key (k v id : List Nat)
    (hk : ValidStr k) (hv : ValidStr v) (hid : ValidStr id) :
    split_three_decoded (node_index_key k v id) = some (k, v, id) := by
  unfold split_three_decoded split_three node_index_key
  simp [split_two_append _ _ (keySep_notin_encode k),
    split_two_append _ _ (keySep_notin_encode v),
    decode_encode k hk, decode_encode v hv, decode_encode id hid]

theorem split_four_decoded_edge_index_key (k v a b : List Nat)
    (hk : ValidStr k) (hv : ValidStr v) (ha : ValidStr a) (hb : ValidStr b) :
    split_four_decoded (edge_index_key k v a b) = some (k, v, a, b) := by
  unfold split_four_decoded split_four split_three edge_index_key
  simp [split_two_append _ _ (keySep_notin_encode k),
    split_two_append _ _ (keySep_notin_encode v),
    split_two_append _ _ (keySep_notin_encode a),
    decode_encode k hk, decode_encode v hv, decode_encode a ha, decode_encode b hb]

/-- C1.  `decode_component ∘ encode_component = some`, and splitting any of
the composite key shapes (edge primary key, node/edge property keys,
node-index and edge-index keys) on the separator and decoding each part
recovers the original components exactly. -/
theorem C1_encode_decode_roundtrip (s a b k v id : List Nat)
    (hs : ValidStr s) (ha : ValidStr a) (hb : ValidStr b)
    (hk : ValidStr k) (hv : ValidStr v) (hid : ValidStr id) :
    decode_component (encode_component s) = some s ∧
    split_two_decoded (edge_key a b) = some (a, b) ∧
    split_two_decoded (node_data_key id k) = some (id, k) ∧
    split_three_decoded (edge_data_key a b k) = some (a, b, k) ∧
    split_three_decoded (node_index_key k v id) = some (k, v, id) ∧
    split_four_decoded (edge_index_key k v a b) = some (k, v, a, b) :=
  ⟨decode_encode s hs,
   split_two_decoded_edge_key a b ha hb,
   split_two_decoded_edge_key id k hid hk,
   split_three_decoded_edge_data_key a b k ha hb hk,
   split_three_decoded_node_index_key k v id hk hv hid,
   split_four_decoded_edge_index_key k v a b hk hv ha hb⟩

/-- C1 witness: the round-trip at concrete component values containing the
separator byte, the escape byte and a non-ASCII byte. -/
theorem C1_encode_decode_roundtrip_witness :
    ValidStr [117, 31, 116, 37] ∧
    decode_component (encode_component [117, 31, 116, 37]) = some [117, 31, 116, 37] ∧
    split_two_decoded (edge_key [117, 31, 116, 37] [195, 169]) =
      some ([117, 31, 116, 37], [195, 169]) := by
  have hs : ValidStr [117, 31, 116, 37] := ⟨by decide, by decide⟩
  have hb : ValidStr [195, 169] := ⟨by decide, by decide⟩
  have hk : ValidStr [107] := ⟨by decide, by decide⟩
  have h := C1_encode_decode_roundtrip [117, 31, 116, 37] [117, 31, 116, 37] [195, 169]
    [107] [107] [107] hs hs hb hk hk hk
  exact ⟨hs, h.1, h.2.1⟩

-- MARKER_MORE_DEFS


/-! ### C10: path existence is reflexive -/

theorem dfsAux_succ_self (g : Graph) (n : Nat) (x : String) (visited : List String) :
    dfsAux g (Nat.succ n) x x visited = (true, visited) := by
  simp [dfsAux]

/-- C10.  `Graph::exist_path(x, x)` is `true` for every graph state and every
id `x`, including ids absent from the cache (the DFS tests `current == target`
before looking the node up), so `GET /path` with `from = to` always reports
`exists = true`. -/
theorem C10_exist_path_refl (g : Graph) (x : String) :
    g.exist_path x x = true ∧ check_path g x x = true := by
  have hsz : g.sizeBound =
      Nat.succ (g.nodes.length + (g.nodes.map (fun kv => kv.2.neighbors.length)).sum) := by
    unfold Graph.sizeBound
    omega
  constructor
  · unfold Graph.exist_path
    rw [hsz, dfsAux_succ_self]
  · unfold check_path Graph.exist_path
    rw [hsz, dfsAux_succ_self]

/-! ### C2: geohash precision table -/

/-- C2 counterexample.  The spec table says a radius of `0.001 km`
(`≤ 0.00477`) selects precision 9; the code scans the `sizes` array from the
coarsest entry `(1, 5000.0)` upward and `5000.0 >= radius` already matches, so
it returns precision 1. -/
theorem C2_geohash_precision_counterexample :
    (0:Rat) < 1/1000 ∧ (1:Rat)/1000 ≤ 477/100000 ∧
      geohash_precision_for_km (1/1000) = 1 ∧ geohash_precision_for_km (1/1000) ≠ 9 := by
  refine ⟨by norm_num, by norm_num, ?_, ?_⟩
  · unfold geohash_precision_for_km geohashSizes
    norm_num [List.find?]
  · unfold geohash_precision_for_km geohashSizes
    norm_num [List.find?]

/-- C2 amended.  `geohash_precision_for_km` returns 9 for every radius ≤ 0
and 1 for every positive radius: the first table entry `(1, 5000.0)` matches
every radius up to 5000 and the fallback for larger radii is also 1. -/
theorem C2_geohash_precision_amended (r : Rat) :
    geohash_precision_for_km r = if r ≤ 0 then 9 else 1 := by
  unfold geohash_precision_for_km geohashSizes
  by_cases h0 : r ≤ 0
  · simp [h0]
  · rw [if_neg h0, if_neg h0]
    by_cases h1 : r ≤ 5000
    · simp [List.find?, h1]
    · have h2 : ¬ r ≤ 1250 := by intro h; exact h1 (by linarith)
      have h3 : ¬ r ≤ 156 := by intro h; exact h1 (by linarith)
      have h4 : ¬ r ≤ 391/10 := by intro h; exact h1 (by linarith)
      have h5 : ¬ r ≤ 489/100 := by intro h; exact h1 (by linarith)
      have h6 : ¬ r ≤ 122/100 := by intro h; exact h1 (by linarith)
      have h7 : ¬ r ≤ 153/1000 := by intro h; exact h1 (by linarith)
      have h8 : ¬ r ≤ 382/10000 := by intro h; exact h1 (by linarith)
      have h9 : ¬ r ≤ 477/100000 := by intro h; exact h1 (by linarith)
      simp [List.find?, h1, h2, h3, h4, h5, h6, h7, h8, h9]

/-! ### C9: the LRU decode cache is semantically transparent -/

theorem lruLookup_ok (c : LruCache) (hok : LruEntriesOk c) (k v : List Nat)
    (h : lruLookup c.map k = some v) : decode_component k = some v := by
  unfold lruLookup at h
  cases hfind : c.map.find? (fun kv => kv.1 = k) with
  | none =>
    rw [hfind] at h
    exact Option.noConfusion h
  | some kv =>
    rw [hfind] at h
    have h2 : kv.2 = v := by simpa using h
    have hmem := List.mem_of_find?_eq_some hfind
    have hkey : kv.1 = k := by
      have := List.find?_some hfind
      simpa using this
    have h3 := hok kv hmem
    rw [hkey, h2] at h3
    exact h3

theorem touch_entries (c : LruCache) (k : List Nat) (hok : LruEntriesOk c) :
    LruEntriesOk (c.touch k) := by
  unfold LruCache.touch
  split <;> exact hok

theorem insert_entries (c : LruCache) (k v : List Nat) (hok : LruEntriesOk c)
    (hkv : decode_component k = some v) : LruEntriesOk (c.insert k v) := by
  unfold LruCache.insert
  split
  · apply touch_entries
    intro kv hmem
    simp only [List.mem_map] at hmem
    obtain ⟨kv0, hkv0, heq⟩ := hmem
    by_cases hk : kv0.1 = k
    · rw [if_pos hk] at heq
      rw [← heq]
      exact hkv
    · rw [if_neg hk] at heq
      rw [← heq]
      exact hok kv0 hkv0
  · intro kv hmem
    simp only [List.mem_append, List.mem_singleton] at hmem
    rcases hmem with hmem | hmem
    · split at hmem
      · split at hmem
        · exact hok kv (List.mem_of_mem_filter hmem)
        · exact hok kv hmem
      · exact hok kv hmem
    · rw [hmem]
      exact hkv

theorem cached_decode_eq (v : List Nat) (c : LruCache) (hok : LruEntriesOk c) :
    (decode_component_cached v c).1 = decode_component v ∧
      LruEntriesOk (decode_component_cached v c).2 := by
  unfold decode_component_cached LruCache.get
  cases hl : lruLookup c.map v with
  | some cached =>
    have hdec := lruLookup_ok c hok v cached hl
    exact ⟨hdec.symm, touch_entries c v hok⟩
  | none =>
    cases hd : decode_component v with
    | none => exact ⟨rfl, hok⟩
    | some d => exact ⟨rfl, insert_entries c v d hok hd⟩

theorem reachable_entries_ok (c : LruCache) (h : LruReachable c) : LruEntriesOk c := by
  induction h with
  | new capacity => intro kv hmem; simp [LruCache.new] at hmem
  | step c v _ ih => exact (cached_decode_eq v c ih).2

/-- C9.  For every value and every LRU cache state reachable by prior cached
decodes, `decode_component_cached` returns exactly what `decode_component`
returns: the per-scan decode cache never changes a decode result. -/
theorem C9_decode_cache_transparent (c : LruCache) (v : List Nat)
    (h : LruReachable c) :
    (decode_component_cached v c).1 = decode_component v :=
  (cached_decode_eq v c (reachable_entries_ok c h)).1

/-- C9 witness: a fresh cache of capacity 4096 (the capacity used by the
scanners) on a concrete encoded component. -/
theorem C9_decode_cache_transparent_witness :
    LruReachable (LruCache.new 4096) ∧
      (decode_component_cached [97, 98] (LruCache.new 4096)).1 = some [97, 98] := by
  refine ⟨LruReachable.new 4096, ?_⟩
  rw [C9_decode_cache_transparent (LruCache.new 4096) [97, 98] (LruReachable.new 4096)]
  decide

/-! ### State-machine lemmas: projections of the persistent mutators -/

theorem insertNodeDataP_nodeData (p : PState) (id k v n k2 : String) :
    (p.insertNodeDataP id k v).nodeDataTab n k2 =
      if n = id ∧ k2 = k then some v else p.nodeDataTab n k2 := rfl

theorem insertNodeDataP_nodeIdx (p : PState) (id k v k2 v2 n : String) :
    (p.insertNodeDataP id k v).nodeIndexTab k2 v2 n =
      if n = id ∧ k2 = k then
        if v2 = v then true
        else if some v2 = p.nodeDataTab id k then false
        else p.nodeIndexTab k2 v2 n
      else p.nodeIndexTab k2 v2 n := rfl

theorem insertEdgeDataP_edgeData (p : PState) (f t k v a b k2 : String) :
    (p.insertEdgeDataP f t k v).edgeDataTab a b k2 =
      if a = f ∧ b = t ∧ k2 = k then some v else p.edgeDataTab a b k2 := rfl

theorem insertEdgeDataP_edgeIdx (p : PState) (f t k v k2 v2 a b : String) :
    (p.insertEdgeDataP f t k v).edgeIndexTab k2 v2 a b =
      if a = f ∧ b = t ∧ k2 = k then
        if v2 = v then true
        else if some v2 = p.edgeDataTab f t k then false
        else p.edgeIndexTab k2 v2 a b
      else p.edgeIndexTab k2 v2 a b := rfl

theorem lastVal_cons (kv : String × String) (rest : List (String × String)) (k : String) :
    lastVal (kv :: rest) k =
      (lastVal rest k).or (if kv.1 = k then some kv.2 else none) := by
  cases h : lastVal rest k with
  | some v => simp [lastVal, h]
  | none => simp [lastVal, h]

/-! ### State-machine lemmas: bulk upserts -/

theorem bulkNodeDataP_nodesTab (p : PState) (id : String) (data : List (String × String)) :
    (p.bulkNodeDataP id data).nodesTab = p.nodesTab := by
  induction data generalizing p with
  | nil => rfl
  | cons kv rest ih =>
    show (PState.bulkNodeDataP (p.insertNodeDataP id kv.1 kv.2) id rest).nodesTab = p.nodesTab
    rw [ih]
    rfl

theorem bulkNodeDataP_edgesTab (p : PState) (id : String) (data : List (String × String)) :
    (p.bulkNodeDataP id data).edgesTab = p.edgesTab := by
  induction data generalizing p with
  | nil => rfl
  | cons kv rest ih =>
    show (PState.bulkNodeDataP (p.insertNodeDataP id kv.1 kv.2) id rest).edgesTab = p.edgesTab
    rw [ih]
    rfl

theorem bulkNodeDataP_edgeDataTab (p : PState) (id : String) (data : List (String × String)) :
    (p.bulkNodeDataP id data).edgeDataTab = p.edgeDataTab := by
  induction data generalizing p with
  | nil => rfl
  | cons kv rest ih =>
    show (PState.bulkNodeDataP (p.insertNodeDataP id kv.1 kv.2) id rest).edgeDataTab
      = p.edgeDataTab
    rw [ih]
    rfl

theorem bulkNodeDataP_edgeIndexTab (p : PState) (id : String) (data : List (String × String)) :
    (p.bulkNodeDataP id data).edgeIndexTab = p.edgeIndexTab := by
  induction data generalizing p with
  | nil => rfl
  | cons kv rest ih =>
    show (PState.bulkNodeDataP (p.insertNodeDataP id kv.1 kv.2) id rest).edgeIndexTab
      = p.edgeIndexTab
    rw [ih]
    rfl

theorem bulkNodeDataP_nodeData (p : PState) (id : String) (data : List (String × String))
    (n k : String) :
    (p.bulkNodeDataP id data).nodeDataTab n k =
      if n = id then (lastVal data k).or (p.nodeDataTab n k) else p.nodeDataTab n k := by
  induction data generalizing p with
  | nil =>
    by_cases hn : n = id <;> simp [PState.bulkNodeDataP, lastVal, hn]
  | cons kv rest ih =>
    show (PState.bulkNodeDataP (p.insertNodeDataP id kv.1 kv.2) id rest).nodeDataTab n k = _
    rw [ih, lastVal_cons, insertNodeDataP_nodeData]
    by_cases hn : n = id
    · subst hn
      rw [if_pos rfl, if_pos rfl]
      by_cases hk : kv.1 = k
      · rw [if_pos ⟨rfl, hk.symm⟩, if_pos hk]
        cases lastVal rest k <;> simp
      · rw [if_neg (fun h => hk h.2.symm), if_neg hk]
        cases lastVal rest k <;> simp
    · rw [if_neg hn, if_neg hn, if_neg (fun h => hn h.1)]

theorem bulkEdgeDataP_nodesTab (p : PState) (f t : String) (data : List (String × String)) :
    (p.bulkEdgeDataP f t data).nodesTab = p.nodesTab := by
  induction data generalizing p with
  | nil => rfl
  | cons kv rest ih =>
    show (PState.bulkEdgeDataP (p.insertEdgeDataP f t kv.1 kv.2) f t rest).nodesTab = p.nodesTab
    rw [ih]
    rfl

theorem bulkEdgeDataP_edgesTab (p : PState) (f t : String) (data : List (String × String)) :
    (p.bulkEdgeDataP f t data).edgesTab = p.edgesTab := by
  induction data generalizing p with
  | nil => rfl
  | cons kv rest ih =>
    show (PState.bulkEdgeDataP (p.insertEdgeDataP f t kv.1 kv.2) f t rest).edgesTab = p.edgesTab
    rw [ih]
    rfl

theorem bulkEdgeDataP_nodeDataTab (p : PState) (f t : String) (data : List (String × String)) :
    (p.bulkEdgeDataP f t data).nodeDataTab = p.nodeDataTab := by
  induction data generalizing p with
  | nil => rfl
  | cons kv rest ih =>
    show (PState.bulkEdgeDataP (p.insertEdgeDataP f t kv.1 kv.2) f t rest).nodeDataTab
      = p.nodeDataTab
    rw [ih]
    rfl

theorem bulkEdgeDataP_nodeIndexTab (p : PState) (f t : String) (data : List (String × String)) :
    (p.bulkEdgeDataP f t data).nodeIndexTab = p.nodeIndexTab := by
  induction data generalizing p with
  | nil => rfl
  | cons kv rest ih =>
    show (PState.bulkEdgeDataP (p.insertEdgeDataP f t kv.1 kv.2) f t rest).nodeIndexTab
      = p.nodeIndexTab
    rw [ih]
    rfl

theorem bulkEdgeDataP_edgeData (p : PState) (f t : String) (data : List (String × String))
    (a b k : String) :
    (p.bulkEdgeDataP f t data).edgeDataTab a b k =
      if a = f ∧ b = t then (lastVal data k).or (p.edgeDataTab a b k)
      else p.edgeDataTab a b k := by
  induction data generalizing p with
  | nil =>
    by_cases hab : a = f ∧ b = t <;> simp [PState.bulkEdgeDataP, lastVal, hab]
  | cons kv rest ih =>
    show (PState.bulkEdgeDataP (p.insertEdgeDataP f t kv.1 kv.2) f t rest).edgeDataTab a b k = _
    rw [ih, lastVal_cons, insertEdgeDataP_edgeData]
    by_cases hab : a = f ∧ b = t
    · obtain ⟨ha, hb⟩ := hab
      subst ha
      subst hb
      rw [if_pos (⟨rfl, rfl⟩ : a = a ∧ b = b), if_pos (⟨rfl, rfl⟩ : a = a ∧ b = b)]
      by_cases hk : kv.1 = k
      · rw [if_pos (⟨rfl, rfl, hk.symm⟩ : a = a ∧ b = b ∧ k = kv.1), if_pos hk]
        cases lastVal rest k <;> simp
      · rw [if_neg (fun h => hk h.2.2.symm), if_neg hk]
        cases lastVal rest k <;> simp
    · rw [if_neg hab, if_neg hab, if_neg (fun h => hab ⟨h.1, h.2.1⟩)]

/-! ### State-machine lemmas: status-index coherence of the atomic writes -/

theorem insertNodeDataP_nodeIdx_coh (p : PState) (id k v : String)
    (h : ∀ v2 n, p.nodeIndexTab "status" v2 n = true ↔ p.nodeDataTab n "status" = some v2) :
    ∀ v2 n, (p.insertNodeDataP id k v).nodeIndexTab "status" v2 n = true ↔
      (p.insertNodeDataP id k v).nodeDataTab n "status" = some v2 := by
  intro v2 n
  rw [insertNodeDataP_nodeIdx, insertNodeDataP_nodeData]
  by_cases hc : n = id ∧ "status" = k
  · obtain ⟨hn1, hk1⟩ := hc
    subst hn1
    subst hk1
    rw [if_pos (⟨rfl, rfl⟩ : n = n ∧ "status" = "status"),
      if_pos (⟨rfl, rfl⟩ : n = n ∧ "status" = "status")]
    by_cases hv : v2 = v
    · subst hv
      simp
    · rw [if_neg hv]
      by_cases hp : some v2 = p.nodeDataTab n "status"
      · rw [if_pos hp]
        constructor
        · intro hcontr
          exact absurd hcontr (by decide)
        · intro heq
          exact absurd (Option.some.inj heq).symm hv
      · rw [if_neg hp]
        rw [h v2 n]
        constructor
        · intro heq
          exact absurd heq.symm hp
        · intro heq
          exact absurd (Option.some.inj heq).symm hv
  · rw [if_neg hc]
    by_cases hd : n = id ∧ "status" = k
    · exact absurd hd hc
    · rw [if_neg hd]
      exact h v2 n

theorem insertEdgeDataP_edgeIdx_coh (p : PState) (f t k v : String)
    (h : ∀ v2 a b, p.edgeIndexTab "status" v2 a b = true ↔
      p.edgeDataTab a b "status" = some v2) :
    ∀ v2 a b, (p.insertEdgeDataP f t k v).edgeIndexTab "status" v2 a b = true ↔
      (p.insertEdgeDataP f t k v).edgeDataTab a b "status" = some v2 := by
  intro v2 a b
  rw [insertEdgeDataP_edgeIdx, insertEdgeDataP_edgeData]
  by_cases hc : a = f ∧ b = t ∧ "status" = k
  · obtain ⟨ha1, hb1, hk1⟩ := hc
    subst ha1
    subst hb1
    subst hk1
    rw [if_pos (⟨rfl, rfl, rfl⟩ : a = a ∧ b = b ∧ "status" = "status"),
      if_pos (⟨rfl, rfl, rfl⟩ : a = a ∧ b = b ∧ "status" = "status")]
    by_cases hv : v2 = v
    · subst hv
      simp
    · rw [if_neg hv]
      by_cases hp : some v2 = p.edgeDataTab a b "status"
      · rw [if_pos hp]
        constructor
        · intro hcontr
          exact absurd hcontr (by decide)
        · intro heq
          exact absurd (Option.some.inj heq).symm hv
      · rw [if_neg hp]
        rw [h v2 a b]
        constructor
        · intro heq
          exact absurd heq.symm hp
        · intro heq
          exact absurd (Option.some.inj heq).symm hv
  · rw [if_neg hc, if_neg hc]
    exact h v2 a b

theorem bulkNodeDataP_nodeIdx_coh (p : PState) (id : String)
    (data : List (String × String))
    (h : ∀ v2 n, p.nodeIndexTab "status" v2 n = true ↔ p.nodeDataTab n "status" = some v2) :
    ∀ v2 n, (p.bulkNodeDataP id data).nodeIndexTab "status" v2 n = true ↔
      (p.bulkNodeDataP id data).nodeDataTab n "status" = some v2 := by
  induction data generalizing p with
  | nil => exact h
  | cons kv rest ih =>
    exact ih (p.insertNodeDataP id kv.1 kv.2) (insertNodeDataP_nodeIdx_coh p id kv.1 kv.2 h)

theorem bulkEdgeDataP_edgeIdx_coh (p : PState) (f t : String)
    (data : List (String × String))
    (h : ∀ v2 a b, p.edgeIndexTab "status" v2 a b = true ↔
      p.edgeDataTab a b "status" = some v2) :
    ∀ v2 a b, (p.bulkEdgeDataP f t data).edgeIndexTab "status" v2 a b = true ↔
      (p.bulkEdgeDataP f t data).edgeDataTab a b "status" = some v2 := by
  induction data generalizing p with
  | nil => exact h
  | cons kv rest ih =>
    exact ih (p.insertEdgeDataP f t kv.1 kv.2) (insertEdgeDataP_edgeIdx_coh p f t kv.1 kv.2 h)

/-! ### State-machine lemmas: `mark_edges_deleted_for_node` -/

theorem markEdges_edgeData (p : PState) (id a b k : String) :
    (p.markEdgesDeletedP id).edgeDataTab a b k =
      if p.edgesTab a b ∧ (a = id ∨ b = id) ∧ k = "status" then some "deleted"
      else p.edgeDataTab a b k := rfl

theorem markEdges_edgeIdx_coh (p : PState) (id : String)
    (h : ∀ v2 a b, p.edgeIndexTab "status" v2 a b = true ↔
      p.edgeDataTab a b "status" = some v2) :
    ∀ v2 a b, (p.markEdgesDeletedP id).edgeIndexTab "status" v2 a b = true ↔
      (p.markEdgesDeletedP id).edgeDataTab a b "status" = some v2 := by
  intro v2 a b
  show (if p.edgesTab a b ∧ (a = id ∨ b = id) ∧ "status" = "status" then _
      else p.edgeIndexTab "status" v2 a b) = true ↔
    (if p.edgesTab a b ∧ (a = id ∨ b = id) ∧ "status" = "status" then some "deleted"
      else p.edgeDataTab a b "status") = some v2
  by_cases hc : p.edgesTab a b ∧ (a = id ∨ b = id) ∧ "status" = "status"
  · rw [if_pos hc, if_pos hc]
    by_cases hv : v2 = "deleted"
    · subst hv
      simp
    · rw [if_neg hv]
      by_cases hp : some v2 = p.edgeDataTab a b "status"
      · rw [if_pos hp]
        constructor
        · intro hcontr
          exact absurd hcontr (by decide)
        · intro heq
          exact absurd (Option.some.inj heq).symm hv
      · rw [if_neg hp]
        rw [h v2 a b]
        constructor
        · intro heq
          exact absurd heq.symm hp
        · intro heq
          exact absurd (Option.some.inj heq).symm hv
  · rw [if_neg hc, if_neg hc]
    exact h v2 a b

/-! ### State-machine lemmas: cache-side bulk installs keep membership -/

theorem setNodeData_hasN (g : GCache) (id k v : String) :
    (g.setNodeData id k v).hasN = g.hasN := by
  unfold GCache.setNodeData
  split <;> rfl

theorem setNodeData_hasE (g : GCache) (id k v : String) :
    (g.setNodeData id k v).hasE = g.hasE := by
  unfold GCache.setNodeData
  split <;> rfl

theorem setNodeData_eData (g : GCache) (id k v : String) :
    (g.setNodeData id k v).eData = g.eData := by
  unfold GCache.setNodeData
  split <;> rfl

theorem setEdgeData_hasN (g : GCache) (f t k v : String) :
    (g.setEdgeData f t k v).hasN = g.hasN := by
  unfold GCache.setEdgeData
  split <;> rfl

theorem setEdgeData_hasE (g : GCache) (f t k v : String) :
    (g.setEdgeData f t k v).hasE = g.hasE := by
  unfold GCache.setEdgeData
  split <;> rfl

theorem setEdgeData_nData (g : GCache) (f t k v : String) :
    (g.setEdgeData f t k v).nData = g.nData := by
  unfold GCache.setEdgeData
  split <;> rfl

theorem cacheBulkNodeData_hasN (g : GCache) (sc : SchemaCache) (id : String)
    (data : List (String × String)) :
    (cacheBulkNodeData g sc id data).hasN = g.hasN := by
  induction data generalizing g with
  | nil => rfl
  | cons kv rest ih =>
    show (cacheBulkNodeData (if sc.node_in_memory kv.1 then g.setNodeData id kv.1 kv.2 else g)
      sc id rest).hasN = g.hasN
    rw [ih]
    split <;> [rw [setNodeData_hasN]; rfl]

theorem cacheBulkNodeData_hasE (g : GCache) (sc : SchemaCache) (id : String)
    (data : List (String × String)) :
    (cacheBulkNodeData g sc id data).hasE = g.hasE := by
  induction data generalizing g with
  | nil => rfl
  | cons kv rest ih =>
    show (cacheBulkNodeData (if sc.node_in_memory kv.1 then g.setNodeData id kv.1 kv.2 else g)
      sc id rest).hasE = g.hasE
    rw [ih]
    split <;> [rw [setNodeData_hasE]; rfl]

theorem cacheBulkNodeData_eData (g : GCache) (sc : SchemaCache) (id : String)
    (data : List (String × String)) :
    (cacheBulkNodeData g sc id data).eData = g.eData := by
  induction data generalizing g with
  | nil => rfl
  | cons kv rest ih =>
    show (cacheBulkNodeData (if sc.node_in_memory kv.1 then g.setNodeData id kv.1 kv.2 else g)
      sc id rest).eData = g.eData
    rw [ih]
    split <;> [rw [setNodeData_eData]; rfl]

theorem cacheBulkEdgeData_hasN (g : GCache) (sc : SchemaCache) (f t : String)
    (data : List (String × String)) :
    (cacheBulkEdgeData g sc f t data).hasN = g.hasN := by
  induction data generalizing g with
  | nil => rfl
  | cons kv rest ih =>
    show (cacheBulkEdgeData (if sc.edge_in_memory kv.1 then g.setEdgeData f t kv.1 kv.2 else g)
      sc f t rest).hasN = g.hasN
    rw [ih]
    split <;> [rw [setEdgeData_hasN]; rfl]

theorem cacheBulkEdgeData_hasE (g : GCache) (sc : SchemaCache) (f t : String)
    (data : List (String × String)) :
    (cacheBulkEdgeData g sc f t data).hasE = g.hasE := by
  induction data generalizing g with
  | nil => rfl
  | cons kv rest ih =>
    show (cacheBulkEdgeData (if sc.edge_in_memory kv.1 then g.setEdgeData f t kv.1 kv.2 else g)
      sc f t rest).hasE = g.hasE
    rw [ih]
    split <;> [rw [setEdgeData_hasE]; rfl]

theorem cacheBulkEdgeData_nData (g : GCache) (sc : SchemaCache) (f t : String)
    (data : List (String × String)) :
    (cacheBulkEdgeData g sc f t data).nData = g.nData := by
  induction data generalizing g with
  | nil => rfl
  | cons kv rest ih =>
    show (cacheBulkEdgeData (if sc.edge_in_memory kv.1 then g.setEdgeData f t kv.1 kv.2 else g)
      sc f t rest).nData = g.nData
    rw [ih]
    split <;> [rw [setEdgeData_nData]; rfl]

/-! Payload facts. -/

theorem lastVal_withStatusDefault_status (payload : List (String × String))
    (h : ¬ payloadHasKey payload "status") :
    lastVal (withStatusDefault payload) "status" = some "active" := by
  unfold withStatusDefault
  rw [if_neg h]
  induction payload with
  | nil => rfl
  | cons kv rest ih =>
    have hk : ¬ kv.1 = "status" := by
      intro hcontr
      exact h (by simp [payloadHasKey, hcontr])
    have hrest : ¬ payloadHasKey rest "status" := by
      intro hcontr
      apply h
      unfold payloadHasKey at hcontr ⊢
      simp only [List.any_cons, Bool.or_eq_true]
      exact Or.inr hcontr
    rw [List.cons_append, lastVal_cons, ih hrest]
    rw [if_neg hk]
    rfl

theorem lastVal_none_of_not_hasKey (payload : List (String × String)) (k : String)
    (h : ¬ payloadHasKey payload k) : lastVal payload k = none := by
  induction payload with
  | nil => rfl
  | cons kv rest ih =>
    have hk : ¬ kv.1 = k := by
      intro hcontr
      exact h (by simp [payloadHasKey, hcontr])
    have hrest : ¬ payloadHasKey rest k := by
      intro hcontr
      apply h
      unfold payloadHasKey at hcontr ⊢
      simp only [List.any_cons, Bool.or_eq_true]
      exact Or.inr hcontr
    rw [lastVal_cons, ih hrest, if_neg hk]
    rfl

theorem lastVal_isSome_of_hasKey (payload : List (String × String)) (k : String)
    (h : payloadHasKey payload k = true) : (lastVal payload k).isSome = true := by
  induction payload with
  | nil => simp [payloadHasKey] at h
  | cons kv rest ih =>
    rw [lastVal_cons]
    by_cases hrest : payloadHasKey rest k
    · have hsome := ih hrest
      cases hv : lastVal rest k with
      | some v => simp
      | none =>
        rw [hv] at hsome
        exact Bool.noConfusion hsome
    · unfold payloadHasKey at h
      simp only [List.any_cons, Bool.or_eq_true] at h
      rcases h with h | h
      · rw [lastVal_none_of_not_hasKey rest k hrest, if_pos (by simpa using h)]
        simp
      · exact absurd h hrest

/-! ### Cache data projections -/

theorem setNodeData_nData (g : GCache) (id k v n k2 : String) :
    (g.setNodeData id k v).nData n k2 =
      if g.hasN id = true ∧ n = id ∧ k2 = k then some v else g.nData n k2 := by
  unfold GCache.setNodeData
  by_cases h : g.hasN id = true
  · rw [if_pos h]
    show (if n = id ∧ k2 = k then some v else g.nData n k2) = _
    by_cases h2 : n = id ∧ k2 = k
    · rw [if_pos h2, if_pos ⟨h, h2⟩]
    · rw [if_neg h2, if_neg (fun hc => h2 hc.2)]
  · rw [if_neg h, if_neg (fun hc => h hc.1)]

theorem setEdgeData_eData (g : GCache) (f t k v a b k2 : String) :
    (g.setEdgeData f t k v).eData a b k2 =
      if g.hasE f t = true ∧ a = f ∧ b = t ∧ k2 = k then some v else g.eData a b k2 := by
  unfold GCache.setEdgeData
  by_cases h : g.hasE f t = true
  · rw [if_pos h]
    show (if a = f ∧ b = t ∧ k2 = k then some v else g.eData a b k2) = _
    by_cases h2 : a = f ∧ b = t ∧ k2 = k
    · rw [if_pos h2, if_pos ⟨h, h2⟩]
    · rw [if_neg h2, if_neg (fun hc => h2 hc.2)]
  · rw [if_neg h, if_neg (fun hc => h hc.1)]

theorem cacheBulkNodeData_nData_other (g : GCache) (sc : SchemaCache) (id : String)
    (data : List (String × String)) (n : String) (hn : ¬ n = id) (k : String) :
    (cacheBulkNodeData g sc id data).nData n k = g.nData n k := by
  induction data generalizing g with
  | nil => rfl
  | cons kv rest ih =>
    show (cacheBulkNodeData (if sc.node_in_memory kv.1 then g.setNodeData id kv.1 kv.2 else g)
      sc id rest).nData n k = g.nData n k
    rw [ih]
    split
    · rw [setNodeData_nData, if_neg (fun hc => hn hc.2.1)]
    · rfl

theorem cacheBulkEdgeData_eData_other (g : GCache) (sc : SchemaCache) (f t : String)
    (data : List (String × String)) (a b : String) (hab : ¬ (a = f ∧ b = t)) (k : String) :
    (cacheBulkEdgeData g sc f t data).eData a b k = g.eData a b k := by
  induction data generalizing g with
  | nil => rfl
  | cons kv rest ih =>
    show (cacheBulkEdgeData (if sc.edge_in_memory kv.1 then g.setEdgeData f t kv.1 kv.2 else g)
      sc f t rest).eData a b k = g.eData a b k
    rw [ih]
    split
    · rw [setEdgeData_eData, if_neg (fun hc => hab ⟨hc.2.1, hc.2.2.1⟩)]
    · rfl

/-! ### Coherence preservation of the composite write steps -/

theorem coherent_node_write (s : Sys) (id : String) (data : List (String × String))
    (hc : Coherent s) (hstatus : lastVal data "status" = some "active") :
    Coherent { s with p := (s.p.insertNodeRow id).bulkNodeDataP id data,
                      g := cacheBulkNodeData (s.g.addNode id) s.sc id data } := by
  set p1 := s.p.insertNodeRow id with hp1
  have hnodes : ∀ n, (p1.bulkNodeDataP id data).nodesTab n
      = (s.p.nodesTab n || n = id) := by
    intro n
    rw [bulkNodeDataP_nodesTab]
    rfl
  have hdata : ∀ n k, (p1.bulkNodeDataP id data).nodeDataTab n k =
      if n = id then (lastVal data k).or (s.p.nodeDataTab n k) else s.p.nodeDataTab n k := by
    intro n k
    rw [bulkNodeDataP_nodeData]
    rfl
  have hhasN : ∀ n, (cacheBulkNodeData (s.g.addNode id) s.sc id data).hasN n
      = (s.g.hasN n || n = id) := by
    intro n
    rw [cacheBulkNodeData_hasN]
    rfl
  have hactiveN : ∀ n, activeN (p1.bulkNodeDataP id data) n ↔
      (activeN s.p n ∨ n = id) := by
    intro n
    unfold activeN
    rw [hnodes, hdata]
    by_cases hn : n = id
    · subst hn
      rw [if_pos rfl, hstatus]
      simp [Option.or]
    · rw [if_neg hn]
      simp [hn]
  constructor
  · intro n
    rw [hhasN, hactiveN n]
    rw [Bool.or_eq_true]
    rw [hc.cacheNode n]
    simp
  · intro f t
    rw [cacheBulkNodeData_hasE]
    unfold activeE
    rw [bulkNodeDataP_edgesTab, bulkNodeDataP_edgeDataTab]
    exact hc.cacheEdge f t
  · have hbase : ∀ v2 n, p1.nodeIndexTab "status" v2 n = true ↔
        p1.nodeDataTab n "status" = some v2 := hc.nodeIdx
    exact bulkNodeDataP_nodeIdx_coh p1 id data hbase
  · intro v f t
    rw [bulkNodeDataP_edgeIndexTab, bulkNodeDataP_edgeDataTab]
    exact hc.edgeIdx v f t
  · intro f t hE
    have hE0 : activeE s.p f t := by
      unfold activeE at hE ⊢
      rw [bulkNodeDataP_edgesTab, bulkNodeDataP_edgeDataTab] at hE
      exact hE
    have := hc.edgeEnds f t hE0
    exact ⟨(hactiveN f).2 (Or.inl this.1), (hactiveN t).2 (Or.inl this.2)⟩
  · intro n k v hv
    rw [hnodes]
    rw [hdata] at hv
    by_cases hn : n = id
    · simp [hn]
    · rw [if_neg hn] at hv
      rw [Bool.or_eq_true]
      exact Or.inl (hc.nodeDataRow n k v hv)
  · intro f t k v hv
    rw [bulkNodeDataP_edgeDataTab] at hv
    rw [bulkNodeDataP_edgesTab]
    exact hc.edgeDataRow f t k v hv
  · intro n hn k
    rw [hhasN] at hn
    have hn1 : s.g.hasN n = false := by
      cases h1 : s.g.hasN n
      · rfl
      · rw [h1] at hn
        exact Bool.noConfusion hn
    have hn2 : ¬ n = id := by
      intro hcontr
      rw [hcontr] at hn
      simp at hn
    rw [cacheBulkNodeData_nData_other _ _ _ _ _ hn2]
    show s.g.nData n k = none
    exact hc.cacheNData n hn1 k
  · intro f t hE k
    rw [cacheBulkNodeData_hasE] at hE
    rw [cacheBulkNodeData_eData]
    exact hc.cacheEData f t hE k

theorem decide_and_false_of_not (a f b t : String) (hab : ¬ (a = f ∧ b = t)) :
    (a = f && b = t) = false := by
  by_cases ha : a = f
  · have hb : ¬ b = t := fun hb => hab ⟨ha, hb⟩
    simp [hb]
  · simp [ha]

theorem coherent_edge_write_gen (s : Sys) (f t : String) (data : List (String × String))
    (hc : Coherent s)
    (hfa : activeN s.p f) (hta : activeN s.p t)
    (hstatus : lastVal data "status" = some "active")
    (p1 : PState) (g1 : GCache)
    (hp1e : ∀ a b, p1.edgesTab a b = (s.p.edgesTab a b || (a = f && b = t)))
    (hp1n : p1.nodesTab = s.p.nodesTab)
    (hp1nd : p1.nodeDataTab = s.p.nodeDataTab)
    (hp1ed : p1.edgeDataTab = s.p.edgeDataTab)
    (hp1ni : p1.nodeIndexTab = s.p.nodeIndexTab)
    (hp1ei : p1.edgeIndexTab = s.p.edgeIndexTab)
    (hg1h : ∀ a b, g1.hasE a b = (s.g.hasE a b || (a = f && b = t)))
    (hg1n : g1.hasN = s.g.hasN)
    (hg1nd : g1.nData = s.g.nData)
    (hg1ed : g1.eData = s.g.eData) :
    Coherent { s with p := p1.bulkEdgeDataP f t data,
                      g := cacheBulkEdgeData g1 s.sc f t data } := by
  have hedges : ∀ a b, (p1.bulkEdgeDataP f t data).edgesTab a b =
      (s.p.edgesTab a b || (a = f && b = t)) := by
    intro a b
    rw [bulkEdgeDataP_edgesTab]
    exact hp1e a b
  have hdata : ∀ a b k, (p1.bulkEdgeDataP f t data).edgeDataTab a b k =
      if a = f ∧ b = t then (lastVal data k).or (s.p.edgeDataTab a b k)
      else s.p.edgeDataTab a b k := by
    intro a b k
    rw [bulkEdgeDataP_edgeData, hp1ed]
  have hhasE : ∀ a b, (cacheBulkEdgeData g1 s.sc f t data).hasE a b =
      (s.g.hasE a b || (a = f && b = t)) := by
    intro a b
    rw [cacheBulkEdgeData_hasE]
    exact hg1h a b
  have hactiveE : ∀ a b, activeE (p1.bulkEdgeDataP f t data) a b ↔
      (activeE s.p a b ∨ (a = f ∧ b = t)) := by
    intro a b
    unfold activeE
    rw [hedges a b, hdata a b]
    by_cases hab : a = f ∧ b = t
    · obtain ⟨ha, hb⟩ := hab
      subst ha
      subst hb
      rw [if_pos ⟨rfl, rfl⟩, hstatus]
      simp [Option.or]
    · rw [if_neg hab]
      rw [decide_and_false_of_not a f b t hab]
      simp [hab]
  constructor
  · intro n
    rw [cacheBulkEdgeData_hasN, hg1n]
    unfold activeN
    rw [bulkEdgeDataP_nodesTab, bulkEdgeDataP_nodeDataTab, hp1n, hp1nd]
    exact hc.cacheNode n
  · intro a b
    rw [hhasE a b, hactiveE a b, Bool.or_eq_true, hc.cacheEdge a b]
    constructor
    · rintro (h | h)
      · exact Or.inl h
      · refine Or.inr ?_
        constructor
        · exact of_decide_eq_true (Bool.and_elim_left h)
        · exact of_decide_eq_true (Bool.and_elim_right h)
    · rintro (h | ⟨ha, hb⟩)
      · exact Or.inl h
      · refine Or.inr ?_
        rw [ha, hb]
        simp
  · intro v n
    rw [bulkEdgeDataP_nodeIndexTab, bulkEdgeDataP_nodeDataTab, hp1ni, hp1nd]
    exact hc.nodeIdx v n
  · exact bulkEdgeDataP_edgeIdx_coh p1 f t data (by
      intro v2 a b
      rw [hp1ei, hp1ed]
      exact hc.edgeIdx v2 a b)
  · intro a b hE
    rw [hactiveE a b] at hE
    rcases hE with hE | ⟨ha, hb⟩
    · have := hc.edgeEnds a b hE
      unfold activeN
      rw [bulkEdgeDataP_nodesTab, bulkEdgeDataP_nodeDataTab, hp1n, hp1nd]
      exact this
    · subst ha
      subst hb
      unfold activeN
      rw [bulkEdgeDataP_nodesTab, bulkEdgeDataP_nodeDataTab, hp1n, hp1nd]
      exact ⟨hfa, hta⟩
  · intro n k v hv
    rw [bulkEdgeDataP_nodeDataTab, hp1nd] at hv
    rw [bulkEdgeDataP_nodesTab, hp1n]
    exact hc.nodeDataRow n k v hv
  · intro a b k v hv
    rw [hdata a b k] at hv
    rw [hedges a b, Bool.or_eq_true]
    by_cases hab : a = f ∧ b = t
    · right
      rw [hab.1, hab.2]
      simp
    · rw [if_neg hab] at hv
      exact Or.inl (hc.edgeDataRow a b k v hv)
  · intro n hn k
    rw [cacheBulkEdgeData_hasN, hg1n] at hn
    rw [cacheBulkEdgeData_nData, hg1nd]
    exact hc.cacheNData n hn k
  · intro a b hE k
    rw [hhasE a b] at hE
    have h1 : s.g.hasE a b = false := by
      cases h2 : s.g.hasE a b
      · rfl
      · rw [h2] at hE
        exact Bool.noConfusion hE
    have hab : ¬ (a = f ∧ b = t) := by
      intro hcontr
      rw [hcontr.1, hcontr.2] at hE
      simp at hE
    rw [cacheBulkEdgeData_eData_other _ _ _ _ _ _ _ hab, hg1ed]
    exact hc.cacheEData a b h1 k

theorem coherent_mirrorEdge (s : Sys) (f t : String) (revData : List (String × String))
    (hc : Coherent s) (hfa : activeN s.p f) (hta : activeN s.p t)
    (hstatus : lastVal revData "status" = some "active") :
    Coherent (mirrorEdge s f t revData) := by
  unfold mirrorEdge
  by_cases hE : s.g.hasE t f = true
  · rw [if_neg (by simpa using hE)]
    refine coherent_edge_write_gen s t f revData hc hta hfa hstatus s.p s.g ?_ rfl rfl rfl
      rfl rfl ?_ rfl rfl rfl
    · intro a b
      by_cases hab : a = t ∧ b = f
      · rw [hab.1, hab.2]
        have := (hc.cacheEdge t f).1 hE
        rw [this.1]
        simp
      · rw [decide_and_false_of_not a t b f hab, Bool.or_false]
    · intro a b
      by_cases hab : a = t ∧ b = f
      · rw [hab.1, hab.2, hE]
        simp
      · rw [decide_and_false_of_not a t b f hab, Bool.or_false]
  · rw [if_pos (by simpa using hE)]
    have hhasNt : s.g.hasN t = true := (hc.cacheNode t).2 hta
    refine coherent_edge_write_gen s t f revData hc hta hfa hstatus
      (s.p.insertEdgeRow t f) (s.g.addEdge t f) (fun a b => rfl) rfl rfl rfl rfl rfl
      ?_ ?_ ?_ ?_
    · intro a b
      unfold GCache.addEdge
      rw [if_pos hhasNt]
    · unfold GCache.addEdge
      rw [if_pos hhasNt]
    · unfold GCache.addEdge
      rw [if_pos hhasNt]
    · unfold GCache.addEdge
      rw [if_pos hhasNt]

theorem coherent_node_bulk_sf (s : Sys) (id : String) (data : List (String × String))
    (hc : Coherent s) (hhasN : s.g.hasN id = true)
    (hnostatus : lastVal data "status" = none) :
    Coherent { s with p := s.p.bulkNodeDataP id data,
                      g := cacheBulkNodeData s.g s.sc id data } := by
  have hdata : ∀ n, (s.p.bulkNodeDataP id data).nodeDataTab n "status" =
      s.p.nodeDataTab n "status" := by
    intro n
    rw [bulkNodeDataP_nodeData]
    by_cases hn : n = id
    · rw [if_pos hn, hnostatus]
      exact Option.none_or
    · rw [if_neg hn]
  have hAN : ∀ n, activeN (s.p.bulkNodeDataP id data) n ↔ activeN s.p n := by
    intro n
    unfold activeN
    rw [bulkNodeDataP_nodesTab, hdata n]
  constructor
  · intro n
    rw [cacheBulkNodeData_hasN, hAN n]
    exact hc.cacheNode n
  · intro a b
    rw [cacheBulkNodeData_hasE]
    unfold activeE
    rw [bulkNodeDataP_edgesTab, bulkNodeDataP_edgeDataTab]
    exact hc.cacheEdge a b
  · exact bulkNodeDataP_nodeIdx_coh s.p id data hc.nodeIdx
  · intro v a b
    rw [bulkNodeDataP_edgeIndexTab, bulkNodeDataP_edgeDataTab]
    exact hc.edgeIdx v a b
  · intro a b hE
    unfold activeE at hE
    rw [bulkNodeDataP_edgesTab, bulkNodeDataP_edgeDataTab] at hE
    have := hc.edgeEnds a b hE
    exact ⟨(hAN a).2 this.1, (hAN b).2 this.2⟩
  · intro n k v hv
    rw [bulkNodeDataP_nodesTab]
    rw [bulkNodeDataP_nodeData] at hv
    by_cases hn : n = id
    · subst hn
      exact ((hc.cacheNode n).1 hhasN).1
    · rw [if_neg hn] at hv
      exact hc.nodeDataRow n k v hv
  · intro a b k v hv
    rw [bulkNodeDataP_edgeDataTab] at hv
    rw [bulkNodeDataP_edgesTab]
    exact hc.edgeDataRow a b k v hv
  · intro n hn k
    rw [cacheBulkNodeData_hasN] at hn
    have hn2 : ¬ n = id := by
      intro hcontr
      rw [hcontr, hhasN] at hn
      exact Bool.noConfusion hn
    rw [cacheBulkNodeData_nData_other _ _ _ _ _ hn2]
    exact hc.cacheNData n hn k
  · intro a b hE k
    rw [cacheBulkNodeData_hasE] at hE
    rw [cacheBulkNodeData_eData]
    exact hc.cacheEData a b hE k

theorem coherent_edge_bulk_sf (s : Sys) (f t : String) (data : List (String × String))
    (hc : Coherent s) (hhasE : s.g.hasE f t = true)
    (hnostatus : lastVal data "status" = none) :
    Coherent { s with p := s.p.bulkEdgeDataP f t data,
                      g := cacheBulkEdgeData s.g s.sc f t data } := by
  have hdata : ∀ a b, (s.p.bulkEdgeDataP f t data).edgeDataTab a b "status" =
      s.p.edgeDataTab a b "status" := by
    intro a b
    rw [bulkEdgeDataP_edgeData]
    by_cases hab : a = f ∧ b = t
    · rw [if_pos hab, hnostatus]
      exact Option.none_or
    · rw [if_neg hab]
  have hAE : ∀ a b, activeE (s.p.bulkEdgeDataP f t data) a b ↔ activeE s.p a b := by
    intro a b
    unfold activeE
    rw [bulkEdgeDataP_edgesTab, hdata a b]
  constructor
  · intro n
    rw [cacheBulkEdgeData_hasN]
    unfold activeN
    rw [bulkEdgeDataP_nodesTab, bulkEdgeDataP_nodeDataTab]
    exact hc.cacheNode n
  · intro a b
    rw [cacheBulkEdgeData_hasE, hAE a b]
    exact hc.cacheEdge a b
  · intro v n
    rw [bulkEdgeDataP_nodeIndexTab, bulkEdgeDataP_nodeDataTab]
    exact hc.nodeIdx v n
  · exact bulkEdgeDataP_edgeIdx_coh s.p f t data hc.edgeIdx
  · intro a b hE
    rw [hAE a b] at hE
    have := hc.edgeEnds a b hE
    unfold activeN
    rw [bulkEdgeDataP_nodesTab, bulkEdgeDataP_nodeDataTab]
    exact this
  · intro n k v hv
    rw [bulkEdgeDataP_nodeDataTab] at hv
    rw [bulkEdgeDataP_nodesTab]
    exact hc.nodeDataRow n k v hv
  · intro a b k v hv
    rw [bulkEdgeDataP_edgeData] at hv
    rw [bulkEdgeDataP_edgesTab]
    by_cases hab : a = f ∧ b = t
    · rw [hab.1, hab.2]
      exact ((hc.cacheEdge f t).1 hhasE).1
    · rw [if_neg hab] at hv
      exact hc.edgeDataRow a b k v hv
  · intro n hn k
    rw [cacheBulkEdgeData_hasN] at hn
    rw [cacheBulkEdgeData_nData]
    exact hc.cacheNData n hn k
  · intro a b hE k
    rw [cacheBulkEdgeData_hasE] at hE
    have hab : ¬ (a = f ∧ b = t) := by
      intro hcontr
      rw [hcontr.1, hcontr.2, hhasE] at hE
      exact Bool.noConfusion hE
    rw [cacheBulkEdgeData_eData_other _ _ _ _ _ _ _ hab]
    exact hc.cacheEData a b hE k

theorem not_hasKey_payloadSet (data : List (String × String)) (k v k2 : String)
    (h : ¬ payloadHasKey data k2 = true) (hk : ¬ k = k2) :
    ¬ payloadHasKey (payloadSet data k v) k2 = true := by
  unfold payloadSet
  split
  · intro hcontr
    unfold payloadHasKey at hcontr h
    simp only [List.any_map, List.any_eq_true, Function.comp] at hcontr
    obtain ⟨kv0, hmem, hkey⟩ := hcontr
    by_cases hkk : kv0.1 = k
    · simp only [hkk, if_true, eq_self_iff_true, decide_eq_true_eq] at hkey
      exact hk hkey
    · simp only [hkk, if_false, ite_false, decide_eq_true_eq] at hkey
      exact h (by
        simp only [List.any_eq_true]
        exact ⟨kv0, hmem, by simpa using hkey⟩)
  · intro hcontr
    unfold payloadHasKey at hcontr h
    rw [List.any_append] at hcontr
    rcases Bool.or_eq_true_iff.1 hcontr with h1 | h1
    · exact h h1
    · simp only [List.any_cons, List.any_nil, Bool.or_false] at h1
      exact hk (by simpa using h1)

theorem any_status_deleted_false (payload : List (String × String))
    (h : ¬ payloadHasKey payload "status" = true) :
    payload.any (fun kv => kv.1 = "status" && kv.2 = "deleted") = false := by
  cases hx : payload.any (fun kv => kv.1 = "status" && kv.2 = "deleted")
  · rfl
  · exfalso
    simp only [List.any_eq_true] at hx
    obtain ⟨kv, hmem, hkv⟩ := hx
    apply h
    unfold payloadHasKey
    simp only [List.any_eq_true]
    exact ⟨kv, hmem, Bool.and_elim_left hkv⟩

theorem lastVal_single_status_none (k v : String) (hk : ¬ k = "status") :
    lastVal [(k, v)] "status" = none := by
  show (match lastVal [] "status" with
    | some v2 => some v2
    | none => if k = "status" then some v else none) = none
  show (if k = "status" then some v else none) = none
  rw [if_neg hk]

theorem coherent_createNode (s : Sys) (id : String) (payload : List (String × String))
    (hc : Coherent s) (hsf : ¬ payloadHasKey payload "status" = true) :
    Coherent (applyCreateNode s id payload).1 :=
  coherent_node_write s id (withStatusDefault payload) hc
    (lastVal_withStatusDefault_status payload hsf)

theorem coherent_createEdge (s : Sys) (f t : String) (payload : List (String × String))
    (hc : Coherent s) (hsf : ¬ payloadHasKey payload "status" = true) :
    Coherent (applyCreateEdge s f t payload).1 := by
  unfold applyCreateEdge
  by_cases hguard : (s.g.hasN f && s.g.hasN t) = true
  · rw [if_neg (not_not_intro hguard)]
    have hf : s.g.hasN f = true := Bool.and_elim_left hguard
    have ht : s.g.hasN t = true := Bool.and_elim_right hguard
    have hfa := (hc.cacheNode f).1 hf
    have hta := (hc.cacheNode t).1 ht
    have hstatus := lastVal_withStatusDefault_status payload hsf
    have hs2 : Coherent { s with
        p := (s.p.insertEdgeRow f t).bulkEdgeDataP f t (withStatusDefault payload),
        g := cacheBulkEdgeData (s.g.addEdge f t) s.sc f t (withStatusDefault payload) } := by
      refine coherent_edge_write_gen s f t _ hc hfa hta hstatus _ _ (fun a b => rfl)
        rfl rfl rfl rfl rfl ?_ ?_ ?_ ?_
      · intro a b
        unfold GCache.addEdge
        rw [if_pos hf]
      · unfold GCache.addEdge
        rw [if_pos hf]
      · unfold GCache.addEdge
        rw [if_pos hf]
      · unfold GCache.addEdge
        rw [if_pos hf]
    have hAN2 : ∀ n, activeN s.p n → activeN
        ((s.p.insertEdgeRow f t).bulkEdgeDataP f t (withStatusDefault payload)) n := by
      intro n hn
      unfold activeN
      rw [bulkEdgeDataP_nodesTab, bulkEdgeDataP_nodeDataTab]
      exact hn
    dsimp only
    split
    · exact coherent_mirrorEdge _ f t _ hs2 (hAN2 f hfa) (hAN2 t hta) hstatus
    · exact hs2
  · rw [if_pos hguard]
    exact hc

theorem coherent_createBlock (s : Sys) (f t : String) (payload : List (String × String))
    (hc : Coherent s) (hsf : ¬ payloadHasKey payload "status" = true) :
    Coherent (applyCreateBlock s f t payload).1 := by
  unfold applyCreateBlock
  by_cases hguard : (s.g.hasN f && s.g.hasN t) = true
  · rw [if_neg (not_not_intro hguard)]
    have hf : s.g.hasN f = true := Bool.and_elim_left hguard
    have ht : s.g.hasN t = true := Bool.and_elim_right hguard
    have hfa := (hc.cacheNode f).1 hf
    have hta := (hc.cacheNode t).1 ht
    have hsf2 : ¬ payloadHasKey (payloadSet payload "type" "block") "status" = true :=
      not_hasKey_payloadSet payload "type" "block" "status" hsf (by decide)
    have hstatus := lastVal_withStatusDefault_status _ hsf2
    have hs2 : Coherent { s with
        p := (s.p.insertEdgeRow f t).bulkEdgeDataP f t
          (withStatusDefault (payloadSet payload "type" "block")),
        g := cacheBulkEdgeData (s.g.addEdge f t) s.sc f t
          (withStatusDefault (payloadSet payload "type" "block")) } := by
      refine coherent_edge_write_gen s f t _ hc hfa hta hstatus _ _ (fun a b => rfl)
        rfl rfl rfl rfl rfl ?_ ?_ ?_ ?_
      · intro a b
        unfold GCache.addEdge
        rw [if_pos hf]
      · unfold GCache.addEdge
        rw [if_pos hf]
      · unfold GCache.addEdge
        rw [if_pos hf]
      · unfold GCache.addEdge
        rw [if_pos hf]
    have hAN2 : ∀ n, activeN s.p n → activeN
        ((s.p.insertEdgeRow f t).bulkEdgeDataP f t
          (withStatusDefault (payloadSet payload "type" "block"))) n := by
      intro n hn
      unfold activeN
      rw [bulkEdgeDataP_nodesTab, bulkEdgeDataP_nodeDataTab]
      exact hn
    dsimp only
    split
    · exact coherent_mirrorEdge _ f t _ hs2 (hAN2 f hfa) (hAN2 t hta) hstatus
    · exact hs2
  · rw [if_pos hguard]
    exact hc

theorem coherent_setNodeData (s : Sys) (id k v : String)
    (hc : Coherent s) (hsf : ¬ k = "status") :
    Coherent (applySetNodeData s id k v).1 := by
  unfold applySetNodeData
  by_cases hguard : s.g.hasN id = true
  · rw [if_neg (not_not_intro hguard)]
    dsimp only
    rw [if_neg (show ¬ (k = "status" ∧ v = "deleted") from fun hcontr => hsf hcontr.1)]
    exact coherent_node_bulk_sf s id [(k, v)] hc hguard (lastVal_single_status_none k v hsf)
  · rw [if_pos hguard]
    exact hc

theorem coherent_setEdgeData (s : Sys) (f t k v : String)
    (hc : Coherent s) (hsf : ¬ k = "status") :
    Coherent (applySetEdgeData s f t k v).1 := by
  unfold applySetEdgeData
  by_cases hguard : s.g.hasE f t = true
  · rw [if_neg (not_not_intro hguard)]
    dsimp only
    rw [if_neg (show ¬ (k = "status" ∧ v = "deleted") from fun hcontr => hsf hcontr.1)]
    have hs2 : Coherent { s with
        p := s.p.bulkEdgeDataP f t [(k, v)],
        g := cacheBulkEdgeData s.g s.sc f t [(k, v)] } :=
      coherent_edge_bulk_sf s f t [(k, v)] hc hguard (lastVal_single_status_none k v hsf)
    have hAE : activeE s.p f t := (hc.cacheEdge f t).1 hguard
    have hEnds := hc.edgeEnds f t hAE
    have hAN2 : ∀ n, activeN s.p n →
        activeN (s.p.bulkEdgeDataP f t [(k, v)]) n := by
      intro n hn
      unfold activeN
      rw [bulkEdgeDataP_nodesTab, bulkEdgeDataP_nodeDataTab]
      exact hn
    split
    · exact coherent_mirrorEdge _ f t _ hs2 (hAN2 f hEnds.1) (hAN2 t hEnds.2) (by rfl)
    · exact hs2
  · rw [if_pos hguard]
    exact hc

theorem coherent_patchNode (s : Sys) (id : String) (payload : List (String × String))
    (hc : Coherent s) (hsf : ¬ payloadHasKey payload "status" = true) :
    Coherent (applyPatchNode s id payload).1 := by
  unfold applyPatchNode
  by_cases hguard : s.g.hasN id = true
  · rw [if_neg (not_not_intro hguard)]
    dsimp only
    rw [any_status_deleted_false payload hsf, if_neg (by decide : ¬ false = true)]
    exact coherent_node_bulk_sf s id payload hc hguard
      (lastVal_none_of_not_hasKey payload "status" hsf)
  · rw [if_pos hguard]
    exact hc

theorem coherent_patchEdge (s : Sys) (f t : String) (payload : List (String × String))
    (hc : Coherent s) (hsf : ¬ payloadHasKey payload "status" = true) :
    Coherent (applyPatchEdge s f t payload).1 := by
  unfold applyPatchEdge
  by_cases hguard : s.g.hasE f t = true
  · rw [if_neg (not_not_intro hguard)]
    dsimp only
    rw [any_status_deleted_false payload hsf, if_neg (by decide : ¬ false = true)]
    have hs2 : Coherent { s with
        p := s.p.bulkEdgeDataP f t payload,
        g := cacheBulkEdgeData s.g s.sc f t payload } :=
      coherent_edge_bulk_sf s f t payload hc hguard
        (lastVal_none_of_not_hasKey payload "status" hsf)
    have hAE : activeE s.p f t := (hc.cacheEdge f t).1 hguard
    have hEnds := hc.edgeEnds f t hAE
    have hAN2 : ∀ n, activeN s.p n →
        activeN (s.p.bulkEdgeDataP f t payload) n := by
      intro n hn
      unfold activeN
      rw [bulkEdgeDataP_nodesTab, bulkEdgeDataP_nodeDataTab]
      exact hn
    split
    · exact coherent_mirrorEdge _ f t _ hs2 (hAN2 f hEnds.1) (hAN2 t hEnds.2)
        (lastVal_withStatusDefault_status payload hsf)
    · exact hs2
  · rw [if_pos hguard]
    exact hc

theorem coherent_deleteNode (s : Sys) (id : String) (hc : Coherent s) :
    Coherent (applyDeleteNode s id).1 := by
  unfold applyDeleteNode
  by_cases hrow : s.p.nodeRowExists id = true
  · rw [if_neg (not_not_intro hrow)]
    have hND : ∀ n k, ((s.p.insertNodeDataP id "status" "deleted").markEdgesDeletedP
        id).nodeDataTab n k =
        if n = id ∧ k = "status" then some "deleted" else s.p.nodeDataTab n k := by
      intro n k
      show (s.p.insertNodeDataP id "status" "deleted").nodeDataTab n k = _
      rw [insertNodeDataP_nodeData]
    have hED : ∀ a b k, ((s.p.insertNodeDataP id "status" "deleted").markEdgesDeletedP
        id).edgeDataTab a b k =
        if s.p.edgesTab a b = true ∧ (a = id ∨ b = id) ∧ k = "status" then some "deleted"
        else s.p.edgeDataTab a b k := by
      intro a b k
      rw [markEdges_edgeData]
      rfl
    have hasN2 : ∀ n, (s.g.removeNode id).hasN n = true ↔
        (s.g.hasN n = true ∧ ¬ n = id) := by
      intro n
      simp [GCache.removeNode]
    have hasE2 : ∀ a b, (s.g.removeNode id).hasE a b = true ↔
        (s.g.hasE a b = true ∧ ¬ a = id ∧ ¬ b = id) := by
      intro a b
      simp [GCache.removeNode, and_assoc]
    have hAN : ∀ n, activeN ((s.p.insertNodeDataP id "status" "deleted").markEdgesDeletedP
        id) n ↔ (activeN s.p n ∧ ¬ n = id) := by
      intro n
      unfold activeN
      rw [hND n "status"]
      by_cases hn : n = id
      · subst hn
        rw [if_pos ⟨rfl, rfl⟩]
        simp
      · rw [if_neg (fun h => hn h.1)]
        show (s.p.nodesTab n = true ∧ _) ↔ _
        simp [hn]
    have hAE : ∀ a b, activeE ((s.p.insertNodeDataP id "status" "deleted").markEdgesDeletedP
        id) a b ↔ (activeE s.p a b ∧ ¬ a = id ∧ ¬ b = id) := by
      intro a b
      unfold activeE
      rw [hED a b "status"]
      show (s.p.edgesTab a b = true ∧ _) ↔ _
      by_cases htouch : a = id ∨ b = id
      · have hnot : ¬ (¬ a = id ∧ ¬ b = id) := by
          intro hcontr
          rcases htouch with h | h
          · exact hcontr.1 h
          · exact hcontr.2 h
        by_cases hr : s.p.edgesTab a b = true
        · rw [if_pos ⟨hr, htouch, rfl⟩]
          simp [hnot]
        · rw [if_neg (fun hcontr => hr hcontr.1)]
          simp [hr, hnot]
      · rw [if_neg (fun hcontr => htouch hcontr.2.1)]
        push_neg at htouch
        simp [htouch.1, htouch.2]
    constructor
    · intro n
      rw [hasN2 n, hAN n]
      exact and_congr_left fun _ => hc.cacheNode n
    · intro a b
      rw [hasE2 a b, hAE a b]
      exact and_congr_left fun _ => hc.cacheEdge a b
    · exact insertNodeDataP_nodeIdx_coh s.p id "status" "deleted" hc.nodeIdx
    · exact markEdges_edgeIdx_coh (s.p.insertNodeDataP id "status" "deleted") id hc.edgeIdx
    · intro a b hE
      rw [hAE a b] at hE
      obtain ⟨hE0, ha, hb⟩ := hE
      have hEnds := hc.edgeEnds a b hE0
      exact ⟨(hAN a).2 ⟨hEnds.1, ha⟩, (hAN b).2 ⟨hEnds.2, hb⟩⟩
    · intro n k v hv
      rw [hND n k] at hv
      show s.p.nodesTab n = true
      by_cases hcond : n = id ∧ k = "status"
      · rw [hcond.1]
        exact hrow
      · rw [if_neg hcond] at hv
        exact hc.nodeDataRow n k v hv
    · intro a b k v hv
      rw [hED a b k] at hv
      show s.p.edgesTab a b = true
      by_cases hcond : s.p.edgesTab a b = true ∧ (a = id ∨ b = id) ∧ k = "status"
      · exact hcond.1
      · rw [if_neg hcond] at hv
        exact hc.edgeDataRow a b k v hv
    · intro n hn k
      by_cases hn2 : n = id
      · show (if n = id then none else s.g.nData n k) = none
        rw [if_pos hn2]
      · show (if n = id then none else s.g.nData n k) = none
        rw [if_neg hn2]
        have hn3 : s.g.hasN n = false := by
          cases hx : s.g.hasN n
          · rfl
          · exfalso
            have : (s.g.removeNode id).hasN n = true := (hasN2 n).2 ⟨hx, hn2⟩
            rw [hn] at this
            exact Bool.noConfusion this
        exact hc.cacheNData n hn3 k
    · intro a b hE k
      by_cases htouch : a = id ∨ b = id
      · show (if a = id ∨ b = id then none else s.g.eData a b k) = none
        rw [if_pos htouch]
      · show (if a = id ∨ b = id then none else s.g.eData a b k) = none
        rw [if_neg htouch]
        push_neg at htouch
        have hE3 : s.g.hasE a b = false := by
          cases hx : s.g.hasE a b
          · rfl
          · exfalso
            have : (s.g.removeNode id).hasE a b = true :=
              (hasE2 a b).2 ⟨hx, htouch.1, htouch.2⟩
            rw [hE] at this
            exact Bool.noConfusion this
        exact hc.cacheEData a b hE3 k
  · rw [if_pos hrow]
    exact hc

theorem coherent_sde_one (s : Sys) (f t : String) (hc : Coherent s)
    (hrow : s.p.edgesTab f t = true) :
    Coherent { s with p := s.p.insertEdgeDataP f t "status" "deleted",
                      g := s.g.removeEdge f t } := by
  have hED : ∀ a b k, (s.p.insertEdgeDataP f t "status" "deleted").edgeDataTab a b k =
      if a = f ∧ b = t ∧ k = "status" then some "deleted" else s.p.edgeDataTab a b k := by
    intro a b k
    rw [insertEdgeDataP_edgeData]
  have hasE2 : ∀ a b, (s.g.removeEdge f t).hasE a b = true ↔
      (s.g.hasE a b = true ∧ ¬ (a = f ∧ b = t)) := by
    intro a b
    simp only [GCache.removeEdge, Bool.and_eq_true, decide_eq_true_eq]
  have hAE : ∀ a b, activeE (s.p.insertEdgeDataP f t "status" "deleted") a b ↔
      (activeE s.p a b ∧ ¬ (a = f ∧ b = t)) := by
    intro a b
    unfold activeE
    rw [hED a b "status"]
    show (s.p.edgesTab a b = true ∧ _) ↔ _
    by_cases hab : a = f ∧ b = t
    · rw [if_pos ⟨hab.1, hab.2, rfl⟩]
      simp [hab]
    · rw [if_neg (fun hcontr => hab ⟨hcontr.1, hcontr.2.1⟩)]
      simp [hab]
  constructor
  · intro n
    exact hc.cacheNode n
  · intro a b
    rw [hasE2 a b, hAE a b]
    exact and_congr_left fun _ => hc.cacheEdge a b
  · exact hc.nodeIdx
  · exact insertEdgeDataP_edgeIdx_coh s.p f t "status" "deleted" hc.edgeIdx
  · intro a b hE
    rw [hAE a b] at hE
    exact hc.edgeEnds a b hE.1
  · intro n k v hv
    exact hc.nodeDataRow n k v hv
  · intro a b k v hv
    rw [hED a b k] at hv
    show s.p.edgesTab a b = true
    by_cases hcond : a = f ∧ b = t ∧ k = "status"
    · rw [hcond.1, hcond.2.1]
      exact hrow
    · rw [if_neg hcond] at hv
      exact hc.edgeDataRow a b k v hv
  · intro n hn k
    exact hc.cacheNData n hn k
  · intro a b hE k
    by_cases hab : a = f ∧ b = t
    · show (if a = f ∧ b = t then none else s.g.eData a b k) = none
      rw [if_pos hab]
    · show (if a = f ∧ b = t then none else s.g.eData a b k) = none
      rw [if_neg hab]
      have hE3 : s.g.hasE a b = false := by
        cases hx : s.g.hasE a b
        · rfl
        · exfalso
          have h2 : (s.g.removeEdge f t).hasE a b = true := (hasE2 a b).2 ⟨hx, hab⟩
          rw [hE] at h2
          exact Bool.noConfusion h2
      exact hc.cacheEData a b hE3 k

theorem coherent_removeEdge_noop (s : Sys) (f t : String) (hc : Coherent s)
    (hE : s.g.hasE f t = false) :
    Coherent { s with g := s.g.removeEdge f t } := by
  have hasE2 : ∀ a b, (s.g.removeEdge f t).hasE a b = true ↔
      (s.g.hasE a b = true ∧ ¬ (a = f ∧ b = t)) := by
    intro a b
    simp only [GCache.removeEdge, Bool.and_eq_true, decide_eq_true_eq]
  constructor
  · intro n
    exact hc.cacheNode n
  · intro a b
    rw [hasE2 a b]
    by_cases hab : a = f ∧ b = t
    · constructor
      · intro hcontr
        exact absurd hab hcontr.2
      · intro hcontr
        exfalso
        have h1 := (hc.cacheEdge a b).2 hcontr
        rw [hab.1, hab.2, hE] at h1
        exact Bool.noConfusion h1
    · rw [hc.cacheEdge a b]
      simp [hab]
  · exact hc.nodeIdx
  · exact hc.edgeIdx
  · exact hc.edgeEnds
  · exact hc.nodeDataRow
  · exact hc.edgeDataRow
  · intro n hn k
    exact hc.cacheNData n hn k
  · intro a b hE2b k
    by_cases hab : a = f ∧ b = t
    · show (if a = f ∧ b = t then none else s.g.eData a b k) = none
      rw [if_pos hab]
    · show (if a = f ∧ b = t then none else s.g.eData a b k) = none
      rw [if_neg hab]
      have hE3 : s.g.hasE a b = false := by
        cases hx : s.g.hasE a b
        · rfl
        · exfalso
          have h2 : (s.g.removeEdge f t).hasE a b = true := (hasE2 a b).2 ⟨hx, hab⟩
          rw [hE2b] at h2
          exact Bool.noConfusion h2
      exact hc.cacheEData a b hE3 k

theorem coherent_deleteEdge (s : Sys) (f t : String) (hc : Coherent s) :
    Coherent (applyDeleteEdge s f t).1 := by
  unfold applyDeleteEdge
  by_cases hrow : s.p.edgeRowExists f t = true
  · rw [if_neg (not_not_intro hrow)]
    dsimp only
    by_cases hblk : (s.g.eData f t "type" = some "block") ∧ f ≠ t
    · rw [if_pos hblk, if_pos hblk]
      have hone : Coherent { s with
          p := s.p.insertEdgeDataP f t "status" "deleted",
          g := s.g.removeEdge f t } := coherent_sde_one s f t hc hrow
      by_cases hrev : (s.p.insertEdgeDataP f t "status" "deleted").edgeRowExists t f = true
      · rw [if_pos hrev]
        have hrev2 : s.p.edgesTab t f = true := hrev
        exact coherent_sde_one { s with
            p := s.p.insertEdgeDataP f t "status" "deleted",
            g := s.g.removeEdge f t } t f hone hrev2
      · rw [if_neg hrev]
        have hrev2 : s.p.edgesTab t f = false := by
          cases hx : s.p.edgesTab t f
          · rfl
          · exact absurd (show (s.p.insertEdgeDataP f t
              "status" "deleted").edgeRowExists t f = true from hx) hrev
        have hE2 : (s.g.removeEdge f t).hasE t f = false := by
          cases hx : (s.g.removeEdge f t).hasE t f
          · rfl
          · exfalso
            have h2 : (s.g.removeEdge f t).hasE t f = true ↔
                (s.g.hasE t f = true ∧ ¬ (t = f ∧ f = t)) := by
              simp only [GCache.removeEdge, Bool.and_eq_true, decide_eq_true_eq]
            have h3 := (h2.1 hx).1
            have h4 := (hc.cacheEdge t f).1 h3
            have h5 : s.p.edgesTab t f = true := h4.1
            rw [hrev2] at h5
            exact Bool.noConfusion h5
        exact coherent_removeEdge_noop { s with
            p := s.p.insertEdgeDataP f t "status" "deleted",
            g := s.g.removeEdge f t } t f hone hE2
    · rw [if_neg hblk, if_neg hblk]
      exact coherent_sde_one s f t hc hrow
  · rw [if_pos hrow]
    exact hc

theorem coherent_deleteBlock (s : Sys) (f t : String) (hc : Coherent s) :
    Coherent (applyDeleteBlock s f t).1 := by
  unfold applyDeleteBlock
  by_cases hguard : s.g.hasE f t = true
  · rw [if_neg (not_not_intro hguard)]
    by_cases hrow : s.p.edgeRowExists f t = true
    · rw [if_neg (not_not_intro hrow)]
      dsimp only
      by_cases hne : f ≠ t
      · rw [if_pos hne, if_pos hne]
        have hone : Coherent { s with
            p := s.p.insertEdgeDataP f t "status" "deleted",
            g := s.g.removeEdge f t } := coherent_sde_one s f t hc hrow
        by_cases hrev : (s.p.insertEdgeDataP f t "status" "deleted").edgeRowExists t f = true
        · rw [if_pos hrev]
          have hrev2 : s.p.edgesTab t f = true := hrev
          exact coherent_sde_one { s with
              p := s.p.insertEdgeDataP f t "status" "deleted",
              g := s.g.removeEdge f t } t f hone hrev2
        · rw [if_neg hrev]
          have hrev2 : s.p.edgesTab t f = false := by
            cases hx : s.p.edgesTab t f
            · rfl
            · exact absurd (show (s.p.insertEdgeDataP f t
                "status" "deleted").edgeRowExists t f = true from hx) hrev
          have hE2 : (s.g.removeEdge f t).hasE t f = false := by
            cases hx : (s.g.removeEdge f t).hasE t f
            · rfl
            · exfalso
              have h2 : (s.g.removeEdge f t).hasE t f = true ↔
                  (s.g.hasE t f = true ∧ ¬ (t = f ∧ f = t)) := by
                simp only [GCache.removeEdge, Bool.and_eq_true, decide_eq_true_eq]
              have h3 := (h2.1 hx).1
              have h4 := (hc.cacheEdge t f).1 h3
              have h5 : s.p.edgesTab t f = true := h4.1
              rw [hrev2] at h5
              exact Bool.noConfusion h5
          exact coherent_removeEdge_noop { s with
              p := s.p.insertEdgeDataP f t "status" "deleted",
              g := s.g.removeEdge f t } t f hone hE2
      · rw [if_neg hne, if_neg hne]
        exact coherent_sde_one s f t hc hrow
    · rw [if_pos hrow]
      exact hc
  · rw [if_pos hguard]
    exact hc

theorem coherent_loadGraph (s : Sys) (p2 : PState) (sc2 : SchemaCache)
    (hc : Coherent s)
    (h1 : p2.nodesTab = s.p.nodesTab) (h2 : p2.edgesTab = s.p.edgesTab)
    (h3 : p2.nodeDataTab = s.p.nodeDataTab) (h4 : p2.edgeDataTab = s.p.edgeDataTab)
    (h5 : p2.nodeIndexTab = s.p.nodeIndexTab) (h6 : p2.edgeIndexTab = s.p.edgeIndexTab) :
    Coherent { p := p2, g := loadGraph p2 sc2, sc := sc2 } := by
  have hAN : ∀ n, (loadGraph p2 sc2).hasN n = true ↔ activeN p2 n := by
    intro n
    show p2.nodeIndexTab "status" "active" n = true ↔ _
    unfold activeN
    rw [h5, h1, h3, hc.nodeIdx "active" n]
    constructor
    · intro hd
      exact ⟨hc.nodeDataRow n "status" "active" hd, hd⟩
    · exact fun h => h.2
  have hAE : ∀ a b, (loadGraph p2 sc2).hasE a b = true ↔ activeE p2 a b := by
    intro a b
    show (p2.edgeIndexTab "status" "active" a b && p2.nodeIndexTab "status" "active" a
        && p2.nodeIndexTab "status" "active" b) = true ↔ _
    unfold activeE
    rw [h5, h6, h2, h4]
    simp only [Bool.and_eq_true]
    rw [hc.edgeIdx "active" a b, hc.nodeIdx "active" a, hc.nodeIdx "active" b]
    constructor
    · intro hcond
      exact ⟨hc.edgeDataRow a b "status" "active" hcond.1.1, hcond.1.1⟩
    · intro hact
      have hEnds := hc.edgeEnds a b hact
      exact ⟨⟨hact.2, hEnds.1.2⟩, hEnds.2.2⟩
  refine ⟨hAN, hAE, ?_, ?_, ?_, ?_, ?_, ?_, ?_⟩
  · intro v n
    rw [h5, h3]
    exact hc.nodeIdx v n
  · intro v a b
    rw [h6, h4]
    exact hc.edgeIdx v a b
  · intro a b hact
    unfold activeE at hact
    rw [h2, h4] at hact
    have hEnds := hc.edgeEnds a b hact
    unfold activeN
    rw [h1, h3]
    exact hEnds
  · intro n k v hv
    rw [h3] at hv
    rw [h1]
    exact hc.nodeDataRow n k v hv
  · intro a b k v hv
    rw [h4] at hv
    rw [h2]
    exact hc.edgeDataRow a b k v hv
  · intro n hn k
    have hn2 : ¬ (p2.nodeIndexTab "status" "active" n = true ∧ sc2.node_in_memory k = true) := by
      intro hcontr
      have hx : (loadGraph p2 sc2).hasN n = true := hcontr.1
      rw [hn] at hx
      exact Bool.noConfusion hx
    show (if p2.nodeIndexTab "status" "active" n = true ∧ sc2.node_in_memory k = true
        then p2.nodeDataTab n k else none) = none
    rw [if_neg hn2]
  · intro a b hE k
    have hE2 : ¬ ((p2.edgeIndexTab "status" "active" a b &&
        p2.nodeIndexTab "status" "active" a && p2.nodeIndexTab "status" "active" b) = true ∧
        sc2.edge_in_memory k = true) := by
      intro hcontr
      have hx : (loadGraph p2 sc2).hasE a b = true := hcontr.1
      rw [hE] at hx
      exact Bool.noConfusion hx
    show (if (p2.edgeIndexTab "status" "active" a b && p2.nodeIndexTab "status" "active" a
        && p2.nodeIndexTab "status" "active" b) = true ∧ sc2.edge_in_memory k = true
        then p2.edgeDataTab a b k else none) = none
    rw [if_neg hE2]

theorem coherent_upsertSchema (s : Sys) (entity : String) (fields : List String)
    (hc : Coherent s) : Coherent (applyUpsertSchema s entity fields).1 := by
  unfold applyUpsertSchema
  by_cases hval : lowerS (trimS entity) ≠ "node" ∧ lowerS (trimS entity) ≠ "edge"
  · rw [if_pos hval]
    exact hc
  · rw [if_neg hval]
    dsimp only
    by_cases hemp : ((fields.map trimS).filter (fun s => s ≠ "")).isEmpty = true
    · rw [if_pos hemp]
      exact hc
    · rw [if_neg hemp]
      by_cases hent : lowerS (trimS entity) = "node"
      · rw [if_pos hent, if_pos hent]
        exact coherent_loadGraph s _ _ hc rfl rfl rfl rfl rfl rfl
      · rw [if_neg hent, if_neg hent]
        exact coherent_loadGraph s _ _ hc rfl rfl rfl rfl rfl rfl

theorem coherent_applyOp (s : Sys) (op : Op) (hc : Coherent s) (hsf : statusFree op) :
    Coherent (applyOp s op).1 := by
  cases op with
  | createNode id payload => exact coherent_createNode s id payload hc hsf
  | createEdge f t payload => exact coherent_createEdge s f t payload hc hsf
  | createBlock f t payload => exact coherent_createBlock s f t payload hc hsf
  | setNodeData id k v => exact coherent_setNodeData s id k v hc hsf
  | setEdgeData f t k v => exact coherent_setEdgeData s f t k v hc hsf
  | patchNode id payload => exact coherent_patchNode s id payload hc hsf
  | patchEdge f t payload => exact coherent_patchEdge s f t payload hc hsf
  | deleteNode id => exact coherent_deleteNode s id hc
  | deleteEdge f t => exact coherent_deleteEdge s f t hc
  | deleteBlock f t => exact coherent_deleteBlock s f t hc
  | upsertSchema entity fields => exact coherent_upsertSchema s entity fields hc

theorem coherent_runOps (s : Sys) (ops : List Op) (hc : Coherent s)
    (hops : ∀ op ∈ ops, statusFree op) : Coherent (runOps s ops) := by
  induction ops generalizing s with
  | nil => exact hc
  | cons op rest ih =>
    show Coherent (runOps (applyOp s op).1 rest)
    exact ih (applyOp s op).1
      (coherent_applyOp s op hc (hops op (List.mem_cons_self op rest)))
      (fun op2 hmem => hops op2 (List.mem_cons_of_mem op hmem))

theorem coherent_empty : Coherent emptySys := by
  refine ⟨?_, ?_, ?_, ?_, ?_, ?_, ?_, ?_, ?_⟩
  · intro n
    simp [emptySys, activeN]
  · intro f t
    simp [emptySys, activeE]
  · intro v n
    simp [emptySys]
  · intro v f t
    simp [emptySys]
  · intro f t h
    exact absurd h.1 (by simp [emptySys])
  · intro n k v h
    simp [emptySys] at h
  · intro f t k v h
    simp [emptySys] at h
  · intro n h k
    rfl
  · intro f t h k
    rfl

/-! ### C4: cache ⇔ persistent active set -/

/-- C4 counterexample.  From the empty (coherent) state, a single
`create_node` whose payload explicitly carries `status = deleted` persists the
node as deleted but still installs it in the cache (`create_node` never checks
the supplied status), so the cached id set differs from the persisted active
set after one handler operation. -/
theorem C4_cache_active_counterexample :
    Coherent emptySys ∧
    (applyOp emptySys (Op.createNode "a" [("status", "deleted")])).1.g.hasN "a" = true ∧
    (applyOp emptySys (Op.createNode "a" [("status", "deleted")])).1.p.nodeDataTab "a" "status"
      = some "deleted" ∧
    ¬ ((applyOp emptySys (Op.createNode "a" [("status", "deleted")])).1.g.hasN "a" = true ↔
      ((applyOp emptySys (Op.createNode "a" [("status", "deleted")])).1.p.nodesTab "a" = true ∧
        (applyOp emptySys (Op.createNode "a" [("status", "deleted")])).1.p.nodeDataTab "a"
          "status" = some "active")) := by
  refine ⟨coherent_empty, ?_, ?_, ?_⟩ <;> decide

/-- C4 amended.  After any sequence of handler operations none of whose
caller-supplied payloads writes the `status` property (deletion only via the
delete endpoints, where the handlers manage `status` themselves), starting
from a coherent state: the cached node ids are exactly the persisted nodes
with `status = active`, and the cached `(from, to)` pairs are exactly the
persisted edges with `status = active` whose two endpoints are active. -/
theorem C4_cache_active_amended (s : Sys) (ops : List Op)
    (hc : Coherent s) (hops : ∀ op ∈ ops, statusFree op) :
    (∀ n, (runOps s ops).g.hasN n = true ↔
      ((runOps s ops).p.nodesTab n = true ∧
        (runOps s ops).p.nodeDataTab n "status" = some "active")) ∧
    (∀ f t, (runOps s ops).g.hasE f t = true ↔
      ((runOps s ops).p.edgesTab f t = true ∧
        (runOps s ops).p.edgeDataTab f t "status" = some "active" ∧
        activeN (runOps s ops).p f ∧ activeN (runOps s ops).p t)) := by
  have hrun := coherent_runOps s ops hc hops
  constructor
  · intro n
    exact hrun.cacheNode n
  · intro f t
    rw [hrun.cacheEdge f t]
    constructor
    · intro hE
      have hEnds := hrun.edgeEnds f t hE
      exact ⟨hE.1, hE.2, hEnds.1, hEnds.2⟩
    · intro hE
      exact ⟨hE.1, hE.2.1⟩

/-- C4 witness: a small run (two nodes and an edge) from the empty state. -/
theorem C4_cache_active_amended_witness :
    Coherent emptySys ∧
    (∀ op ∈ [Op.createNode "a" [], Op.createNode "b" [], Op.createEdge "a" "b" []],
      statusFree op) ∧
    ((runOps emptySys [Op.createNode "a" [], Op.createNode "b" [],
        Op.createEdge "a" "b" []]).g.hasN "a" = true ↔
      ((runOps emptySys [Op.createNode "a" [], Op.createNode "b" [],
          Op.createEdge "a" "b" []]).p.nodesTab "a" = true ∧
        (runOps emptySys [Op.createNode "a" [], Op.createNode "b" [],
          Op.createEdge "a" "b" []]).p.nodeDataTab "a" "status" = some "active")) := by
  have hops : ∀ op ∈ [Op.createNode "a" [], Op.createNode "b" [],
      Op.createEdge "a" "b" []], statusFree op := by
    intro op hmem
    simp only [List.mem_cons, List.not_mem_nil, or_false] at hmem
    rcases hmem with rfl | rfl | rfl <;>
      exact (by decide : ¬ payloadHasKey [] "status" = true)
  exact ⟨coherent_empty, hops,
    (C4_cache_active_amended emptySys _ coherent_empty hops).1 "a"⟩

/-! ### C6 and C7: the delete contracts -/

/-- C6.  `delete_node(id)` returns NotFound exactly when the node's primary
row is absent; otherwise it sets the node's `status` to `deleted`, marks every
persistent edge incident to `id` as `status = deleted` while keeping the edge
status index rows in step (the `deleted` row present, every other status row
gone), and removes the node from the cache. -/
theorem C6_delete_node_contract (s : Sys) (id : String) (hc : Coherent s) :
    ((applyDeleteNode s id).2 = HResult.notFound ↔ s.p.nodesTab id = false) ∧
    (s.p.nodesTab id = true →
      (applyDeleteNode s id).1.p.nodeDataTab id "status" = some "deleted" ∧
      (∀ f t, s.p.edgesTab f t = true → (f = id ∨ t = id) →
        (applyDeleteNode s id).1.p.edgeDataTab f t "status" = some "deleted" ∧
        (applyDeleteNode s id).1.p.edgeIndexTab "status" "deleted" f t = true ∧
        ∀ v, ¬ v = "deleted" → (applyDeleteNode s id).1.p.edgeIndexTab "status" v f t = false) ∧
      (applyDeleteNode s id).1.g.hasN id = false) := by
  have hpost := coherent_deleteNode s id hc
  by_cases hrow : s.p.nodeRowExists id = true
  · have happ : applyDeleteNode s id =
        ({ s with p := (s.p.insertNodeDataP id "status" "deleted").markEdgesDeletedP id,
                  g := s.g.removeNode id }, HResult.noContent) := by
      unfold applyDeleteNode
      rw [if_neg (not_not_intro hrow)]
    have hdataEdge : ∀ f t, s.p.edgesTab f t = true → (f = id ∨ t = id) →
        (applyDeleteNode s id).1.p.edgeDataTab f t "status" = some "deleted" := by
      intro f t hrowE htouch
      rw [happ]
      show ((s.p.insertNodeDataP id "status" "deleted").markEdgesDeletedP
        id).edgeDataTab f t "status" = some "deleted"
      rw [markEdges_edgeData]
      rw [if_pos ⟨hrowE, htouch, rfl⟩]
    refine ⟨?_, fun _ => ⟨?_, ?_, ?_⟩⟩
    · rw [happ]
      constructor
      · intro h
        exact absurd (show HResult.noContent = HResult.notFound from h) (by decide)
      · intro h
        have h2 : s.p.nodesTab id = true := hrow
        exact absurd (h2.symm.trans h) (by decide)
    · rw [happ]
      show (s.p.insertNodeDataP id "status" "deleted").nodeDataTab id "status" = some "deleted"
      rw [insertNodeDataP_nodeData, if_pos ⟨rfl, rfl⟩]
    · intro f t hrowE htouch
      refine ⟨hdataEdge f t hrowE htouch, ?_, ?_⟩
      · exact (hpost.edgeIdx "deleted" f t).2 (hdataEdge f t hrowE htouch)
      · intro v hv
        cases hx : (applyDeleteNode s id).1.p.edgeIndexTab "status" v f t
        · rfl
        · exfalso
          have h2 := (hpost.edgeIdx v f t).1 hx
          rw [hdataEdge f t hrowE htouch] at h2
          exact hv (Option.some.inj h2).symm
    · rw [happ]
      show (s.g.removeNode id).hasN id = false
      simp [GCache.removeNode]
  · have happ : applyDeleteNode s id = (s, HResult.notFound) := by
      unfold applyDeleteNode
      rw [if_pos hrow]
    refine ⟨?_, ?_⟩
    · rw [happ]
      constructor
      · intro _
        cases hx : s.p.nodesTab id
        · rfl
        · exact absurd (show s.p.nodeRowExists id = true from hx) hrow
      · intro _
        rfl
    · intro h
      exact absurd (show s.p.nodeRowExists id = true from h) hrow

/-- C6 witness: delete a node with one incident edge in a concrete run. -/
theorem C6_delete_node_contract_witness :
    (runOps emptySys [Op.createNode "a" [], Op.createNode "b" [],
      Op.createEdge "a" "b" []]).p.nodesTab "a" = true ∧
    (applyDeleteNode (runOps emptySys [Op.createNode "a" [], Op.createNode "b" [],
      Op.createEdge "a" "b" []]) "a").1.p.edgeDataTab "a" "b" "status" = some "deleted" ∧
    (applyDeleteNode (runOps emptySys [Op.createNode "a" [], Op.createNode "b" [],
      Op.createEdge "a" "b" []]) "a").1.g.hasN "a" = false := by
  have hops : ∀ op ∈ [Op.createNode "a" [], Op.createNode "b" [],
      Op.createEdge "a" "b" []], statusFree op := by
    intro op hmem
    simp only [List.mem_cons, List.not_mem_nil, or_false] at hmem
    rcases hmem with rfl | rfl | rfl <;>
      exact (by decide : ¬ payloadHasKey [] "status" = true)
  have hc1 := coherent_runOps emptySys _ coherent_empty hops
  have h := C6_delete_node_contract (runOps emptySys [Op.createNode "a" [],
    Op.createNode "b" [], Op.createEdge "a" "b" []]) "a" hc1
  have hrow : (runOps emptySys [Op.createNode "a" [], Op.createNode "b" [],
      Op.createEdge "a" "b" []]).p.nodesTab "a" = true := by decide
  have hrowE : (runOps emptySys [Op.createNode "a" [], Op.createNode "b" [],
      Op.createEdge "a" "b" []]).p.edgesTab "a" "b" = true := by decide
  have h2 := h.2 hrow
  exact ⟨hrow, (h2.2.1 "a" "b" hrowE (Or.inl rfl)).1, h2.2.2⟩

/-- C7.  `delete_edge(from, to)` returns NotFound exactly when the edge's
primary row is absent; otherwise it soft-deletes the edge, and exactly when
the cached edge's current `type` is `block` and `from ≠ to` it also
soft-deletes the reverse row (when present) and removes both directions from
the cache. -/
theorem C7_delete_edge_contract (s : Sys) (f t : String) :
    ((applyDeleteEdge s f t).2 = HResult.notFound ↔ s.p.edgesTab f t = false) ∧
    (s.p.edgesTab f t = true →
      (applyDeleteEdge s f t).1.p.edgeDataTab f t "status" = some "deleted" ∧
      (applyDeleteEdge s f t).1.g.hasE f t = false ∧
      ((s.g.eData f t "type" = some "block" ∧ f ≠ t) →
        (applyDeleteEdge s f t).1.g.hasE t f = false ∧
        (s.p.edgesTab t f = true →
          (applyDeleteEdge s f t).1.p.edgeDataTab t f "status" = some "deleted")) ∧
      (¬ (s.g.eData f t "type" = some "block" ∧ f ≠ t) → f ≠ t → ∀ k,
        (applyDeleteEdge s f t).1.p.edgeDataTab t f k = s.p.edgeDataTab t f k)) := by
  by_cases hrow : s.p.edgeRowExists f t = true
  · constructor
    · unfold applyDeleteEdge
      rw [if_neg (not_not_intro hrow)]
      dsimp only
      constructor
      · intro h
        exact absurd (show HResult.noContent = HResult.notFound from h) (by decide)
      · intro h
        have h2 : s.p.edgesTab f t = true := hrow
        exact absurd (h2.symm.trans h) (by decide)
    · intro _
      unfold applyDeleteEdge
      rw [if_neg (not_not_intro hrow)]
      dsimp only
      by_cases hblk : (s.g.eData f t "type" = some "block") ∧ f ≠ t
      · rw [if_pos hblk, if_pos hblk]
        have hforward : ∀ (p2 : PState), p2 = (if (s.p.insertEdgeDataP f t "status"
            "deleted").edgeRowExists t f = true then (s.p.insertEdgeDataP f t "status"
            "deleted").insertEdgeDataP t f "status" "deleted" else
            s.p.insertEdgeDataP f t "status" "deleted") →
            p2.edgeDataTab f t "status" = some "deleted" := by
          intro p2 hp2
          subst hp2
          split
          · rw [insertEdgeDataP_edgeData]
            by_cases hcond : f = t ∧ t = f ∧ "status" = "status"
            · rw [if_pos hcond]
            · rw [if_neg hcond, insertEdgeDataP_edgeData, if_pos ⟨rfl, rfl, rfl⟩]
          · rw [insertEdgeDataP_edgeData, if_pos ⟨rfl, rfl, rfl⟩]
        refine ⟨hforward _ rfl, ?_, ?_, ?_⟩
        · show (((s.g.removeEdge f t).removeEdge t f).hasE f t) = false
          simp [GCache.removeEdge]
        · intro _
          constructor
          · show (((s.g.removeEdge f t).removeEdge t f).hasE t f) = false
            simp [GCache.removeEdge]
          · intro hrev
            have hrev2 : (s.p.insertEdgeDataP f t "status"
                "deleted").edgeRowExists t f = true := hrev
            rw [if_pos hrev2]
            rw [insertEdgeDataP_edgeData, if_pos ⟨rfl, rfl, rfl⟩]
        · intro hnot _ _
          exact absurd hblk hnot
      · rw [if_neg hblk, if_neg hblk]
        refine ⟨?_, ?_, ?_, ?_⟩
        · rw [insertEdgeDataP_edgeData, if_pos ⟨rfl, rfl, rfl⟩]
        · show ((s.g.removeEdge f t).hasE f t) = false
          simp [GCache.removeEdge]
        · intro hb
          exact absurd hb hblk
        · intro _ hne k
          rw [insertEdgeDataP_edgeData]
          rw [if_neg (fun hcontr => hne hcontr.2.1)]
  · have happ : applyDeleteEdge s f t = (s, HResult.notFound) := by
      unfold applyDeleteEdge
      rw [if_pos hrow]
    constructor
    · rw [happ]
      constructor
      · intro _
        cases hx : s.p.edgesTab f t
        · rfl
        · exact absurd (show s.p.edgeRowExists f t = true from hx) hrow
      · intro _
        rfl
    · intro h
      exact absurd (show s.p.edgeRowExists f t = true from h) hrow

/-- C7 witness: deleting a concrete block edge removes both directions. -/
theorem C7_delete_edge_contract_witness :
    (runOps emptySys [Op.createNode "a" [], Op.createNode "b" [],
      Op.createEdge "a" "b" [("type", "block")]]).p.edgesTab "a" "b" = true ∧
    (applyDeleteEdge (runOps emptySys [Op.createNode "a" [], Op.createNode "b" [],
      Op.createEdge "a" "b" [("type", "block")]]) "a" "b").1.p.edgeDataTab "b" "a" "status"
      = some "deleted" ∧
    (applyDeleteEdge (runOps emptySys [Op.createNode "a" [], Op.createNode "b" [],
      Op.createEdge "a" "b" [("type", "block")]]) "a" "b").1.g.hasE "b" "a" = false := by
  have h := C7_delete_edge_contract (runOps emptySys [Op.createNode "a" [],
    Op.createNode "b" [], Op.createEdge "a" "b" [("type", "block")]]) "a" "b"
  have hrow : (runOps emptySys [Op.createNode "a" [], Op.createNode "b" [],
      Op.createEdge "a" "b" [("type", "block")]]).p.edgesTab "a" "b" = true := by decide
  have hblk : (runOps emptySys [Op.createNode "a" [], Op.createNode "b" [],
      Op.createEdge "a" "b" [("type", "block")]]).g.eData "a" "b" "type" = some "block" ∧
      ("a" : String) ≠ "b" := by
    constructor
    · decide
    · decide
  have hrev : (runOps emptySys [Op.createNode "a" [], Op.createNode "b" [],
      Op.createEdge "a" "b" [("type", "block")]]).p.edgesTab "b" "a" = true := by decide
  have h2 := h.2 hrow
  exact ⟨hrow, (h2.2.2.1 hblk).2 hrev, (h2.2.2.1 hblk).1⟩

/-! ### C5: block-edge symmetry -/

theorem mirrorEdge_hasE (s : Sys) (f t : String) (data : List (String × String))
    (hft : s.g.hasE f t = true) (hnt : s.g.hasN t = true) :
    (mirrorEdge s f t data).g.hasE f t = true ∧
    (mirrorEdge s f t data).g.hasE t f = true := by
  unfold mirrorEdge
  dsimp only
  by_cases hrev : s.g.hasE t f = true
  · rw [if_neg (not_not_intro hrev)]
    show (cacheBulkEdgeData s.g s.sc t f data).hasE f t = true ∧
      (cacheBulkEdgeData s.g s.sc t f data).hasE t f = true
    rw [cacheBulkEdgeData_hasE]
    exact ⟨hft, hrev⟩
  · rw [if_pos hrev]
    show (cacheBulkEdgeData (s.g.addEdge t f) s.sc t f data).hasE f t = true ∧
      (cacheBulkEdgeData (s.g.addEdge t f) s.sc t f data).hasE t f = true
    rw [cacheBulkEdgeData_hasE]
    unfold GCache.addEdge
    rw [if_pos hnt]
    constructor
    · simp [hft]
    · simp

theorem mirrorEdge_edgeData (s : Sys) (f t : String) (data : List (String × String))
    (hne : f ≠ t) (k : String) :
    (mirrorEdge s f t data).p.edgeDataTab t f k =
      (lastVal data k).or (s.p.edgeDataTab t f k) ∧
    (mirrorEdge s f t data).p.edgeDataTab f t k = s.p.edgeDataTab f t k := by
  unfold mirrorEdge
  dsimp only
  by_cases hrev : s.g.hasE t f = true
  · rw [if_neg (not_not_intro hrev)]
    constructor
    · show (s.p.bulkEdgeDataP t f data).edgeDataTab t f k = _
      rw [bulkEdgeDataP_edgeData, if_pos ⟨rfl, rfl⟩]
    · show (s.p.bulkEdgeDataP t f data).edgeDataTab f t k = _
      rw [bulkEdgeDataP_edgeData, if_neg (fun h => hne h.1)]
  · rw [if_pos hrev]
    constructor
    · show ((s.p.insertEdgeRow t f).bulkEdgeDataP t f data).edgeDataTab t f k = _
      rw [bulkEdgeDataP_edgeData, if_pos ⟨rfl, rfl⟩]
      rfl
    · show ((s.p.insertEdgeRow t f).bulkEdgeDataP t f data).edgeDataTab f t k = _
      rw [bulkEdgeDataP_edgeData, if_neg (fun h => hne h.1)]
      rfl

/-- C5 counterexample.  Promoting an existing edge to `type = block` through
`set_edge_data` makes both directions exist, but the mirror writes only
`type` and `status` to the reverse row: the payloads differ at `weight`. -/
theorem C5_block_symmetry_counterexample :
    (runOps emptySys [Op.createNode "a" [], Op.createNode "b" [],
      Op.createEdge "a" "b" [("weight", "5")],
      Op.setEdgeData "a" "b" "type" "block"]).p.edgeDataTab "a" "b" "type"
      = some "block" ∧
    (runOps emptySys [Op.createNode "a" [], Op.createNode "b" [],
      Op.createEdge "a" "b" [("weight", "5")],
      Op.setEdgeData "a" "b" "type" "block"]).g.hasE "a" "b" = true ∧
    (runOps emptySys [Op.createNode "a" [], Op.createNode "b" [],
      Op.createEdge "a" "b" [("weight", "5")],
      Op.setEdgeData "a" "b" "type" "block"]).g.hasE "b" "a" = true ∧
    (runOps emptySys [Op.createNode "a" [], Op.createNode "b" [],
      Op.createEdge "a" "b" [("weight", "5")],
      Op.setEdgeData "a" "b" "type" "block"]).p.edgeDataTab "a" "b" "weight"
      = some "5" ∧
    (runOps emptySys [Op.createNode "a" [], Op.createNode "b" [],
      Op.createEdge "a" "b" [("weight", "5")],
      Op.setEdgeData "a" "b" "type" "block"]).p.edgeDataTab "b" "a" "weight"
      = none := by
  refine ⟨?_, ?_, ?_, ?_, ?_⟩ <;> decide

/-- C5 amended.  For an edge CREATED through `create_edge` with a `block`
payload and `from ≠ to` (both endpoints cached), both directions exist in the
cache and the two persisted rows agree on every caller-supplied key, each
carrying the payload's last-write value.  (The `set_edge_data` promotion path
mirrors only `type` and `status`; see the counterexample.) -/
theorem C5_block_symmetry_amended (s : Sys) (f t : String)
    (payload : List (String × String))
    (hguard : (s.g.hasN f && s.g.hasN t) = true)
    (hblock : lookupData (withStatusDefault payload) "type" = some "block")
    (hne : f ≠ t) :
    (applyCreateEdge s f t payload).2 = HResult.created ∧
    (applyCreateEdge s f t payload).1.g.hasE f t = true ∧
    (applyCreateEdge s f t payload).1.g.hasE t f = true ∧
    ∀ k, payloadHasKey (withStatusDefault payload) k = true →
      (applyCreateEdge s f t payload).1.p.edgeDataTab f t k =
        lastVal (withStatusDefault payload) k ∧
      (applyCreateEdge s f t payload).1.p.edgeDataTab t f k =
        lastVal (withStatusDefault payload) k ∧
      (lastVal (withStatusDefault payload) k).isSome = true := by
  have hf : s.g.hasN f = true := Bool.and_elim_left hguard
  have happ : applyCreateEdge s f t payload =
      (mirrorEdge { s with
          p := (s.p.insertEdgeRow f t).bulkEdgeDataP f t (withStatusDefault payload),
          g := cacheBulkEdgeData (s.g.addEdge f t) s.sc f t (withStatusDefault payload) }
        f t (withStatusDefault payload), HResult.created) := by
    unfold applyCreateEdge
    rw [if_neg (not_not_intro hguard)]
    dsimp only
    rw [if_pos ⟨hblock, hne⟩]
  have happ1 : (applyCreateEdge s f t payload).1 =
      mirrorEdge { s with
          p := (s.p.insertEdgeRow f t).bulkEdgeDataP f t (withStatusDefault payload),
          g := cacheBulkEdgeData (s.g.addEdge f t) s.sc f t (withStatusDefault payload) }
        f t (withStatusDefault payload) := by
    rw [happ]
  have happ2 : (applyCreateEdge s f t payload).2 = HResult.created := by
    rw [happ]
  have hs2E : (cacheBulkEdgeData (s.g.addEdge f t) s.sc f t
      (withStatusDefault payload)).hasE f t = true := by
    rw [cacheBulkEdgeData_hasE]
    unfold GCache.addEdge
    rw [if_pos hf]
    simp
  have hs2N : (cacheBulkEdgeData (s.g.addEdge f t) s.sc f t
      (withStatusDefault payload)).hasN t = true := by
    rw [cacheBulkEdgeData_hasN]
    unfold GCache.addEdge
    rw [if_pos hf]
    exact Bool.and_elim_right hguard
  have hm := mirrorEdge_hasE { s with
      p := (s.p.insertEdgeRow f t).bulkEdgeDataP f t (withStatusDefault payload),
      g := cacheBulkEdgeData (s.g.addEdge f t) s.sc f t (withStatusDefault payload) }
    f t (withStatusDefault payload) hs2E hs2N
  refine ⟨happ2, ?_, ?_, ?_⟩
  · rw [happ1]
    exact hm.1
  · rw [happ1]
    exact hm.2
  · intro k hk
    have hd2 := mirrorEdge_edgeData { s with
        p := (s.p.insertEdgeRow f t).bulkEdgeDataP f t (withStatusDefault payload),
        g := cacheBulkEdgeData (s.g.addEdge f t) s.sc f t (withStatusDefault payload) }
      f t (withStatusDefault payload) hne k
    obtain ⟨v, hv⟩ := Option.isSome_iff_exists.mp (lastVal_isSome_of_hasKey _ k hk)
    refine ⟨?_, ?_, lastVal_isSome_of_hasKey _ k hk⟩
    · rw [happ1, hd2.2]
      show ((s.p.insertEdgeRow f t).bulkEdgeDataP f t
        (withStatusDefault payload)).edgeDataTab f t k =
        lastVal (withStatusDefault payload) k
      rw [bulkEdgeDataP_edgeData, if_pos ⟨rfl, rfl⟩, hv]
      rfl
    · rw [happ1, hd2.1, hv]
      rfl

/-- C5 witness: a concrete block `create_edge` carries `weight` to both
directions. -/
theorem C5_block_symmetry_amended_witness :
    ((runOps emptySys [Op.createNode "a" [], Op.createNode "b" []]).g.hasN "a" &&
      (runOps emptySys [Op.createNode "a" [], Op.createNode "b" []]).g.hasN "b") = true ∧
    (applyCreateEdge (runOps emptySys [Op.createNode "a" [], Op.createNode "b" []])
      "a" "b" [("type", "block"), ("weight", "5")]).1.g.hasE "b" "a" = true ∧
    (applyCreateEdge (runOps emptySys [Op.createNode "a" [], Op.createNode "b" []])
      "a" "b" [("type", "block"), ("weight", "5")]).1.p.edgeDataTab "a" "b" "weight" =
      (applyCreateEdge (runOps emptySys [Op.createNode "a" [], Op.createNode "b" []])
        "a" "b" [("type", "block"), ("weight", "5")]).1.p.edgeDataTab "b" "a" "weight" := by
  have h := C5_block_symmetry_amended (runOps emptySys [Op.createNode "a" [],
    Op.createNode "b" []]) "a" "b" [("type", "block"), ("weight", "5")]
    (by decide) (by decide) (by decide)
  have hw := h.2.2.2 "weight" (by decide)
  exact ⟨by decide, h.2.2.1, hw.1.trans hw.2.1.symm⟩

/-! ### C8: whitelist filtering -/

theorem mem_dedupConsec (l : List String) (x : String) (h : x ∈ dedupConsec l) : x ∈ l := by
  induction l with
  | nil => exact absurd h (by simp [dedupConsec])
  | cons a rest ih =>
    cases rest with
    | nil => simpa [dedupConsec] using h
    | cons b rest2 =>
      unfold dedupConsec at h
      split at h
      · exact List.mem_cons_of_mem a (ih h)
      · rcases List.mem_cons.mp h with rfl | h2
        · exact List.mem_cons_self x _
        · exact List.mem_cons_of_mem a (ih h2)

theorem mem_of_normalized (F : List String) (hF : ∀ y ∈ F, trimS y = y ∧ y ≠ "")
    (x : String) (h : x ∈ normalizeFields F) : x ∈ F := by
  unfold normalizeFields at h
  have h2 := mem_dedupConsec _ x h
  have h3 : x ∈ (F.map trimS).filter (fun s => s ≠ "") :=
    ((List.mergeSort_perm ((F.map trimS).filter (fun s => s ≠ "")) lexLe).mem_iff).mp h2
  have h4 := List.mem_of_mem_filter h3
  obtain ⟨y, hy, hxy⟩ := List.mem_map.mp h4
  rw [← hxy, (hF y hy).1]
  exact hy

theorem trimmed_not_empty (F : List String) (hF : ∀ y ∈ F, trimS y = y ∧ y ≠ "")
    (hne : F ≠ []) : ((F.map trimS).filter (fun s => s ≠ "")).isEmpty = false := by
  cases F with
  | nil => exact absurd rfl hne
  | cons a rest =>
    have ha := hF a (List.mem_cons_self a rest)
    simp only [List.map_cons, List.filter_cons, ha.1]
    rw [if_pos (decide_eq_true ha.2)]
    rfl

theorem loadGraph_nData_in_memory (p : PState) (sc : SchemaCache) (n k : String)
    (h : ((loadGraph p sc).nData n k).isSome = true) : sc.node_in_memory k = true := by
  unfold loadGraph at h
  dsimp only at h
  by_cases hc : (p.nodeIndexTab "status" "active" n = true) ∧ sc.node_in_memory k = true
  · exact hc.2
  · rw [if_neg hc] at h
    exact Bool.noConfusion h

/-- C8.  When `F` is a nonempty list of already-trimmed nonempty field names,
`upsert_schema("node", F)` succeeds; afterwards every property key held in the
node cache belongs to `F`, while a `hydrate = true` read of any readable node
returns the full persisted property map, bypassing the whitelist. -/
theorem C8_whitelist_filtering (s : Sys) (F : List String)
    (hF : ∀ y ∈ F, trimS y = y ∧ y ≠ "") (hne : F ≠ []) :
    (applyUpsertSchema s "node" F).2 = HResult.noContent ∧
    (∀ n k, (((applyUpsertSchema s "node" F).1.g.nData n k).isSome = true) → k ∈ F) ∧
    (∀ id m, get_node_from_db (applyUpsertSchema s "node" F).1.p id
        (applyUpsertSchema s "node" F).1.sc true = some m →
      ∀ k, m k = (applyUpsertSchema s "node" F).1.p.nodeDataTab id k) := by
  have happ : applyUpsertSchema s "node" F =
      ({ p := { s.p with schemaNodeRow := some (normalizeFields F) },
         g := loadGraph { s.p with schemaNodeRow := some (normalizeFields F) }
           { s.sc with node_fields := normalizeFields F, node_defined := true },
         sc := { s.sc with node_fields := normalizeFields F, node_defined := true } },
       HResult.noContent) := by
    unfold applyUpsertSchema
    dsimp only
    rw [if_neg (by decide : ¬ (lowerS (trimS "node") ≠ "node" ∧
      lowerS (trimS "node") ≠ "edge"))]
    rw [trimmed_not_empty F hF hne]
    rw [if_neg (by decide : ¬ false = true)]
    rw [if_pos (by decide : lowerS (trimS "node") = "node")]
    rw [if_pos (by decide : lowerS (trimS "node") = "node")]
  have happ1 : (applyUpsertSchema s "node" F).1 =
      { p := { s.p with schemaNodeRow := some (normalizeFields F) },
        g := loadGraph { s.p with schemaNodeRow := some (normalizeFields F) }
          { s.sc with node_fields := normalizeFields F, node_defined := true },
        sc := { s.sc with node_fields := normalizeFields F, node_defined := true } } := by
    rw [happ]
  have happ2 : (applyUpsertSchema s "node" F).2 = HResult.noContent := by
    rw [happ]
  refine ⟨happ2, ?_, ?_⟩
  · intro n k hk
    rw [happ1] at hk
    have hmem := loadGraph_nData_in_memory _ _ n k hk
    simp only [SchemaCache.node_in_memory, decide_eq_true_eq] at hmem
    rcases hmem with h | h
    · exact absurd trivial h
    · exact mem_of_normalized F hF k (by simpa using h)
  · intro id m hm k
    rw [happ1] at hm
    unfold get_node_from_db at hm
    split at hm
    · exact Option.noConfusion hm
    · split at hm
      · exact Option.noConfusion hm
      · have hm2 := Option.some.inj hm
        rw [happ1, ← hm2]
        simp

/-- C8 witness: a concrete one-field node whitelist. -/
theorem C8_whitelist_filtering_witness :
    (∀ y ∈ ["name"], trimS y = y ∧ y ≠ "") ∧
    (applyUpsertSchema emptySys "node" ["name"]).2 = HResult.noContent ∧
    (((applyUpsertSchema emptySys "node" ["name"]).1.g.nData "a" "x").isSome = true →
      "x" ∈ ["name"]) := by
  have hF : ∀ y ∈ ["name"], trimS y = y ∧ y ≠ "" := by
    intro y hy
    simp only [List.mem_cons, List.not_mem_nil, or_false] at hy
    subst hy
    exact ⟨by decide, by decide⟩
  have h := C8_whitelist_filtering emptySys ["name"] hF (by decide)
  exact ⟨hF, h.1, fun hx => h.2.1 "a" "x" hx⟩

/-! ### C3: the recommendation contract -/

theorem optAdd_none_right (x : Option Rat) : optAdd x none = x := by
  cases x <;> rfl

theorem optAdd_assoc (x y z : Option Rat) :
    optAdd (optAdd x y) z = optAdd x (optAdd y z) := by
  cases x <;> cases y <;> cases z <;> simp [optAdd, add_assoc]

theorem optSum_append (l1 l2 : List Rat) :
    optSum (l1 ++ l2) = optAdd (optSum l1) (optSum l2) := by
  induction l1 with
  | nil => rfl
  | cons w rest ih =>
    simp only [List.cons_append, optSum, List.append_eq, ih, optAdd_assoc]

theorem optSum_eq_sum (l : List Rat) (h : l ≠ []) : optSum l = some l.sum := by
  induction l with
  | nil => exact absurd rfl h
  | cons w rest ih =>
    cases rest with
    | nil => simp [optSum, optAdd]
    | cons w2 r2 =>
      rw [show optSum (w :: w2 :: r2) = optAdd (some w) (optSum (w2 :: r2)) from rfl,
        ih (by simp)]
      simp [optAdd, List.sum_cons]

theorem findPred_cons (kv : String × Rat) (m : List (String × Rat)) (c : String) :
    List.find? (fun kv2 : String × Rat => kv2.1 = c) (kv :: m) =
      if kv.1 = c then some kv
      else List.find? (fun kv2 : String × Rat => kv2.1 = c) m := by
  rw [List.find?_cons]
  by_cases h : kv.1 = c
  · rw [decide_eq_true h, if_pos h]
  · rw [decide_eq_false h, if_neg h]

theorem scoreLookup_cons (kv : String × Rat) (m : List (String × Rat)) (x : String) :
    scoreLookup (kv :: m) x = if kv.1 = x then some kv.2 else scoreLookup m x := by
  unfold scoreLookup
  rw [findPred_cons]
  by_cases h : kv.1 = x
  · rw [if_pos h, if_pos h]
    rfl
  · rw [if_neg h, if_neg h]

theorem scoreLookup_map_ne (m : List (String × Rat)) (c : String) (w : Rat) (x : String)
    (hxc : ¬ x = c) :
    scoreLookup (m.map (fun kv : String × Rat =>
      if kv.1 = c then (kv.1, kv.2 + w) else kv)) x = scoreLookup m x := by
  induction m with
  | nil => rfl
  | cons kv rest ih =>
    rw [List.map_cons, scoreLookup_cons, scoreLookup_cons, ih]
    by_cases hkc : kv.1 = c
    · rw [if_pos hkc]
      dsimp only
      by_cases hkx : kv.1 = x
      · exact absurd (show x = c by rw [← hkx]; exact hkc) hxc
      · rw [if_neg hkx, if_neg hkx]
    · rw [if_neg hkc]

theorem addScore_cons (kv : String × Rat) (rest : List (String × Rat)) (c : String) (w : Rat) :
    addScore (kv :: rest) c w =
      if kv.1 = c then
        (kv.1, kv.2 + w) :: rest.map (fun kv2 : String × Rat =>
          if kv2.1 = c then (kv2.1, kv2.2 + w) else kv2)
      else kv :: addScore rest c w := by
  by_cases hkc : kv.1 = c
  · rw [if_pos hkc]
    unfold addScore
    rw [findPred_cons, if_pos hkc]
    rw [if_pos (show (some kv).isSome = true from rfl)]
    rw [List.map_cons, if_pos hkc]
  · rw [if_neg hkc]
    unfold addScore
    rw [findPred_cons, if_neg hkc]
    by_cases hsome : ((List.find? (fun kv2 : String × Rat => kv2.1 = c) rest).isSome) = true
    · rw [if_pos hsome, if_pos hsome, List.map_cons, if_neg hkc]
    · rw [if_neg hsome, if_neg hsome, List.cons_append]

theorem scoreLookup_addScore (m : List (String × Rat)) (c : String) (w : Rat) (x : String) :
    scoreLookup (addScore m c w) x =
      if x = c then optAdd (scoreLookup m x) (some w) else scoreLookup m x := by
  induction m with
  | nil =>
    have h0 : addScore [] c w = [(c, w)] := rfl
    rw [h0, scoreLookup_cons]
    by_cases hxc : x = c
    · rw [if_pos hxc.symm, if_pos hxc]
      rfl
    · rw [if_neg (fun h => hxc h.symm), if_neg hxc]
  | cons kv rest ih =>
    rw [addScore_cons]
    by_cases hkc : kv.1 = c
    · rw [if_pos hkc, scoreLookup_cons]
      dsimp only
      by_cases hkx : kv.1 = x
      · have hxc : x = c := by rw [← hkx, hkc]
        rw [if_pos hkx, if_pos hxc, scoreLookup_cons, if_pos hkx]
        rfl
      · have hxc : ¬ x = c := fun h => hkx (by rw [hkc, ← h])
        rw [if_neg hkx, if_neg hxc, scoreLookup_cons, if_neg hkx]
        exact scoreLookup_map_ne rest c w x hxc
    · rw [if_neg hkc, scoreLookup_cons, scoreLookup_cons]
      by_cases hkx : kv.1 = x
      · have hxc : ¬ x = c := fun h => hkc (hkx.trans h)
        rw [if_pos hkx, if_pos hkx, if_neg hxc]
      · rw [if_neg hkx, if_neg hkx, ih]

theorem innerFold_lookup (parseNum : String → Option Rat) (startId : String)
    (eT eI bl di : List String) (w1 : Rat) (l : List REdge)
    (scores : List (String × Rat)) (c : String) :
    scoreLookup (l.foldl
      (fun scores e2 =>
        if is_edge_type_excluded e2 eT then scores
        else if rejectCandidate startId bl eI di e2.dst then scores
        else addScore scores e2.dst (w1 * edge_weight parseNum e2))
      scores) c =
    if rejectCandidate startId bl eI di c then scoreLookup scores c
    else optAdd (scoreLookup scores c)
      (optSum ((l.filter (fun e2 => ¬ is_edge_type_excluded e2 eT ∧ e2.dst = c)).map
        (fun e2 => w1 * edge_weight parseNum e2))) := by
  induction l generalizing scores with
  | nil =>
    simp only [List.foldl_nil, List.filter_nil, List.map_nil, optSum, optAdd_none_right,
      ite_self]
  | cons e2 rest ih =>
    rw [List.foldl_cons, List.filter_cons]
    by_cases hexcl : is_edge_type_excluded e2 eT = true
    · rw [if_pos hexcl,
        if_neg (show ¬ ((decide (¬ is_edge_type_excluded e2 eT = true ∧ e2.dst = c)) = true)
          by simp [hexcl])]
      exact ih scores
    · rw [if_neg hexcl]
      by_cases hrej : rejectCandidate startId bl eI di e2.dst = true
      · rw [if_pos hrej]
        by_cases hdst : e2.dst = c
        · have hrc : rejectCandidate startId bl eI di c = true := hdst ▸ hrej
          rw [ih scores]
          rw [if_pos hrc, if_pos hrc]
        · rw [if_neg (show ¬ ((decide (¬ is_edge_type_excluded e2 eT = true ∧ e2.dst = c)) = true)
            by simp [hdst]), ih scores]
      · rw [if_neg hrej]
        by_cases hdst : e2.dst = c
        · subst hdst
          rw [if_pos (show (decide (¬ is_edge_type_excluded e2 eT = true ∧ e2.dst = e2.dst)) = true
            by simp [hexcl])]
          rw [ih (addScore scores e2.dst (w1 * edge_weight parseNum e2))]
          rw [if_neg hrej, if_neg hrej]
          rw [scoreLookup_addScore, if_pos rfl, List.map_cons]
          rw [show optSum ((w1 * edge_weight parseNum e2) ::
              (rest.filter (fun e3 => ¬ is_edge_type_excluded e3 eT ∧ e3.dst = e2.dst)).map
                (fun e3 => w1 * edge_weight parseNum e3)) =
            optAdd (some (w1 * edge_weight parseNum e2))
              (optSum ((rest.filter (fun e3 => ¬ is_edge_type_excluded e3 eT ∧
                e3.dst = e2.dst)).map (fun e3 => w1 * edge_weight parseNum e3))) from rfl]
          rw [optAdd_assoc]
        · rw [if_neg (show ¬ ((decide (¬ is_edge_type_excluded e2 eT = true ∧ e2.dst = c)) = true)
            by simp [hdst])]
          rw [ih (addScore scores e2.dst (w1 * edge_weight parseNum e2))]
          rw [scoreLookup_addScore,
            if_neg (show ¬ (c = e2.dst) from fun h => hdst h.symm)]

theorem outerFold_lookup (parseNum : String → Option Rat) (g : Graph) (startId : String)
    (eT eI bl di : List String) (l : List REdge) (scores : List (String × Rat))
    (c : String) :
    scoreLookup (l.foldl
      (fun scores e1 =>
        if is_edge_type_excluded e1 eT then scores
        else
          let w1 := edge_weight parseNum e1
          match g.getNode e1.dst with
          | none => scores
          | some node =>
            node.neighbors.foldl
              (fun scores e2 =>
                if is_edge_type_excluded e2 eT then scores
                else if rejectCandidate startId bl eI di e2.dst then scores
                else addScore scores e2.dst (w1 * edge_weight parseNum e2))
              scores)
      scores) c =
    if rejectCandidate startId bl eI di c then scoreLookup scores c
    else optAdd (scoreLookup scores c) (optSum (pathWeights parseNum g eT l c)) := by
  induction l generalizing scores with
  | nil =>
    rw [List.foldl_nil, show pathWeights parseNum g eT [] c = [] from rfl]
    simp only [optSum, optAdd_none_right, ite_self]
  | cons e1 rest ih =>
    rw [List.foldl_cons]
    by_cases hexcl : is_edge_type_excluded e1 eT = true
    · rw [if_pos hexcl]
      have hpw : pathWeights parseNum g eT (e1 :: rest) c = pathWeights parseNum g eT rest c := by
        unfold pathWeights
        rw [List.filter_cons,
          if_neg (show ¬ ((decide (¬ is_edge_type_excluded e1 eT = true)) = true) by simp [hexcl])]
      rw [hpw]
      exact ih scores
    · rw [if_neg hexcl]
      dsimp only
      have hpw : pathWeights parseNum g eT (e1 :: rest) c =
          (match g.getNode e1.dst with
           | none => []
           | some mid =>
             (mid.neighbors.filter (fun e2 =>
                 ¬ is_edge_type_excluded e2 eT ∧ e2.dst = c)).map
               (fun e2 => edge_weight parseNum e1 * edge_weight parseNum e2)) ++
          pathWeights parseNum g eT rest c := by
        unfold pathWeights
        rw [List.filter_cons,
          if_pos (show (decide (¬ is_edge_type_excluded e1 eT = true)) = true by simp [hexcl]),
          List.flatMap_cons]
      cases hget : g.getNode e1.dst with
      | none =>
        rw [hget] at hpw
        dsimp only at hpw
        rw [List.nil_append] at hpw
        rw [hpw]
        exact ih scores
      | some node =>
        rw [hget] at hpw
        dsimp only at hpw
        rw [hpw, ih, innerFold_lookup]
        by_cases hrc : rejectCandidate startId bl eI di c = true
        · simp only [if_pos hrc]
        · simp only [if_neg hrc]
          rw [optSum_append, optAdd_assoc]

theorem buildScores_lookup (parseNum : String → Option Rat) (g : Graph) (startId : String)
    (start : RNode) (eT eI bl di : List String) (c : String) :
    scoreLookup (buildScores parseNum g startId start eT eI bl di) c =
    if rejectCandidate startId bl eI di c then none
    else optSum (pathWeights parseNum g eT start.neighbors c) := by
  unfold buildScores
  rw [outerFold_lookup]
  rfl

theorem scoreKeys_nodup_addScore (m : List (String × Rat)) (c : String) (w : Rat)
    (h : (scoreKeys m).Nodup) : (scoreKeys (addScore m c w)).Nodup := by
  unfold addScore
  by_cases hsome : ((m.find? (fun kv => kv.1 = c)).isSome) = true
  · rw [if_pos hsome]
    have hkeys : scoreKeys (m.map (fun kv : String × Rat =>
        if kv.1 = c then (kv.1, kv.2 + w) else kv)) = scoreKeys m := by
      unfold scoreKeys
      rw [List.map_map]
      refine List.map_congr_left (fun kv _ => ?_)
      by_cases hkc : kv.1 = c <;> simp [Function.comp, hkc]
    rw [hkeys]
    exact h
  · rw [if_neg hsome]
    have hkeys : scoreKeys (m ++ [(c, w)]) = scoreKeys m ++ [c] := by
      unfold scoreKeys
      rw [List.map_append]
      rfl
    rw [hkeys, List.nodup_append]
    refine ⟨h, List.nodup_singleton c, ?_⟩
    intro a ha hc2
    simp only [List.mem_singleton] at hc2
    subst hc2
    obtain ⟨kv, hkv, hkva⟩ := List.mem_map.mp ha
    have hnone := List.find?_eq_none.mp (Option.not_isSome_iff_eq_none.mp hsome) kv hkv
    exact hnone (decide_eq_true hkva)

theorem innerFold_nodup (parseNum : String → Option Rat) (startId : String)
    (eT eI bl di : List String) (w1 : Rat) (l : List REdge)
    (scores : List (String × Rat)) (h : (scoreKeys scores).Nodup) :
    (scoreKeys (l.foldl
      (fun scores e2 =>
        if is_edge_type_excluded e2 eT then scores
        else if rejectCandidate startId bl eI di e2.dst then scores
        else addScore scores e2.dst (w1 * edge_weight parseNum e2))
      scores)).Nodup := by
  induction l generalizing scores with
  | nil => exact h
  | cons e2 rest ih =>
    rw [List.foldl_cons]
    refine ih _ ?_
    by_cases hexcl : is_edge_type_excluded e2 eT = true
    · rw [if_pos hexcl]
      exact h
    · rw [if_neg hexcl]
      by_cases hrej : rejectCandidate startId bl eI di e2.dst = true
      · rw [if_pos hrej]
        exact h
      · rw [if_neg hrej]
        exact scoreKeys_nodup_addScore _ _ _ h

theorem outerFold_nodup (parseNum : String → Option Rat) (g : Graph) (startId : String)
    (eT eI bl di : List String) (l : List REdge) (scores : List (String × Rat))
    (h : (scoreKeys scores).Nodup) :
    (scoreKeys (l.foldl
      (fun scores e1 =>
        if is_edge_type_excluded e1 eT then scores
        else
          let w1 := edge_weight parseNum e1
          match g.getNode e1.dst with
          | none => scores
          | some node =>
            node.neighbors.foldl
              (fun scores e2 =>
                if is_edge_type_excluded e2 eT then scores
                else if rejectCandidate startId bl eI di e2.dst then scores
                else addScore scores e2.dst (w1 * edge_weight parseNum e2))
              scores)
      scores)).Nodup := by
  induction l generalizing scores with
  | nil => exact h
  | cons e1 rest ih =>
    rw [List.foldl_cons]
    refine ih _ ?_
    by_cases hexcl : is_edge_type_excluded e1 eT = true
    · rw [if_pos hexcl]
      exact h
    · rw [if_neg hexcl]
      dsimp only
      cases hget : g.getNode e1.dst with
      | none => exact h
      | some node => exact innerFold_nodup parseNum startId eT eI bl di _ _ _ h

theorem buildScores_nodup (parseNum : String → Option Rat) (g : Graph) (startId : String)
    (start : RNode) (eT eI bl di : List String) :
    (scoreKeys (buildScores parseNum g startId start eT eI bl di)).Nodup := by
  unfold buildScores
  exact outerFold_nodup parseNum g startId eT eI bl di start.neighbors [] List.nodup_nil

theorem scoreLookup_of_mem (m : List (String × Rat)) (kv : String × Rat)
    (hmem : kv ∈ m) (hnd : (scoreKeys m).Nodup) : scoreLookup m kv.1 = some kv.2 := by
  induction m with
  | nil => exact absurd hmem (List.not_mem_nil kv)
  | cons kv0 rest ih =>
    rw [scoreLookup_cons]
    have hnd' : (kv0.1 :: scoreKeys rest).Nodup := hnd
    have hnd2 := List.nodup_cons.mp hnd'
    rcases List.mem_cons.mp hmem with rfl | hmem2
    · rw [if_pos rfl]
    · by_cases h0 : kv0.1 = kv.1
      · exfalso
        have hk : kv.1 ∈ scoreKeys rest := List.mem_map.mpr ⟨kv, hmem2, rfl⟩
        exact hnd2.1 (by rw [h0]; exact hk)
      · rw [if_neg h0]
        exact ih hmem2 hnd2.2

theorem scoreLookup_some_mem (m : List (String × Rat)) (x : String) (v : Rat)
    (h : scoreLookup m x = some v) : (x, v) ∈ m := by
  unfold scoreLookup at h
  obtain ⟨kv, hfind, hv⟩ := Option.map_eq_some'.mp h
  have hmem := List.mem_of_find?_eq_some hfind
  have hpred := @List.find?_some (String × Rat)
    (fun kv2 => decide (kv2.1 = x)) kv m hfind
  have hx : kv.1 = x := of_decide_eq_true hpred
  obtain ⟨k1, k2⟩ := kv
  have hx2 : k1 = x := hx
  have hv2 : k2 = v := hv
  subst hx2
  subst hv2
  exact hmem

theorem passesFilters_getNode (parseNum : String → Option Rat)
    (distKm : Rat × Rat → Rat × Rat → Rat) (g : Graph) (q : RecommendQuery)
    (sp : Option (Rat × Rat)) (id : String) (node : RNode)
    (h : passesFilters parseNum distKm g q sp id = some node) :
    g.getNode id = some node := by
  unfold passesFilters at h
  cases hget : g.getNode id with
  | none =>
    rw [hget] at h
    exact Option.noConfusion h
  | some node0 =>
    rw [hget] at h
    dsimp only at h
    repeat
      first
      | exact Option.noConfusion h
      | exact h
      | split at h
      | dsimp only at h

theorem buildResults_mem (parseNum : String → Option Rat)
    (distKm : Rat × Rat → Rat × Rat → Rat) (g : Graph) (q : RecommendQuery)
    (sp : Option (Rat × Rat)) (scores : List (String × Rat)) (hwf : g.WF)
    (hnd : (scoreKeys scores).Nodup) (r : Recommendation) :
    r ∈ buildResults parseNum distKm g q sp scores ↔
      ∃ node, passesFilters parseNum distKm g q sp r.id = some node ∧
        scoreLookup scores r.id = some r.score ∧ r.data = node.data := by
  unfold buildResults
  rw [List.mem_filterMap]
  constructor
  · rintro ⟨kv, hkv, hf⟩
    cases hpf : passesFilters parseNum distKm g q sp kv.1 with
    | none =>
      rw [hpf] at hf
      exact Option.noConfusion hf
    | some node =>
      rw [hpf] at hf
      dsimp only at hf
      have hr := Option.some.inj hf
      have hid : node.id = kv.1 :=
        hwf kv.1 node (passesFilters_getNode parseNum distKm g q sp kv.1 node hpf)
      subst hr
      refine ⟨node, ?_, ?_, rfl⟩
      · show passesFilters parseNum distKm g q sp node.id = some node
        rw [hid]
        exact hpf
      · show scoreLookup scores node.id = some kv.2
        rw [hid]
        exact scoreLookup_of_mem scores kv hkv hnd
  · rintro ⟨node, hpf, hsl, hdata⟩
    refine ⟨(r.id, r.score), scoreLookup_some_mem _ _ _ hsl, ?_⟩
    dsimp only
    rw [hpf]
    have hid : node.id = r.id :=
      hwf r.id node (passesFilters_getNode parseNum distKm g q sp r.id node hpf)
    dsimp only
    rw [hid, ← hdata]

theorem innerBlock_eq (parseNum : String → Option Rat) (eT : List String) (c : String)
    (e1 : REdge) (l : List REdge) :
    (((l.filter (fun e => ¬ is_edge_type_excluded e eT)).map (fun e2 => (e1, e2))).filter
       (fun p => p.2.dst = c)).map
      (fun p => edge_weight parseNum p.1 * edge_weight parseNum p.2)
    = (l.filter (fun e2 => ¬ is_edge_type_excluded e2 eT ∧ e2.dst = c)).map
        (fun e2 => edge_weight parseNum e1 * edge_weight parseNum e2) := by
  induction l with
  | nil => rfl
  | cons e2 rest ih =>
    rw [List.filter_cons, List.filter_cons]
    by_cases hA : is_edge_type_excluded e2 eT = true
    · rw [if_neg (show ¬ ((decide (¬ is_edge_type_excluded e2 eT = true)) = true)
          by simp [hA]),
        if_neg (show ¬ ((decide (¬ is_edge_type_excluded e2 eT = true ∧ e2.dst = c)) = true)
          by simp [hA])]
      exact ih
    · rw [if_pos (show (decide (¬ is_edge_type_excluded e2 eT = true)) = true by simp [hA]),
        List.map_cons, List.filter_cons]
      by_cases hB : e2.dst = c
      · rw [if_pos (show (decide ((e1, e2).2.dst = c)) = true by simp [hB]),
          if_pos (show (decide (¬ is_edge_type_excluded e2 eT = true ∧ e2.dst = c)) = true
            by simp [hA, hB]),
          List.map_cons, List.map_cons, ih]
      · rw [if_neg (show ¬ ((decide ((e1, e2).2.dst = c)) = true) by simp [hB]),
          if_neg (show ¬ ((decide (¬ is_edge_type_excluded e2 eT = true ∧ e2.dst = c)) = true)
            by simp [hB])]
        exact ih

theorem pathWeights_eq (parseNum : String → Option Rat) (g : Graph) (eT : List String)
    (c : String) (l : List REdge) :
    (((l.filter (fun e => ¬ is_edge_type_excluded e eT)).flatMap
        (fun e1 =>
          match g.getNode e1.dst with
          | none => []
          | some mid =>
            (mid.neighbors.filter (fun e => ¬ is_edge_type_excluded e eT)).map
              (fun e2 => (e1, e2)))).filter
      (fun p => p.2.dst = c)).map
      (fun p => edge_weight parseNum p.1 * edge_weight parseNum p.2)
    = pathWeights parseNum g eT l c := by
  induction l with
  | nil => rfl
  | cons e1 rest ih =>
    by_cases hexcl : is_edge_type_excluded e1 eT = true
    · unfold pathWeights
      rw [List.filter_cons,
        if_neg (show ¬ ((decide (¬ is_edge_type_excluded e1 eT = true)) = true)
          by simp [hexcl]),
        ih]
      rfl
    · unfold pathWeights
      rw [List.filter_cons,
        if_pos (show (decide (¬ is_edge_type_excluded e1 eT = true)) = true by simp [hexcl]),
        List.flatMap_cons, List.filter_append, List.map_append, ih]
      congr 1
      dsimp only
      cases hget : g.getNode e1.dst with
      | none => rfl
      | some mid => exact innerBlock_eq parseNum eT c e1 mid.neighbors

theorem twoHop_pathWeights (parseNum : String → Option Rat) (g : Graph) (start : RNode)
    (eT : List String) (c : String) :
    ((twoHopPaths g start eT).filter (fun p => p.2.dst = c)).map
      (fun p => edge_weight parseNum p.1 * edge_weight parseNum p.2)
    = pathWeights parseNum g eT start.neighbors c := by
  unfold twoHopPaths
  exact pathWeights_eq parseNum g eT c start.neighbors

theorem specScore_eq (parseNum : String → Option Rat) (g : Graph) (start : RNode)
    (eT : List String) (c : String) :
    specScore parseNum g start eT c = (pathWeights parseNum g eT start.neighbors c).sum := by
  unfold specScore
  rw [twoHop_pathWeights]

theorem specContains_iff (parseNum : String → Option Rat) (g : Graph) (start : RNode)
    (eT : List String) (c : String) :
    ((twoHopPaths g start eT).map (fun p => p.2.dst)).contains c = true ↔
      pathWeights parseNum g eT start.neighbors c ≠ [] := by
  rw [← twoHop_pathWeights parseNum g start eT c]
  constructor
  · intro h hnil
    obtain ⟨p, hp, hpc⟩ := List.mem_map.mp (List.elem_iff.mp h)
    rw [List.map_eq_nil_iff, List.filter_eq_nil_iff] at hnil
    exact hnil p hp (decide_eq_true hpc)
  · intro h
    rw [Ne, List.map_eq_nil_iff, List.filter_eq_nil_iff] at h
    push_neg at h
    obtain ⟨p, hp, hpc⟩ := h
    exact List.elem_iff.mpr (List.mem_map.mpr ⟨p, hp, of_decide_eq_true hpc⟩)

theorem buildScores_spec (parseNum : String → Option Rat) (g : Graph) (startId : String)
    (start : RNode) (eT eI bl di : List String) (c : String) :
    scoreLookup (buildScores parseNum g startId start eT eI bl di) c =
    if specCandidate g startId start eT eI bl di c = true
    then some (specScore parseNum g start eT c) else none := by
  rw [buildScores_lookup parseNum g startId start eT eI bl di c]
  by_cases hrej : rejectCandidate startId bl eI di c = true
  · have hnc : ¬ specCandidate g startId start eT eI bl di c = true :=
      fun hc => (of_decide_eq_true hc).2 hrej
    rw [if_pos hrej, if_neg hnc]
  · rw [if_neg hrej]
    by_cases hpw : pathWeights parseNum g eT start.neighbors c = []
    · have hnc : ¬ specCandidate g startId start eT eI bl di c = true := fun hc =>
        absurd ((specContains_iff parseNum g start eT c).mp (of_decide_eq_true hc).1)
          (not_not_intro hpw)
      rw [hpw, if_neg hnc]
      rfl
    · have hcand : specCandidate g startId start eT eI bl di c = true :=
        decide_eq_true ⟨(specContains_iff parseNum g start eT c).mpr hpw, hrej⟩
      rw [optSum_eq_sum _ hpw, if_pos hcand, specScore_eq]

theorem uval_lt_trans {a b c : UInt32} (h1 : a < b) (h2 : b < c) : a < c := by
  simp only [UInt32.lt_def, BitVec.lt_def] at *
  omega

theorem uval_eq_of_not_lt {a b : UInt32} (h1 : ¬ a < b) (h2 : ¬ b < a) : a = b := by
  simp only [UInt32.lt_def, BitVec.lt_def] at *
  exact UInt32.ext (show a.toBitVec.toNat = b.toBitVec.toNat by omega)

theorem lexLeChars_total (a b : List Char) : (lexLeChars a b || lexLeChars b a) = true := by
  induction a generalizing b with
  | nil => rfl
  | cons c as_ ih =>
    cases b with
    | nil => rfl
    | cons d bs =>
      unfold lexLeChars
      by_cases h1 : c.val < d.val
      · rw [if_pos h1]
        rfl
      · rw [if_neg h1]
        by_cases h2 : d.val < c.val
        · rw [if_pos h2, if_pos h2]
          simp
        · rw [if_neg h2, if_neg h2, if_neg h1]
          exact ih bs

theorem lexLeChars_trans (a b c : List Char) (h1 : lexLeChars a b = true)
    (h2 : lexLeChars b c = true) : lexLeChars a c = true := by
  induction a generalizing b c with
  | nil => rfl
  | cons x as_ ih =>
    cases b with
    | nil => exact absurd h1 (by simp [lexLeChars])
    | cons y bs =>
      cases c with
      | nil => exact absurd h2 (by simp [lexLeChars])
      | cons z cs =>
        unfold lexLeChars at h1 h2 ⊢
        by_cases hxy : x.val < y.val
        · by_cases hyz : y.val < z.val
          · rw [if_pos (uval_lt_trans hxy hyz)]
          · by_cases hzy : z.val < y.val
            · rw [if_neg hyz, if_pos hzy] at h2
              exact absurd h2 (by simp)
            · have hyzeq : y.val = z.val := uval_eq_of_not_lt hyz hzy
              rw [if_pos (hyzeq ▸ hxy)]
        · by_cases hyx : y.val < x.val
          · rw [if_neg hxy, if_pos hyx] at h1
            exact absurd h1 (by simp)
          · have hxyeq : x.val = y.val := uval_eq_of_not_lt hxy hyx
            rw [if_neg hxy, if_neg hyx] at h1
            by_cases hyz : y.val < z.val
            · rw [if_pos (hxyeq ▸ hyz)]
            · by_cases hzy : z.val < y.val
              · rw [if_neg hyz, if_pos hzy] at h2
                exact absurd h2 (by simp)
              · have hyzeq : y.val = z.val := uval_eq_of_not_lt hyz hzy
                rw [if_neg hyz, if_neg hzy] at h2
                have hxz : ¬ x.val < z.val := by
                  rw [← hyzeq, ← hxyeq]
                  simp [UInt32.lt_def]
                have hzx : ¬ z.val < x.val := by
                  rw [← hyzeq, ← hxyeq]
                  simp [UInt32.lt_def]
                rw [if_neg hxz, if_neg hzx]
                exact ih bs cs h1 h2

theorem recLe_total (a b : Recommendation) : (recLe a b || recLe b a) = true := by
  simp only [recLe, Bool.or_eq_true, decide_eq_true_eq]
  rcases lt_trichotomy a.score b.score with h | h | h
  · exact Or.inr (Or.inl h)
  · rcases Bool.or_eq_true_iff.mp (lexLeChars_total a.id.data b.id.data) with h2 | h2
    · exact Or.inl (Or.inr ⟨h.symm, h2⟩)
    · exact Or.inr (Or.inr ⟨h, h2⟩)
  · exact Or.inl (Or.inl h)

theorem recLe_trans (a b c : Recommendation) (h1 : recLe a b = true)
    (h2 : recLe b c = true) : recLe a c = true := by
  simp only [recLe, decide_eq_true_eq] at h1 h2 ⊢
  rcases h1 with h1 | ⟨h1e, h1l⟩
  · rcases h2 with h2 | ⟨h2e, h2l⟩
    · exact Or.inl (lt_trans h2 h1)
    · exact Or.inl (by rw [h2e]; exact h1)
  · rcases h2 with h2 | ⟨h2e, h2l⟩
    · exact Or.inl (by rw [← h1e]; exact h2)
    · exact Or.inr ⟨h2e.trans h1e, lexLeChars_trans a.id.data b.id.data c.id.data h1l h2l⟩

theorem WF_of_entries (g : Graph) (h : ∀ kv ∈ g.nodes, kv.2.id = kv.1) : g.WF := by
  intro id n hn
  unfold Graph.getNode at hn
  obtain ⟨kv, hfind, hkv⟩ := Option.map_eq_some'.mp hn
  have hmem := List.mem_of_find?_eq_some hfind
  have hpred := @List.find?_some (String × RNode)
    (fun kv2 => decide (kv2.1 = id)) kv g.nodes hfind
  have hid : kv.1 = id := of_decide_eq_true hpred
  have hkv2 : kv.2 = n := hkv
  rw [← hkv2]
  exact (h kv hmem).trans hid

/-- C3.  For every cache state and recommendation query (start node cached,
geo precondition satisfied), `recommend_nodes` succeeds and returns, up to
the `limit` truncation, a list sorted by score descending with ties broken by
ascending id, in which: the score map gives every candidate `c` exactly
`Σ w₁·w₂` over the qualifying length-2 paths ending at `c` (none when `c` is
rejected or unreachable), every returned row is a filtered spec-candidate
carrying that score, and every spec-candidate passing the post-filters
appears.  `f64` arithmetic is abstracted by the `parseNum`/`distKm`
parameters. -/
theorem C3_recommendation_contract (parseNum : String → Option Rat)
    (distKm : Rat × Rat → Rat × Rat → Rat) (g : Graph) (q : RecommendQuery)
    (start : RNode) (hwf : g.WF) (hstart : g.getNode q.start = some start)
    (hgeo : ¬ (q.radius_km.isSome = true ∧ (startPoint parseNum q start).isNone = true)) :
    ∃ full : List Recommendation,
      recommend parseNum distKm g q =
        Except.ok (match q.limit with | some l => full.take l | none => full) ∧
      List.Pairwise (fun a b => recLe a b = true) full ∧
      (∀ c, scoreLookup (buildScores parseNum g q.start start
          (parse_csv_set q.exclude_edge_types) (parse_csv_set q.exclude_ids)
          (blockedOf start (parse_csv_set q.exclude_edge_types))
          (directOf start (parse_csv_set q.exclude_edge_types))) c =
        if specCandidate g q.start start (parse_csv_set q.exclude_edge_types)
            (parse_csv_set q.exclude_ids)
            (blockedOf start (parse_csv_set q.exclude_edge_types))
            (directOf start (parse_csv_set q.exclude_edge_types)) c = true
        then some (specScore parseNum g start (parse_csv_set q.exclude_edge_types) c)
        else none) ∧
      (∀ r ∈ full, ∃ node,
        passesFilters parseNum distKm g q (startPoint parseNum q start) r.id = some node ∧
        specCandidate g q.start start (parse_csv_set q.exclude_edge_types)
          (parse_csv_set q.exclude_ids)
          (blockedOf start (parse_csv_set q.exclude_edge_types))
          (directOf start (parse_csv_set q.exclude_edge_types)) r.id = true ∧
        r.score = specScore parseNum g start (parse_csv_set q.exclude_edge_types) r.id ∧
        r.data = node.data) ∧
      (∀ c node,
        specCandidate g q.start start (parse_csv_set q.exclude_edge_types)
          (parse_csv_set q.exclude_ids)
          (blockedOf start (parse_csv_set q.exclude_edge_types))
          (directOf start (parse_csv_set q.exclude_edge_types)) c = true →
        passesFilters parseNum distKm g q (startPoint parseNum q start) c = some node →
        (⟨c, specScore parseNum g start (parse_csv_set q.exclude_edge_types) c, node.data⟩ :
          Recommendation) ∈ full) := by
  refine ⟨(buildResults parseNum distKm g q (startPoint parseNum q start)
      (buildScores parseNum g q.start start (parse_csv_set q.exclude_edge_types)
        (parse_csv_set q.exclude_ids)
        (blockedOf start (parse_csv_set q.exclude_edge_types))
        (directOf start (parse_csv_set q.exclude_edge_types)))).mergeSort recLe,
    ?_, ?_, ?_, ?_, ?_⟩
  · unfold recommend
    rw [hstart]
    dsimp only
    rw [if_neg hgeo]
    rfl
  · exact List.sorted_mergeSort recLe_trans recLe_total _
  · intro c
    exact buildScores_spec parseNum g q.start start _ _ _ _ c
  · intro r hr
    have hr2 : r ∈ buildResults parseNum distKm g q (startPoint parseNum q start)
        (buildScores parseNum g q.start start (parse_csv_set q.exclude_edge_types)
          (parse_csv_set q.exclude_ids)
          (blockedOf start (parse_csv_set q.exclude_edge_types))
          (directOf start (parse_csv_set q.exclude_edge_types))) :=
      (List.mergeSort_perm _ recLe).mem_iff.mp hr
    have hnd := buildScores_nodup parseNum g q.start start
      (parse_csv_set q.exclude_edge_types) (parse_csv_set q.exclude_ids)
      (blockedOf start (parse_csv_set q.exclude_edge_types))
      (directOf start (parse_csv_set q.exclude_edge_types))
    obtain ⟨node, hpf, hsl, hdata⟩ :=
      (buildResults_mem parseNum distKm g q _ _ hwf hnd r).mp hr2
    have hspec := buildScores_spec parseNum g q.start start
      (parse_csv_set q.exclude_edge_types) (parse_csv_set q.exclude_ids)
      (blockedOf start (parse_csv_set q.exclude_edge_types))
      (directOf start (parse_csv_set q.exclude_edge_types)) r.id
    rw [hsl] at hspec
    by_cases hcand : specCandidate g q.start start
        (parse_csv_set q.exclude_edge_types) (parse_csv_set q.exclude_ids)
        (blockedOf start (parse_csv_set q.exclude_edge_types))
        (directOf start (parse_csv_set q.exclude_edge_types)) r.id = true
    · rw [if_pos hcand] at hspec
      exact ⟨node, hpf, hcand, Option.some.inj hspec, hdata⟩
    · rw [if_neg hcand] at hspec
      exact Option.noConfusion hspec
  · intro c node hcand hpf
    have hnd := buildScores_nodup parseNum g q.start start
      (parse_csv_set q.exclude_edge_types) (parse_csv_set q.exclude_ids)
      (blockedOf start (parse_csv_set q.exclude_edge_types))
      (directOf start (parse_csv_set q.exclude_edge_types))
    have hspec := buildScores_spec parseNum g q.start start
      (parse_csv_set q.exclude_edge_types) (parse_csv_set q.exclude_ids)
      (blockedOf start (parse_csv_set q.exclude_edge_types))
      (directOf start (parse_csv_set q.exclude_edge_types)) c
    rw [if_pos hcand] at hspec
    have hmem := (buildResults_mem parseNum distKm g q (startPoint parseNum q start) _
      hwf hnd ⟨c, specScore parseNum g start (parse_csv_set q.exclude_edge_types) c,
        node.data⟩).mpr ⟨node, hpf, hspec, rfl⟩
    exact (List.mergeSort_perm _ recLe).mem_iff.mpr hmem

/-- C3 witness: a concrete three-node chain `s → m → c` with the trivial
number parser and distance function. -/
theorem C3_recommendation_contract_witness :
    ∃ full : List Recommendation,
      recommend (fun _ => (none : Option Rat)) (fun _ _ => (0 : Rat)) gW qW =
        Except.ok (match qW.limit with | some l => full.take l | none => full) ∧
      List.Pairwise (fun a b => recLe a b = true) full := by
  obtain ⟨full, h1, h2, _⟩ := C3_recommendation_contract
    (fun _ => (none : Option Rat)) (fun _ _ => (0 : Rat)) gW qW
    ⟨"s", [⟨"m", []⟩], []⟩
    (WF_of_entries gW (by decide)) (by decide) (by decide)
  exact ⟨full, h1, h2⟩

end EloVerify
